import Mathlib

/-!
Shallow embedding of the PokerRank library (`src/lib.rs`) and verification of
its specification claims.

Modelling conventions:
* `u16` card values are modelled as `Nat`; `u16::from_str` checks the
  65535 bound explicitly (`parseU16`), so values stay in `u16` range.
* Rust panics (`unwrap`, the `NotRanked` comparator branch, out-of-bounds
  indexing) are modelled as `Option.none` of the enclosing operation.
* Rust `sort_by` is a stable sort; it is modelled by `List.insertionSort`
  on the non-strict relation `cmp a b ≠ .gt`, which is a stable sort for
  the same comparator, hence produces the same list.
* The `HashMap` built by `rank_hand` groups cards by value; its value
  iteration order is unspecified.  `groupByValue` fixes the
  first-occurrence order, and `rankHandWith` receives the two iterated
  group lists as explicit parameters so that theorems can quantify over
  every possible iteration order (each is a permutation of the groups).
  The source function `rank_hand` is `rankHand`, the canonical instance.
* Rust `str::split(" ")` and byte-length arithmetic agree with the
  char-level model below on ASCII input (all card tokens are ASCII).
-/

namespace PokerRanking

open List

/-- Stable sort by an `Ordering`-valued comparator, modelling Rust `sort_by`. -/
def sortByOrd (c : α → α → Ordering) (l : List α) : List α :=
  l.insertionSort fun a b => c a b ≠ Ordering.gt

/-- Comparator of natural numbers, modelling `u16::cmp` / `usize::cmp`. -/
def natCmp (a b : Nat) : Ordering :=
  if a < b then .lt else if a = b then .eq else .gt

/-- `enum PokerRank` of the source, with its explicit discriminants in `rankVal`. -/
inductive PokerRank where
  | StraightFlush | FourOfAKind | FullHouse | Flush | Straight
  | ThreeOfAKind | TwoPair | OnePair | HighCard | NotRanked
  deriving DecidableEq

/-- The `as u32` discriminant of `PokerRank`, used by its `partial_cmp`. -/
def rankVal : PokerRank → Nat
  | .StraightFlush => 9
  | .FourOfAKind => 8
  | .FullHouse => 7
  | .Flush => 6
  | .Straight => 5
  | .ThreeOfAKind => 4
  | .TwoPair => 3
  | .OnePair => 2
  | .HighCard => 1
  | .NotRanked => 0

/-- `enum CardSuit` of the source. -/
inductive CardSuit where
  | Spade | Heart | Diamond | Club | Joker
  deriving DecidableEq

/-- `CardSuit::from_abbrev`: decode a suit character (`to_ascii_uppercase`
followed by the match; any unmatched character yields the `Joker` sentinel). -/
def CardSuit.fromAbbrev (ch : Char) : CardSuit :=
  match ch.toUpper with
  | 'S' => .Spade
  | 'C' => .Club
  | 'D' => .Diamond
  | 'H' => .Heart
  | _ => .Joker

/-- `struct Card { suit, value }`. -/
structure Card where
  suit : CardSuit
  value : Nat
  deriving DecidableEq

/-- `struct PokerHand` of the source. -/
structure PokerHand where
  id : Nat
  cards : List Card
  rank : PokerRank
  rank_swapped_aces : Bool
  cards_ranked : List Card
  spares : List Card
  deriving DecidableEq

/-- Result of `rank_hand`: the four fields it assigns. -/
structure RankResult where
  rank : PokerRank
  cards_ranked : List Card
  spares : List Card
  swapped : Bool
  deriving DecidableEq

/-- The value sequence of a list of cards. -/
def vals (l : List Card) : List Nat := l.map (·.value)

/-- `u16::from_str`: optional leading `+`, one or more ASCII digits, value
at most `u16::MAX`. -/
def parseU16 (cs : List Char) : Option Nat :=
  let ds := match cs with
    | '+' :: rest => rest
    | _ => cs
  if ds.isEmpty then none
  else if ds.all (·.isDigit) then
    let v := ds.foldl (fun a c => a * 10 + (c.toNat - 48)) 0
    if v ≤ 65535 then some v else none
  else none

/-- The rank-token parse of `from_parse`: `parse::<u16>()`, with the
`A`/`K`/`Q`/`J` fallback on error. -/
def parseRankChars (cs : List Char) : Option Nat :=
  match parseU16 cs with
  | some v => some v
  | none =>
    match cs with
    | ['A'] => some 14
    | ['K'] => some 13
    | ['Q'] => some 12
    | ['J'] => some 11
    | _ => none

/-- Parse one card token: the suit from the last character
(`chars().last().unwrap()` — panic on an empty token, modelled as `none`),
the value from the remaining characters. -/
def parseCard (tok : List Char) : Option Card := do
  let lastCh ← tok.getLast?
  let v ← parseRankChars tok.dropLast
  pure { suit := CardSuit.fromAbbrev lastCh, value := v }

/-- `str::split(" ")` at the character level: empty pieces are kept, the
empty string yields one empty piece. -/
def splitSpaces : List Char → List (List Char)
  | [] => [[]]
  | c :: rest =>
    if c = ' ' then [] :: splitSpaces rest
    else
      match splitSpaces rest with
      | [] => [[c]]
      | t :: ts => (c :: t) :: ts

/-- Parse every token of a hand string into cards, in order; `none` if any
token fails (the Rust code would panic there). -/
def parseCardsFrom : List (List Char) → Option (List Card)
  | [] => some []
  | t :: ts => do
    let c ← parseCard t
    let cs ← parseCardsFrom ts
    pure (c :: cs)

/-- The card-building fold of `from_parse`. -/
def parseCards (phand : String) : Option (List Card) :=
  parseCardsFrom (splitSpaces phand.data)

/-- The check of the `StraightFlush` arm: every card has the suit of card 0. -/
def allSameSuit : List Card → Bool
  | [] => true
  | c :: rest => (c :: rest).all fun x => decide (x.suit = c.suit)

/-- Tail of the consecutiveness check: each value is its predecessor plus one. -/
def consecFrom (v : Nat) : List Card → Bool
  | [] => true
  | c :: cs => (c.value == v + 1) && consecFrom c.value cs

/-- The consecutiveness check of the `StraightFlush`/`Straight` arms:
`card[idx].value == card[idx-1].value + 1` for every `idx > 0`. -/
def isConsecutive : List Card → Bool
  | [] => true
  | c :: cs => consecFrom c.value cs

/-- The check of the `StraightFlush` arm: one suit and consecutive values. -/
def sfCheck (cards : List Card) : Bool :=
  allSameSuit cards && isConsecutive cards

/-- `aces_swap_over`: run the check; on failure map every ace (14) to 1,
re-sort ascending, and retry once.  `some (ranked, swapped)` corresponds to
the `ret == true` path, which assigns `cards_ranked` and `rank_swapped_aces`. -/
def acesSwapOver (check : List Card → Bool) (cards : List Card) :
    Option (List Card × Bool) :=
  if check cards then some (cards, false)
  else
    let swapped := sortByOrd (fun a b => natCmp a.value b.value)
      (cards.map fun c => if c.value = 14 then { c with value := 1 } else c)
    if check swapped then some (swapped, true) else none

/-- One step of the `HashMap` grouping fold
(`result.entry(card.value).or_insert(Vec::new()).push(card)`), on an
association list keyed by card value. -/
def insertGroup (c : Card) : List (Nat × List Card) → List (Nat × List Card)
  | [] => [(c.value, [c])]
  | (v, g) :: rest =>
    if v = c.value then (v, g ++ [c]) :: rest
    else (v, g) :: insertGroup c rest

/-- The grouping of a hand's cards by value, keys in first-occurrence order. -/
def groupPairs (cards : List Card) : List (Nat × List Card) :=
  cards.foldl (fun acc c => insertGroup c acc) []

/-- The groups of the `HashMap` built by `rank_hand`, in the canonical
first-occurrence order; `values()` iterates them in an unspecified order,
i.e. in some permutation of this list. -/
def groupByValue (cards : List Card) : List (List Card) :=
  (groupPairs cards).map (·.2)

/-- Lines 435-444 of `rank_hand`: if there are spare cards, remap every ace
(14) to 1 when one is present, then sort the spares descending by value. -/
def finishSpares (r : RankResult) : RankResult :=
  if r.spares.isEmpty then r
  else
    let sp :=
      if r.spares.any fun c => c.value == 14 then
        r.spares.map fun c => if c.value = 14 then { c with value := 1 } else c
      else r.spares
    { r with spares := sortByOrd (fun a b => natCmp b.value a.value) sp }

/-- The default arm of the `rankloop` (`ix ≤ 4`): group the cards by value
(`sorted2` is the iterated and length-sorted `HashMap` group list) and pick
`ThreeOfAKind`/`TwoPair` (three groups), `OnePair` (four groups) or
`HighCard` (otherwise). -/
def rankPairs (sorted2 : List (List Card)) : RankResult :=
  if sorted2.length = 3 then
    if (sorted2.headD []).length = 3 then
      { rank := .ThreeOfAKind, cards_ranked := sorted2.headD [],
        spares := (sorted2.drop 1).flatten, swapped := false }
    else
      { rank := .TwoPair,
        cards_ranked := sortByOrd (fun a b => natCmp b.value a.value)
          ((sorted2.take 2).flatten),
        spares := (sorted2.drop 2).flatten, swapped := false }
  else if sorted2.length = 4 then
    { rank := .OnePair, cards_ranked := sorted2.headD [],
      spares := (sorted2.drop 1).flatten, swapped := false }
  else
    { rank := .HighCard, cards_ranked := [], spares := sorted2.flatten, swapped := false }

/-- The `rankloop` arms below `StraightFlush` (`ix ≤ 8`): `sorted1` is the
length-sorted group list of the `FourOfAKind`/`FullHouse` arm. -/
def rankMid (gs1 gs2 : List (List Card)) (cards : List Card) : RankResult :=
  let sorted1 := sortByOrd (fun a b => natCmp b.length a.length) gs1
  if sorted1.length = 2 ∧ (sorted1.headD []).length = 4 then
    { rank := .FourOfAKind, cards_ranked := sorted1.headD [],
      spares := sorted1.getD 1 [], swapped := false }
  else if sorted1.length = 2 ∧ (sorted1.headD []).length = 3 then
    { rank := .FullHouse, cards_ranked := sorted1.flatten, spares := [], swapped := false }
  else if allSameSuit cards then
    { rank := .Flush, cards_ranked := cards, spares := [], swapped := false }
  else
    match acesSwapOver isConsecutive cards with
    | some (ranked, sw) =>
      { rank := .Straight, cards_ranked := ranked, spares := [], swapped := sw }
    | none => rankPairs (sortByOrd (fun a b => natCmp b.length a.length) gs2)

/-- `rank_hand`, with the two `HashMap` group iterations (the one of the
`FourOfAKind`/`FullHouse` arm and the one of the default arm) passed in as
`gs1` and `gs2`.  The `rankloop` runs `ix` from 9 down; every arm that
matches breaks, so the chain of conditionals mirrors it exactly, and the
spare-finishing step after the loop is applied to whichever arm matched. -/
def rankHandWith (gs1 gs2 : List (List Card)) (cards : List Card) : RankResult :=
  finishSpares <|
    match acesSwapOver sfCheck cards with
    | some (ranked, sw) =>
      { rank := .StraightFlush, cards_ranked := ranked, spares := [], swapped := sw }
    | none => rankMid gs1 gs2 cards

/-- `rank_hand` as executed: both `HashMap` iterations see the same groups
(in the canonical order). -/
def rankHand (cards : List Card) : RankResult :=
  rankHandWith (groupByValue cards) (groupByValue cards) cards

/-- `PokerHand::from_parse`, with the `HashMap` iteration orders of
`rank_hand` given by `f1`/`f2`: parse the tokens, sort the cards ascending
by value, rank the hand.  `none` models a parse panic. -/
def fromParseWith (f1 f2 : List Card → List (List Card)) (index : Nat)
    (phand : String) : Option PokerHand :=
  (parseCards phand).map fun cards =>
    let sorted := sortByOrd (fun a b => natCmp a.value b.value) cards
    let r := rankHandWith (f1 sorted) (f2 sorted) sorted
    { id := index, cards := sorted, rank := r.rank, rank_swapped_aces := r.swapped,
      cards_ranked := r.cards_ranked, spares := r.spares }

/-- `PokerHand::from_parse` as executed (canonical group order). -/
def fromParse (index : Nat) (phand : String) : Option PokerHand :=
  fromParseWith groupByValue groupByValue index phand

/-- The indexed value comparison of `PartialEq::eq`: iterate `self`'s cards,
indexing into `other` (`other.cards.get(idx).unwrap()` — a panic when
`other` is shorter, modelled as `false`; unreachable for five-card hands). -/
def valuesMatch : List Card → List Card → Bool
  | [], _ => true
  | _ :: _, [] => false
  | a :: as, b :: bs => (a.value == b.value) && valuesMatch as bs

/-- `PartialEq::eq` on `PokerHand`: equal rank and position-wise equal card
values (suits ignored). -/
def beqHand (a b : PokerHand) : Bool :=
  decide (a.rank = b.rank) && valuesMatch a.cards b.cards

/-- The value of the card at index `i`, if present. -/
def val? (l : List Card) (i : Nat) : Option Nat :=
  (l.get? i).map (·.value)

/-- The element-wise comparison loops of `partial_cmp` (`Flush`, `HighCard`,
and the spares loop of the pair ranks): iterate `self`'s list, indexing into
`other`'s (panic — `none` — when `other`'s is shorter), returning the first
non-equal comparison, `eq` when `self`'s list is exhausted. -/
def cmpSeq : List Card → List Card → Option Ordering
  | [], _ => some .eq
  | _ :: _, [] => none
  | a :: as, b :: bs =>
    match natCmp a.value b.value with
    | .eq => cmpSeq as bs
    | o => some o

/-- `PartialOrd::partial_cmp` on `PokerHand`.  `none` models a panic (the
`NotRanked` fallthrough, or indexing an absent card). -/
def pcmp (a b : PokerHand) : Option Ordering :=
  if beqHand a b then some .eq
  else if a.rank ≠ b.rank then some (natCmp (rankVal a.rank) (rankVal b.rank))
  else
    match a.rank with
    | .StraightFlush | .Straight => do
      let x ← val? a.cards_ranked 0
      let y ← val? b.cards_ranked 0
      some (natCmp x y)
    | .FourOfAKind => do
      let x ← val? a.cards_ranked 0
      let y ← val? b.cards_ranked 0
      if x = y then do
        let sx ← val? a.spares 0
        let sy ← val? b.spares 0
        some (natCmp sx sy)
      else some (natCmp x y)
    | .FullHouse => do
      let x ← val? a.cards_ranked 0
      let y ← val? b.cards_ranked 0
      match natCmp x y with
      | .eq => do
        let x3 ← val? a.cards_ranked 3
        let y3 ← val? b.cards_ranked 3
        some (natCmp x3 y3)
      | o => some o
    | .Flush => cmpSeq a.cards_ranked b.cards_ranked
    | .HighCard => cmpSeq a.spares b.spares
    | .ThreeOfAKind | .TwoPair | .OnePair => do
      let x ← val? a.cards_ranked 0
      let y ← val? b.cards_ranked 0
      let ord ←
        if natCmp x y = .eq ∧ a.rank = .TwoPair then do
          let x2 ← val? a.cards_ranked 2
          let y2 ← val? b.cards_ranked 2
          some (natCmp x2 y2)
        else some (natCmp x y)
      match ord with
      | .eq => cmpSeq a.spares b.spares
      | o => some o
    | .NotRanked => none

/-- The winner-collection loop of `winning_hands`: keep taking hands while
each compares `Equal` to its predecessor in the sorted order. -/
def winnersRun (prev : PokerHand) : List PokerHand → List PokerHand
  | [] => []
  | c :: rest => if pcmp c prev = some .eq then c :: winnersRun c rest else []

/-- The parsing fold of `winning_hands`: `from_parse(idx, hand)` for each
hand in order. -/
def parseAllWith (f1 f2 : List Card → List (List Card)) :
    Nat → List String → Option (List PokerHand)
  | _, [] => some []
  | idx, s :: rest => do
    let h ← fromParseWith f1 f2 idx s
    let t ← parseAllWith f1 f2 (idx + 1) rest
    pure (h :: t)

/-- `winning_hands`, with the `HashMap` iteration orders given by `f1`/`f2`:
parse every hand, sort descending (`sort_by(|a, b| b.cmp(&a))`, a stable
sort), collect the leading run of hands comparing `Equal`, and return the
corresponding original input strings.  Every comparator call in the Rust
code unwraps `partial_cmp`, so a hand on which it would panic makes the
whole call `none`. -/
def winningHandsWith (f1 f2 : List Card → List (List Card))
    (hands : List String) : Option (List String) := do
  let phs ← parseAllWith f1 f2 0 hands
  if phs.all fun a => phs.all fun b => (pcmp a b).isSome then
    let sorted := sortByOrd (fun a b => (pcmp b a).getD .eq) phs
    let winners :=
      match sorted with
      | [] => []
      | p :: rest => p :: winnersRun p rest
    some (winners.map fun ph => hands.getD ph.id "")
  else none

/-- `winning_hands` as executed (canonical group order). -/
def winningHands (hands : List String) : Option (List String) :=
  winningHandsWith groupByValue groupByValue hands

/-- A validly parsed five-card hand: five cards whose values come from the
valid rank tokens `2`-`10`, `J`, `Q`, `K`, `A` (i.e. lie in `2..14`). -/
def ValidHand (h : PokerHand) : Prop :=
  h.cards.length = 5 ∧ ∀ c ∈ h.cards, 2 ≤ c.value ∧ c.value ≤ 14

instance : DecidablePred ValidHand := fun _ => by
  unfold ValidHand; infer_instance

/-- The ace remap applied to kicker values (14 becomes 1). -/
def remap1 (v : Nat) : Nat := if v = 14 then 1 else v

/-- Inverse of `remap1` on the valid value range (1 becomes 14). -/
def unremap1 (v : Nat) : Nat := if v = 1 then 14 else v

/-- Lexicographic comparison of value sequences (a shorter sequence that is
a proper prefix compares less). -/
def lexNat : List Nat → List Nat → Ordering
  | [], [] => .eq
  | [], _ :: _ => .lt
  | _ :: _, [] => .gt
  | a :: as, b :: bs =>
    match natCmp a b with
    | .eq => lexNat as bs
    | o => o

/-! ### Comparator lemmas -/

theorem natCmp_eq_iff {a b : Nat} : natCmp a b = .eq ↔ a = b := by
  unfold natCmp; split_ifs with h1 h2 <;> simp_all <;> omega

theorem natCmp_lt_iff {a b : Nat} : natCmp a b = .lt ↔ a < b := by
  unfold natCmp; split_ifs with h1 h2 <;> simp_all

theorem natCmp_gt_iff {a b : Nat} : natCmp a b = .gt ↔ b < a := by
  unfold natCmp; split_ifs with h1 h2 <;> simp_all <;> omega

theorem natCmp_self {a : Nat} : natCmp a a = .eq := natCmp_eq_iff.mpr rfl

theorem natCmp_ne_gt_iff {a b : Nat} : natCmp a b ≠ .gt ↔ a ≤ b := by
  rw [Ne, natCmp_gt_iff]; omega

theorem natCmp_swap {a b : Nat} : natCmp b a = (natCmp a b).swap := by
  rcases Nat.lt_trichotomy a b with h | h | h
  · rw [natCmp_lt_iff.mpr h, natCmp_gt_iff.mpr h]; rfl
  · subst h; rw [natCmp_self]; rfl
  · rw [natCmp_gt_iff.mpr h, natCmp_lt_iff.mpr h]; rfl

theorem lexNat_eq_iff : ∀ {a b : List Nat}, lexNat a b = .eq ↔ a = b
  | [], [] => by simp [lexNat]
  | [], _ :: _ => by simp [lexNat]
  | _ :: _, [] => by simp [lexNat]
  | a :: as, b :: bs => by
    simp only [lexNat]
    rcases h : natCmp a b with hlt | heq | hgt
    · simpa using fun hab => by simp [hab, natCmp_self] at h
    · rw [natCmp_eq_iff] at h
      subst h
      simpa using @lexNat_eq_iff as bs
    · simpa using fun hab => by simp [hab, natCmp_self] at h

theorem lexNat_self {a : List Nat} : lexNat a a = .eq := lexNat_eq_iff.mpr rfl

theorem lexNat_swap : ∀ {a b : List Nat}, lexNat b a = (lexNat a b).swap
  | [], [] => rfl
  | [], _ :: _ => rfl
  | _ :: _, [] => rfl
  | a :: as, b :: bs => by
    simp only [lexNat]
    rcases h : natCmp a b with hlt | heq | hgt <;>
      rw [show natCmp b a = (natCmp a b).swap from natCmp_swap, h] <;>
      simp [Ordering.swap]
    exact @lexNat_swap as bs

theorem lexNat_cons_lt_iff {a b : Nat} {as bs : List Nat} :
    lexNat (a :: as) (b :: bs) = .lt ↔ a < b ∨ (a = b ∧ lexNat as bs = .lt) := by
  show (match natCmp a b with | .eq => lexNat as bs | o => o) = .lt ↔ _
  rcases h : natCmp a b with _ | _ | _
  · simp [natCmp_lt_iff.mp h]
  · have hab := natCmp_eq_iff.mp h
    subst hab
    simp
  · have hab := natCmp_gt_iff.mp h
    simp only [reduceCtorEq, false_iff]
    push_neg
    exact ⟨by omega, fun hab2 => absurd hab2 (by omega)⟩

theorem lexNat_trans_lt :
    ∀ {a b c : List Nat}, lexNat a b = .lt → lexNat b c = .lt → lexNat a c = .lt
  | [], [], _ :: _, _, _ => rfl
  | [], _ :: _, _ :: _, _, _ => rfl
  | [], _ :: _, [], _, h2 => by cases h2
  | _ :: _, b, [], h1, h2 => by
    cases b <;> simp [lexNat] at h1 h2
  | a :: as, b :: bs, c :: cs, h1, h2 => by
    rw [lexNat_cons_lt_iff] at h1 h2 ⊢
    rcases h1 with h1 | ⟨rfl, h1⟩
    · rcases h2 with h2 | ⟨rfl, h2⟩
      · exact Or.inl (Nat.lt_trans h1 h2)
      · exact Or.inl h1
    · rcases h2 with h2 | ⟨rfl, h2⟩
      · exact Or.inl h2
      · exact Or.inr ⟨rfl, lexNat_trans_lt h1 h2⟩

theorem lexNat_ne_gt_iff {a b : List Nat} :
    lexNat a b ≠ .gt ↔ (lexNat a b = .lt ∨ a = b) := by
  rcases h : lexNat a b with _ | _ | _ <;> simp [h, ← lexNat_eq_iff]

theorem lexNat_le_trans {a b c : List Nat}
    (h1 : lexNat a b ≠ .gt) (h2 : lexNat b c ≠ .gt) : lexNat a c ≠ .gt := by
  rw [lexNat_ne_gt_iff] at h1 h2 ⊢
  rcases h1 with h1 | rfl
  · rcases h2 with h2 | rfl
    · exact Or.inl (lexNat_trans_lt h1 h2)
    · exact Or.inl h1
  · exact h2

theorem lexNat_le_antisymm {a b : List Nat}
    (h1 : lexNat a b ≠ .gt) (h2 : lexNat b a ≠ .gt) : a = b := by
  rw [lexNat_ne_gt_iff] at h1 h2
  rcases h1 with h1 | h1
  · rcases h2 with h2 | h2
    · have := lexNat_trans_lt h1 h2
      rw [lexNat_self] at this; cases this
    · exact h2.symm
  · exact h1

theorem lexNat_total {a b : List Nat} : lexNat a b ≠ .gt ∨ lexNat b a ≠ .gt := by
  rcases h : lexNat a b with _ | _ | _ <;> simp_all [show lexNat b a = (lexNat a b).swap from lexNat_swap, h, Ordering.swap]

/-! ### Stable sort lemmas -/

theorem sortByOrd_perm (c : α → α → Ordering) (l : List α) : sortByOrd c l ~ l :=
  List.perm_insertionSort _ l

theorem sortByOrd_length (c : α → α → Ordering) (l : List α) :
    (sortByOrd c l).length = l.length :=
  (sortByOrd_perm c l).length_eq

theorem mem_sortByOrd {c : α → α → Ordering} {l : List α} {a : α} :
    a ∈ sortByOrd c l ↔ a ∈ l :=
  (sortByOrd_perm c l).mem_iff

theorem sortByOrd_sorted (c : α → α → Ordering)
    (hswap : ∀ a b, c b a = (c a b).swap)
    (htrans : ∀ a b d, c a b ≠ .gt → c b d ≠ .gt → c a d ≠ .gt)
    (l : List α) : (sortByOrd c l).Pairwise fun a b => c a b ≠ .gt := by
  letI : IsTotal α fun a b => c a b ≠ .gt := by
    constructor
    intro a b
    by_cases h : c a b = .gt
    · right
      rw [hswap, h]
      simp [Ordering.swap]
    · exact Or.inl h
  letI : IsTrans α fun a b => c a b ≠ .gt := ⟨htrans⟩
  exact List.sorted_insertionSort _ l

theorem orderedInsert_congr (r₁ r₂ : α → α → Prop) [DecidableRel r₁] [DecidableRel r₂]
    (a : α) (l : List α) (h : ∀ b ∈ l, r₁ a b ↔ r₂ a b) :
    l.orderedInsert r₁ a = l.orderedInsert r₂ a := by
  induction l with
  | nil => rfl
  | cons b t ih =>
    simp only [List.orderedInsert]
    by_cases hb : r₁ a b
    · rw [if_pos hb, if_pos ((h b (by simp)).mp hb)]
    · rw [if_neg hb, if_neg (fun hc => hb ((h b (by simp)).mpr hc)),
        ih fun x hx => h x (by simp [hx])]

theorem insertionSort_congr (r₁ r₂ : α → α → Prop) [DecidableRel r₁] [DecidableRel r₂]
    (l : List α) (h : ∀ a ∈ l, ∀ b ∈ l, r₁ a b ↔ r₂ a b) :
    l.insertionSort r₁ = l.insertionSort r₂ := by
  induction l with
  | nil => rfl
  | cons b t ih =>
    simp only [List.insertionSort]
    rw [ih fun x hx y hy => h x (by simp [hx]) y (by simp [hy])]
    exact orderedInsert_congr r₁ r₂ b _ fun x hx =>
      h b (by simp) x (by simp [(List.mem_insertionSort r₂).mp hx])

theorem sortByOrd_congr (c₁ c₂ : α → α → Ordering) (l : List α)
    (h : ∀ a ∈ l, ∀ b ∈ l, c₁ a b = c₂ a b) : sortByOrd c₁ l = sortByOrd c₂ l :=
  insertionSort_congr _ _ l fun a ha b hb => by rw [h a ha b hb]

/-- Stability of the modelled sort, in the form needed for winner selection:
the elements of an equivalence class of the comparator appear in the sorted
list exactly as they appear in the input. -/
theorem filter_sortByOrd (c : α → α → Ordering) (l : List α) (p : α → Bool)
    (hcl : ∀ a b, p a = true → p b = true → c a b ≠ .gt) :
    (sortByOrd c l).filter p = l.filter p := by
  have hpair : (l.filter p).Pairwise fun a b => c a b ≠ .gt := by
    refine List.pairwise_iff_forall_sublist.mpr ?_
    intro a b hsub
    exact hcl a b (List.mem_filter.mp (hsub.subset (by simp))).2
      (List.mem_filter.mp (hsub.subset (by simp))).2
  have hsub : (l.filter p).Sublist (sortByOrd c l) :=
    List.sublist_insertionSort hpair (List.filter_sublist l)
  have hsub2 : (l.filter p).Sublist ((sortByOrd c l).filter p) := by
    have h1 := hsub.filter p
    rwa [List.filter_filter, show ((fun a => p a && p a) : α → Bool) = p from funext fun a => by
      cases h : p a <;> simp [h]] at h1
  refine (hsub2.eq_of_length ?_).symm
  rw [← List.countP_eq_length_filter, ← List.countP_eq_length_filter]
  exact ((sortByOrd_perm c l).countP_eq p).symm

/-- Destructure a five-element list. -/
theorem list_len5 {l : List α} (h : l.length = 5) :
    ∃ a b c d e, l = [a, b, c, d, e] := by
  match l, h with
  | [a, b, c, d, e], _ => exact ⟨a, b, c, d, e, rfl⟩

/-! ### Values, remapping, suits, consecutive runs -/

theorem vals_append {l₁ l₂ : List Card} : vals (l₁ ++ l₂) = vals l₁ ++ vals l₂ :=
  List.map_append _ l₁ l₂

theorem vals_length {l : List Card} : (vals l).length = l.length := List.length_map l _

theorem vals_perm {l₁ l₂ : List Card} (h : l₁.Perm l₂) : (vals l₁).Perm (vals l₂) :=
  h.map _

theorem remap1_ne_14 {v : Nat} : remap1 v ≠ 14 := by unfold remap1; split_ifs <;> omega

theorem unremap1_remap1 {v : Nat} (h2 : 2 ≤ v) (h14 : v ≤ 14) :
    unremap1 (remap1 v) = v := by
  unfold remap1 unremap1; split_ifs <;> omega

theorem remap1_inj {v w : Nat} (hv2 : 2 ≤ v) (hv14 : v ≤ 14) (hw2 : 2 ≤ w)
    (hw14 : w ≤ 14) (h : remap1 v = remap1 w) : v = w := by
  unfold remap1 at h; split_ifs at h <;> omega

theorem vals_swapAces (l : List Card) :
    vals (l.map fun c => if c.value = 14 then { c with value := 1 } else c) =
      (vals l).map remap1 := by
  induction l with
  | nil => rfl
  | cons c rest ih =>
    simp only [vals, List.map_cons] at ih ⊢
    rw [ih]
    unfold remap1
    split_ifs <;> rfl

theorem swapAces_id {l : List Card} (h : 14 ∉ vals l) :
    (l.map fun c => if c.value = 14 then { c with value := 1 } else c) = l := by
  induction l with
  | nil => rfl
  | cons c rest ih =>
    simp only [vals, List.map_cons, List.mem_cons, not_or] at h
    simp only [List.map_cons]
    rw [if_neg fun hc => h.1 hc.symm, ih h.2]

theorem allSameSuit_iff {l : List Card} :
    allSameSuit l = true ↔ ∀ c ∈ l, ∀ c' ∈ l, c.suit = c'.suit := by
  cases l with
  | nil => simp [allSameSuit]
  | cons c rest =>
    simp only [allSameSuit, List.all_eq_true, decide_eq_true_eq]
    constructor
    · intro h x hx y hy
      rw [h x hx, h y hy]
    · intro h x hx
      exact h x hx c (by simp)

theorem allSameSuit_perm {l₁ l₂ : List Card} (h : l₁.Perm l₂) :
    allSameSuit l₁ = allSameSuit l₂ := by
  rw [Bool.eq_iff_iff, allSameSuit_iff, allSameSuit_iff]
  constructor
  · intro ha x hx y hy
    exact ha x (h.mem_iff.mpr hx) y (h.mem_iff.mpr hy)
  · intro ha x hx y hy
    exact ha x (h.mem_iff.mp hx) y (h.mem_iff.mp hy)

theorem isConsecutive_vals5 {l : List Card} (h5 : l.length = 5)
    (hc : isConsecutive l = true) :
    ∃ v0, vals l = [v0, v0 + 1, v0 + 2, v0 + 3, v0 + 4] := by
  obtain ⟨a, b, c, d, e, rfl⟩ := list_len5 h5
  simp only [isConsecutive, consecFrom, Bool.and_eq_true, beq_iff_eq] at hc
  refine ⟨a.value, ?_⟩
  simp only [vals, List.map_cons, List.map_nil, List.cons.injEq, and_true, true_and]
  omega

theorem consecFrom_of_chain : ∀ {v : Nat} {l : List Card},
    List.Chain (fun x y => y = x + 1) v (vals l) → consecFrom v l = true
  | _, [], _ => rfl
  | v, c :: tl, h => by
    simp only [vals, List.map_cons, List.chain_cons] at h
    simp only [consecFrom, Bool.and_eq_true, beq_iff_eq]
    exact ⟨h.1, consecFrom_of_chain h.2⟩

theorem isConsecutive_run5 {l : List Card} {v0 : Nat}
    (h : vals l = [v0, v0 + 1, v0 + 2, v0 + 3, v0 + 4]) : isConsecutive l = true := by
  cases l with
  | nil => simp [vals] at h
  | cons c tl =>
    simp only [vals, List.map_cons, List.cons.injEq] at h
    show consecFrom c.value tl = true
    apply consecFrom_of_chain
    have h2 : vals tl = [v0 + 1, v0 + 2, v0 + 3, v0 + 4] := h.2
    rw [h2, h.1]
    simp [List.chain_cons]

/-! ### Sorted-by-value facts -/

theorem valAsc_sorted (l : List Card) :
    (vals (sortByOrd (fun a b => natCmp a.value b.value) l)).Sorted (· ≤ ·) := by
  have h := sortByOrd_sorted (fun a b : Card => natCmp a.value b.value)
    (fun a b => natCmp_swap)
    (fun a b d h1 h2 => natCmp_ne_gt_iff.mpr
      (Nat.le_trans (natCmp_ne_gt_iff.mp h1) (natCmp_ne_gt_iff.mp h2))) l
  unfold vals
  rw [Sorted, List.pairwise_map]
  exact h.imp fun hx => natCmp_ne_gt_iff.mp hx

theorem valDesc_sorted (l : List Card) :
    (vals (sortByOrd (fun a b => natCmp b.value a.value) l)).Sorted (· ≥ ·) := by
  have h := sortByOrd_sorted (fun a b : Card => natCmp b.value a.value)
    (fun a b => natCmp_swap)
    (fun a b d h1 h2 => natCmp_ne_gt_iff.mpr
      (Nat.le_trans (natCmp_ne_gt_iff.mp h2) (natCmp_ne_gt_iff.mp h1))) l
  unfold vals
  rw [Sorted, List.pairwise_map]
  exact h.imp fun hx => natCmp_ne_gt_iff.mp hx

theorem lenDesc_sorted (gs : List (List Card)) :
    (sortByOrd (fun a b : List Card => natCmp b.length a.length) gs).Pairwise
      fun a b => b.length ≤ a.length := by
  have h := sortByOrd_sorted (fun a b : List Card => natCmp b.length a.length)
    (fun a b => natCmp_swap)
    (fun a b d h1 h2 => natCmp_ne_gt_iff.mpr
      (Nat.le_trans (natCmp_ne_gt_iff.mp h2) (natCmp_ne_gt_iff.mp h1))) gs
  exact h.imp fun hx => natCmp_ne_gt_iff.mp hx

theorem sortedDesc_eq_of_perm {l₁ l₂ : List Nat} (h : l₁.Perm l₂)
    (s1 : l₁.Sorted (· ≥ ·)) (s2 : l₂.Sorted (· ≥ ·)) : l₁ = l₂ :=
  letI : IsAntisymm Nat (· ≥ ·) := ⟨fun a b h1 h2 => Nat.le_antisymm h2 h1⟩
  List.eq_of_perm_of_sorted h s1 s2

theorem sortedAsc_eq_of_perm {l₁ l₂ : List Nat} (h : l₁.Perm l₂)
    (s1 : l₁.Sorted (· ≤ ·)) (s2 : l₂.Sorted (· ≤ ·)) : l₁ = l₂ :=
  letI : IsAntisymm Nat (· ≤ ·) := ⟨fun a b h1 h2 => Nat.le_antisymm h1 h2⟩
  List.eq_of_perm_of_sorted h s1 s2

theorem sorted_cards_of_vals {l : List Card} (h : (vals l).Sorted (· ≤ ·)) :
    l.Sorted fun a b : Card => natCmp a.value b.value ≠ .gt := by
  unfold vals at h
  rw [Sorted, List.pairwise_map] at h
  exact h.imp fun hx => natCmp_ne_gt_iff.mpr hx

theorem sortByOrd_of_sorted_vals {l : List Card} (h : (vals l).Sorted (· ≤ ·)) :
    sortByOrd (fun a b => natCmp a.value b.value) l = l :=
  List.Sorted.insertionSort_eq (sorted_cards_of_vals h)

/-! ### Grouping invariants -/

theorem insertGroup_cons_eq (c : Card) (g : List Card)
    (rest : List (Nat × List Card)) :
    insertGroup c ((c.value, g) :: rest) = (c.value, g ++ [c]) :: rest := by
  simp [insertGroup]

theorem insertGroup_cons_ne (c : Card) {v : Nat} (g : List Card)
    (rest : List (Nat × List Card)) (hv : v ≠ c.value) :
    insertGroup c ((v, g) :: rest) = (v, g) :: insertGroup c rest := by
  simp [insertGroup, hv]

theorem insertGroup_fst (c : Card) (acc : List (Nat × List Card)) :
    (insertGroup c acc).map (·.1) =
      if c.value ∈ acc.map (·.1) then acc.map (·.1)
      else acc.map (·.1) ++ [c.value] := by
  induction acc with
  | nil => simp [insertGroup]
  | cons pr rest ih =>
    obtain ⟨v, g⟩ := pr
    by_cases hv : v = c.value
    · subst hv
      rw [insertGroup_cons_eq]
      simp
    · rw [insertGroup_cons_ne c g rest hv]
      simp only [List.map_cons, ih, List.mem_cons]
      have hne : ¬ c.value = v := fun hc => hv hc.symm
      split_ifs with h1 h2 h3 <;> simp_all

theorem insertGroup_wf {c : Card} {acc : List (Nat × List Card)}
    (h : ∀ pr ∈ acc, pr.2 ≠ [] ∧ ∀ x ∈ pr.2, x.value = pr.1) :
    ∀ pr ∈ insertGroup c acc, pr.2 ≠ [] ∧ ∀ x ∈ pr.2, x.value = pr.1 := by
  induction acc with
  | nil =>
    intro pr hpr
    simp only [insertGroup, List.mem_singleton] at hpr
    subst hpr
    simp
  | cons hd rest ih =>
    obtain ⟨v, g⟩ := hd
    intro pr hpr
    by_cases hv : v = c.value
    · subst hv
      rw [insertGroup_cons_eq] at hpr
      rcases List.mem_cons.mp hpr with rfl | hpr
      · obtain ⟨hne, hval⟩ := h (c.value, g) (by simp)
        refine ⟨by simp, ?_⟩
        intro x hx
        rcases List.mem_append.mp hx with hx | hx
        · exact hval x hx
        · simp only [List.mem_singleton] at hx
          subst hx
          rfl
      · exact h pr (by simp [hpr])
    · rw [insertGroup_cons_ne c g rest hv] at hpr
      rcases List.mem_cons.mp hpr with rfl | hpr
      · exact h (v, g) (by simp)
      · exact ih (fun pr2 h2 => h pr2 (by simp [h2])) pr hpr

theorem insertGroup_flatten (c : Card) (acc : List (Nat × List Card)) :
    (((insertGroup c acc).map (·.2)).flatten).Perm
      (c :: (acc.map (·.2)).flatten) := by
  induction acc with
  | nil => simp [insertGroup]
  | cons hd rest ih =>
    obtain ⟨v, g⟩ := hd
    by_cases hv : v = c.value
    · subst hv
      rw [insertGroup_cons_eq]
      simp only [List.map_cons, List.flatten_cons, List.append_assoc,
        List.singleton_append]
      exact List.perm_middle
    · rw [insertGroup_cons_ne c g rest hv]
      simp only [List.map_cons, List.flatten_cons]
      exact (ih.append_left g).trans List.perm_middle

theorem groupPairs_nodup_aux :
    ∀ (cards : List Card) (acc : List (Nat × List Card)),
      ((acc.map (·.1)).Nodup) →
      (((cards.foldl (fun a c => insertGroup c a) acc).map (·.1)).Nodup)
  | [], _, h => h
  | c :: cs, acc, h => by
    refine groupPairs_nodup_aux cs _ ?_
    rw [insertGroup_fst]
    split_ifs with hm
    · exact h
    · rw [← List.concat_eq_append]
      exact List.Nodup.concat hm h

theorem groupPairs_wf_aux :
    ∀ (cards : List Card) (acc : List (Nat × List Card)),
      (∀ pr ∈ acc, pr.2 ≠ [] ∧ ∀ x ∈ pr.2, x.value = pr.1) →
      ∀ pr ∈ cards.foldl (fun a c => insertGroup c a) acc,
        pr.2 ≠ [] ∧ ∀ x ∈ pr.2, x.value = pr.1
  | [], _, h => h
  | c :: cs, acc, h => groupPairs_wf_aux cs _ (insertGroup_wf h)

theorem groupPairs_flatten_aux :
    ∀ (cards : List Card) (acc : List (Nat × List Card)),
      ((((cards.foldl (fun a c => insertGroup c a) acc).map (·.2)).flatten).Perm
        ((acc.map (·.2)).flatten ++ cards))
  | [], acc => by simp
  | c :: cs, acc => by
    have h1 := groupPairs_flatten_aux cs (insertGroup c acc)
    have h2 := (insertGroup_flatten c acc).append_right cs
    calc (((c :: cs).foldl (fun a c => insertGroup c a) acc).map (·.2)).flatten
        ~ ((insertGroup c acc).map (·.2)).flatten ++ cs := h1
      _ ~ (c :: (acc.map (·.2)).flatten) ++ cs := h2
      _ ~ _ := (List.perm_middle).symm

/-- Well-formedness of a family of value groups of a hand: each group is a
non-empty run of a single value, distinct groups carry distinct values, and
together they are a permutation of the hand. -/
def BucketsWF (cards : List Card) (gs : List (List Card)) : Prop :=
  (∀ g ∈ gs, g ≠ [] ∧ ∃ v, ∀ x ∈ g, x.value = v) ∧
  gs.Pairwise (fun g g' => ∀ x ∈ g, ∀ y ∈ g', x.value ≠ y.value) ∧
  gs.flatten.Perm cards

theorem flatten_perm_of_perm {gs gs' : List (List α)} (h : gs.Perm gs') :
    gs.flatten.Perm gs'.flatten := by
  induction h with
  | nil => rfl
  | cons x _ ih => simpa using ih.append_left x
  | swap x y l =>
    simp only [List.flatten_cons]
    rw [← List.append_assoc, ← List.append_assoc]
    exact (List.perm_append_comm).append_right _
  | trans _ _ ih1 ih2 => exact ih1.trans ih2

theorem groupByValue_wf (cards : List Card) : BucketsWF cards (groupByValue cards) := by
  have hnd := groupPairs_nodup_aux cards [] (by simp)
  have hwf := groupPairs_wf_aux cards [] (by simp)
  have hfl := groupPairs_flatten_aux cards []
  refine ⟨?_, ?_, by simpa using hfl⟩
  · intro g hg
    unfold groupByValue at hg
    obtain ⟨pr, hpr, rfl⟩ := List.mem_map.mp hg
    obtain ⟨h1, h2⟩ := hwf pr hpr
    exact ⟨h1, pr.1, h2⟩
  · unfold groupByValue
    rw [List.pairwise_map]
    have hnd2 : (groupPairs cards).Pairwise fun pr pr' => pr.1 ≠ pr'.1 :=
      List.pairwise_map.mp hnd
    refine hnd2.imp_of_mem ?_
    intro pr pr' hpr hpr' hne x hx y hy
    rw [(hwf pr hpr).2 x hx, (hwf pr' hpr').2 y hy]
    exact hne

theorem BucketsWF_perm {cards : List Card} {gs gs' : List (List Card)}
    (h : gs.Perm gs') (hw : BucketsWF cards gs) : BucketsWF cards gs' := by
  obtain ⟨h1, h2, h3⟩ := hw
  refine ⟨fun g hg => h1 g (h.mem_iff.mpr hg), ?_,
    (flatten_perm_of_perm h.symm).trans h3⟩
  exact (h.pairwise_iff fun hgg x hx y hy => (hgg y hy x hx).symm).mp h2

/-! ### Small list destructuring helpers -/

theorem list_len1 {l : List α} (h : l.length = 1) : ∃ a, l = [a] := by
  match l, h with
  | [a], _ => exact ⟨a, rfl⟩

theorem list_len2 {l : List α} (h : l.length = 2) : ∃ a b, l = [a, b] := by
  match l, h with
  | [a, b], _ => exact ⟨a, b, rfl⟩

theorem list_len3 {l : List α} (h : l.length = 3) : ∃ a b c, l = [a, b, c] := by
  match l, h with
  | [a, b, c], _ => exact ⟨a, b, c, rfl⟩

theorem list_len4 {l : List α} (h : l.length = 4) : ∃ a b c d, l = [a, b, c, d] := by
  match l, h with
  | [a, b, c, d], _ => exact ⟨a, b, c, d, rfl⟩

theorem vals_const {g : List Card} {v : Nat} (h : ∀ x ∈ g, x.value = v) :
    vals g = List.replicate g.length v := by
  induction g with
  | nil => rfl
  | cons c rest ih =>
    simp only [vals, List.map_cons, List.length_cons, List.replicate_succ] at ih ⊢
    rw [h c (by simp), ih fun x hx => h x (by simp [hx])]

/-! ### The `aces_swap_over` and spare-finishing steps -/

theorem acesSwapOver_elim {check : List Card → Bool} {cards rk : List Card} {sw : Bool}
    (h : acesSwapOver check cards = some (rk, sw)) :
    (sw = false ∧ check cards = true ∧ rk = cards) ∨
    (sw = true ∧ check cards = false ∧ check rk = true ∧
      rk = sortByOrd (fun a b => natCmp a.value b.value)
        (cards.map fun c => if c.value = 14 then { c with value := 1 } else c)) := by
  simp only [acesSwapOver] at h
  split_ifs at h with h1 h2
  · simp only [Option.some.injEq, Prod.mk.injEq] at h
    exact Or.inl ⟨h.2.symm, h1, h.1.symm⟩
  · simp only [Option.some.injEq, Prod.mk.injEq] at h
    exact Or.inr ⟨h.2.symm, by simpa using h1, h.1 ▸ h2, h.1.symm⟩

theorem map_remap1_id {l : List Nat} (h : 14 ∉ l) : l.map remap1 = l := by
  induction l with
  | nil => rfl
  | cons v rest ih =>
    simp only [List.mem_cons, not_or] at h
    simp only [List.map_cons]
    rw [show remap1 v = v from by unfold remap1; rw [if_neg fun hc => h.1 hc.symm],
      ih h.2]

theorem suits_swapAces (l : List Card) :
    (l.map fun c => if c.value = 14 then { c with value := 1 } else c).map (·.suit) =
      l.map (·.suit) := by
  induction l with
  | nil => rfl
  | cons c rest ih =>
    simp only [List.map_cons] at ih ⊢
    rw [ih]
    split_ifs <;> rfl

theorem allSameSuit_eq_of_suits {l₁ l₂ : List Card}
    (h : l₁.map (·.suit) = l₂.map (·.suit)) :
    allSameSuit l₁ = allSameSuit l₂ := by
  rw [Bool.eq_iff_iff, allSameSuit_iff, allSameSuit_iff]
  have key : ∀ (m₁ m₂ : List Card), m₁.map (·.suit) = m₂.map (·.suit) →
      (∀ c ∈ m₁, ∀ c' ∈ m₁, c.suit = c'.suit) →
      ∀ c ∈ m₂, ∀ c' ∈ m₂, c.suit = c'.suit := by
    intro m₁ m₂ hm ha x hx y hy
    have hx2 : x.suit ∈ m₂.map (·.suit) := List.mem_map_of_mem _ hx
    have hy2 : y.suit ∈ m₂.map (·.suit) := List.mem_map_of_mem _ hy
    rw [← hm] at hx2 hy2
    obtain ⟨x', hx', hxs⟩ := List.mem_map.mp hx2
    obtain ⟨y', hy', hys⟩ := List.mem_map.mp hy2
    rw [← hxs, ← hys]
    exact ha x' hx' y' hy'
  exact ⟨key l₁ l₂ h, key l₂ l₁ h.symm⟩

theorem finishSpares_rank (r : RankResult) : (finishSpares r).rank = r.rank := by
  unfold finishSpares; split_ifs <;> rfl

theorem finishSpares_ranked (r : RankResult) :
    (finishSpares r).cards_ranked = r.cards_ranked := by
  unfold finishSpares; split_ifs <;> rfl

theorem finishSpares_swapped (r : RankResult) : (finishSpares r).swapped = r.swapped := by
  unfold finishSpares; split_ifs <;> rfl

theorem finishSpares_nil {r : RankResult} (h : r.spares = []) : finishSpares r = r := by
  unfold finishSpares
  rw [if_pos (by simp [h])]

theorem finishSpares_spares (r : RankResult) (h : r.spares ≠ []) :
    ((vals (finishSpares r).spares).Perm ((vals r.spares).map remap1)) ∧
    ((vals (finishSpares r).spares).Sorted (· ≥ ·)) := by
  unfold finishSpares
  rw [if_neg (by simpa using h)]
  refine ⟨?_, valDesc_sorted _⟩
  refine (vals_perm (sortByOrd_perm (fun a b => natCmp b.value a.value) _)).trans ?_
  split_ifs with h14
  · rw [vals_swapAces]
  · rw [map_remap1_id fun hm => ?_]
    simp only [List.any_eq_true, beq_iff_eq] at h14
    obtain ⟨c, hc, hcv⟩ := List.mem_map.mp hm
    exact h14 ⟨c, hc, hcv⟩

/-! ### Structural characterisation of `rank_hand` -/

/-- What `rank_hand` guarantees about its output, stated at the level of
card values.  This is the workhorse behind the comparison, kicker and
determinism claims. -/
def SpecOf (cards : List Card) (r : RankResult) : Prop :=
  match r.rank with
  | .NotRanked => False
  | .StraightFlush | .Straight =>
    (∃ v0, vals r.cards_ranked = [v0, v0 + 1, v0 + 2, v0 + 3, v0 + 4]) ∧
    r.spares = [] ∧
    (r.swapped = false → r.cards_ranked = cards) ∧
    (r.swapped = true → isConsecutive cards = false ∧ 14 ∈ vals cards ∧
      (vals r.cards_ranked).Perm ((vals cards).map remap1))
  | .FourOfAKind =>
    r.swapped = false ∧ ∃ q s, q ≠ s ∧
      vals r.cards_ranked = [q, q, q, q] ∧ vals r.spares = [remap1 s] ∧
      (vals cards).Perm [q, q, q, q, s]
  | .FullHouse =>
    r.swapped = false ∧ r.spares = [] ∧ ∃ t p, t ≠ p ∧
      vals r.cards_ranked = [t, t, t, p, p] ∧ (vals cards).Perm [t, t, t, p, p]
  | .Flush => r.swapped = false ∧ r.spares = [] ∧ r.cards_ranked = cards
  | .ThreeOfAKind =>
    r.swapped = false ∧ ∃ t a b, t ≠ a ∧ t ≠ b ∧ a ≠ b ∧
      vals r.cards_ranked = [t, t, t] ∧ (vals r.spares).Sorted (· ≥ ·) ∧
      (vals r.spares).Perm [remap1 a, remap1 b] ∧ (vals cards).Perm [t, t, t, a, b]
  | .TwoPair =>
    r.swapped = false ∧ ∃ hi lo s, lo < hi ∧ s ≠ hi ∧ s ≠ lo ∧
      vals r.cards_ranked = [hi, hi, lo, lo] ∧ vals r.spares = [remap1 s] ∧
      (vals cards).Perm [hi, hi, lo, lo, s]
  | .OnePair =>
    r.swapped = false ∧ ∃ p a b d, p ≠ a ∧ p ≠ b ∧ p ≠ d ∧ a ≠ b ∧ a ≠ d ∧ b ≠ d ∧
      vals r.cards_ranked = [p, p] ∧ (vals r.spares).Sorted (· ≥ ·) ∧
      (vals r.spares).Perm [remap1 a, remap1 b, remap1 d] ∧
      (vals cards).Perm [p, p, a, b, d]
  | .HighCard =>
    r.swapped = false ∧ r.cards_ranked = [] ∧
      (vals r.spares).Sorted (· ≥ ·) ∧ (vals r.spares).Perm ((vals cards).map remap1)

theorem bucket_vals_ne {g g' : List Card} {v v' : Nat}
    (hg : g ≠ []) (hg' : g' ≠ [])
    (hv : ∀ x ∈ g, x.value = v) (hv' : ∀ y ∈ g', y.value = v')
    (hne : ∀ x ∈ g, ∀ y ∈ g', x.value ≠ y.value) : v ≠ v' := by
  obtain ⟨x, hx⟩ := List.exists_mem_of_ne_nil g hg
  obtain ⟨y, hy⟩ := List.exists_mem_of_ne_nil g' hg'
  have h := hne x hx y hy
  rwa [hv x hx, hv' y hy] at h

theorem single_vals (c : Card) : ∀ y ∈ [c], y.value = c.value := by
  intro y hy
  rw [List.mem_singleton.mp hy]

/-! Introduction lemmas: `SpecOf` for each shape of arm result fed through
the spare-finishing step. -/

theorem SpecOf_straightlike (cards rk : List Card) (sw : Bool) (pr : PokerRank)
    (hpr : pr = .StraightFlush ∨ pr = .Straight)
    (hrun : ∃ v0, vals rk = [v0, v0 + 1, v0 + 2, v0 + 3, v0 + 4])
    (hswf : sw = false → rk = cards)
    (hswt : sw = true → isConsecutive cards = false ∧ 14 ∈ vals cards ∧
      (vals rk).Perm ((vals cards).map remap1)) :
    SpecOf cards (finishSpares
      { rank := pr, cards_ranked := rk, spares := [], swapped := sw }) := by
  rw [finishSpares_nil rfl]
  rcases hpr with rfl | rfl
  all_goals
    unfold SpecOf
    exact ⟨hrun, rfl, hswf, hswt⟩

theorem SpecOf_quad (cards g0 sp : List Card) (q : Nat) (cs : Card)
    (hsp : sp = [cs])
    (hrv : vals g0 = [q, q, q, q])
    (hqs : q ≠ cs.value)
    (hcp : (vals cards).Perm [q, q, q, q, cs.value]) :
    SpecOf cards (finishSpares
      { rank := .FourOfAKind, cards_ranked := g0, spares := sp, swapped := false }) := by
  subst hsp
  obtain ⟨hperm, hsorted⟩ := finishSpares_spares
    { rank := .FourOfAKind, cards_ranked := g0, spares := [cs], swapped := false }
    (by simp)
  unfold SpecOf
  rw [finishSpares_rank]
  refine ⟨by rw [finishSpares_swapped], q, cs.value, hqs,
    by rw [finishSpares_ranked]; exact hrv, List.perm_singleton.mp hperm, hcp⟩

theorem SpecOf_fullHouse (cards rk : List Card) (t p : Nat)
    (hrv : vals rk = [t, t, t, p, p]) (htp : t ≠ p)
    (hcp : (vals cards).Perm [t, t, t, p, p]) :
    SpecOf cards (finishSpares
      { rank := .FullHouse, cards_ranked := rk, spares := [], swapped := false }) := by
  rw [finishSpares_nil rfl]
  unfold SpecOf
  exact ⟨rfl, rfl, t, p, htp, hrv, hcp⟩

theorem SpecOf_flush (cards : List Card) :
    SpecOf cards (finishSpares
      { rank := .Flush, cards_ranked := cards, spares := [], swapped := false }) := by
  rw [finishSpares_nil rfl]
  unfold SpecOf
  exact ⟨rfl, rfl, rfl⟩

theorem SpecOf_threeOfAKind (cards g0 sp : List Card) (t : Nat) (ca cb : Card)
    (hsp : sp = [ca, cb])
    (hrv : vals g0 = [t, t, t])
    (hta : t ≠ ca.value) (htb : t ≠ cb.value) (hab : ca.value ≠ cb.value)
    (hcp : (vals cards).Perm [t, t, t, ca.value, cb.value]) :
    SpecOf cards (finishSpares
      { rank := .ThreeOfAKind, cards_ranked := g0, spares := sp, swapped := false }) := by
  subst hsp
  obtain ⟨hperm, hsorted⟩ := finishSpares_spares
    { rank := .ThreeOfAKind, cards_ranked := g0, spares := [ca, cb], swapped := false }
    (by simp)
  unfold SpecOf
  rw [finishSpares_rank]
  exact ⟨by rw [finishSpares_swapped], t, ca.value, cb.value, hta, htb, hab,
    by rw [finishSpares_ranked]; exact hrv, hsorted, hperm, hcp⟩

theorem SpecOf_twoPair (cards rk sp : List Card) (hi lo : Nat) (cs : Card)
    (hsp : sp = [cs])
    (hrv : vals rk = [hi, hi, lo, lo]) (hlohi : lo < hi)
    (hs1 : cs.value ≠ hi) (hs2 : cs.value ≠ lo)
    (hcp : (vals cards).Perm [hi, hi, lo, lo, cs.value]) :
    SpecOf cards (finishSpares
      { rank := .TwoPair, cards_ranked := rk, spares := sp, swapped := false }) := by
  subst hsp
  obtain ⟨hperm, hsorted⟩ := finishSpares_spares
    { rank := .TwoPair, cards_ranked := rk, spares := [cs], swapped := false }
    (by simp)
  unfold SpecOf
  rw [finishSpares_rank]
  exact ⟨by rw [finishSpares_swapped], hi, lo, cs.value, hlohi, hs1, hs2,
    by rw [finishSpares_ranked]; exact hrv, List.perm_singleton.mp hperm, hcp⟩

theorem SpecOf_onePair (cards rk sp : List Card) (p : Nat) (ca cb cd : Card)
    (hsp : sp = [ca, cb, cd])
    (hrv : vals rk = [p, p])
    (hpa : p ≠ ca.value) (hpb : p ≠ cb.value) (hpd : p ≠ cd.value)
    (hab : ca.value ≠ cb.value) (had : ca.value ≠ cd.value) (hbd : cb.value ≠ cd.value)
    (hcp : (vals cards).Perm [p, p, ca.value, cb.value, cd.value]) :
    SpecOf cards (finishSpares
      { rank := .OnePair, cards_ranked := rk, spares := sp, swapped := false }) := by
  subst hsp
  obtain ⟨hperm, hsorted⟩ := finishSpares_spares
    { rank := .OnePair, cards_ranked := rk, spares := [ca, cb, cd], swapped := false }
    (by simp)
  unfold SpecOf
  rw [finishSpares_rank]
  exact ⟨by rw [finishSpares_swapped], p, ca.value, cb.value, cd.value,
    hpa, hpb, hpd, hab, had, hbd,
    by rw [finishSpares_ranked]; exact hrv, hsorted, hperm, hcp⟩

theorem SpecOf_highCard (cards sp : List Card)
    (hne : sp ≠ [])
    (hcp : (vals sp).Perm (vals cards)) :
    SpecOf cards (finishSpares
      { rank := .HighCard, cards_ranked := [], spares := sp, swapped := false }) := by
  obtain ⟨hperm, hsorted⟩ := finishSpares_spares
    { rank := .HighCard, cards_ranked := [], spares := sp, swapped := false } hne
  unfold SpecOf
  rw [finishSpares_rank]
  exact ⟨by rw [finishSpares_swapped], by rw [finishSpares_ranked], hsorted,
    hperm.trans (hcp.map remap1)⟩

theorem rankPairs_spec_core (sorted2 : List (List Card)) (cards : List Card)
    (h5 : cards.length = 5)
    (hwf : BucketsWF cards sorted2)
    (hlen : sorted2.Pairwise fun a b => b.length ≤ a.length) :
    SpecOf cards (finishSpares (rankPairs sorted2)) := by
  obtain ⟨hbk, hpw, hfl⟩ := hwf
  unfold rankPairs
  by_cases h3 : sorted2.length = 3
  case pos =>
    obtain ⟨g0, g1, g2, rfl⟩ := list_len3 h3
    obtain ⟨hpw0, hpwr⟩ := List.pairwise_cons.mp hpw
    have h01 := hpw0 g1 (by simp)
    have h02 := hpw0 g2 (by simp)
    have h12 := (List.pairwise_cons.mp hpwr).1 g2 (by simp)
    obtain ⟨hlen0, hlenr⟩ := List.pairwise_cons.mp hlen
    have hl01 := hlen0 g1 (by simp)
    have hl12 := (List.pairwise_cons.mp hlenr).1 g2 (by simp)
    obtain ⟨g0ne, v0, hv0⟩ := hbk g0 (by simp)
    obtain ⟨g1ne, v1, hv1⟩ := hbk g1 (by simp)
    obtain ⟨g2ne, v2, hv2⟩ := hbk g2 (by simp)
    have hL : g0.length + g1.length + g2.length = 5 := by
      have hL0 := hfl.length_eq
      simp only [List.flatten_cons, List.flatten_nil, List.append_nil,
        List.length_append, h5] at hL0
      omega
    have hg0p : 0 < g0.length := List.length_pos.mpr g0ne
    have hg1p : 0 < g1.length := List.length_pos.mpr g1ne
    have hg2p : 0 < g2.length := List.length_pos.mpr g2ne
    rw [if_pos h3]
    by_cases hh : (([g0, g1, g2] : List (List Card)).headD []).length = 3
    case pos =>
      simp only [List.headD_cons] at hh
      rw [if_pos (by simpa using hh)]
      have hl1 : g1.length = 1 := by omega
      have hl2 : g2.length = 1 := by omega
      obtain ⟨c1, rfl⟩ := list_len1 hl1
      obtain ⟨c2, rfl⟩ := list_len1 hl2
      refine SpecOf_threeOfAKind cards _ _ v0 c1 c2 (by simp) ?_
        (bucket_vals_ne g0ne (by simp) hv0 (single_vals c1) h01)
        (bucket_vals_ne g0ne (by simp) hv0 (single_vals c2) h02)
        (h12 c1 (by simp) c2 (by simp)) ?_
      · simp only [List.headD_cons]
        rw [vals_const hv0, hh]
        rfl
      · refine (vals_perm hfl.symm).trans ?_
        have hfle : ([g0, [c1], [c2]] : List (List Card)).flatten = g0 ++ [c1, c2] := by simp
        rw [hfle, vals_append, vals_const hv0, hh]
        exact Perm.refl _
    case neg =>
      simp only [List.headD_cons] at hh
      rw [if_neg (by simpa using hh)]
      have hl0 : g0.length = 2 := by omega
      have hl1 : g1.length = 2 := by omega
      have hl2 : g2.length = 1 := by omega
      obtain ⟨c2, rfl⟩ := list_len1 hl2
      have hsv0 : v0 ≠ c2.value := bucket_vals_ne g0ne (by simp) hv0 (single_vals c2) h02
      have hsv1 : v1 ≠ c2.value := bucket_vals_ne g1ne (by simp) hv1 (single_vals c2) h12
      have hv01 : v0 ≠ v1 := bucket_vals_ne g0ne g1ne hv0 hv1 h01
      have htk : (([g0, g1, [c2]] : List (List Card)).take 2).flatten = g0 ++ g1 := by simp
      have hrperm : (vals (sortByOrd (fun a b => natCmp b.value a.value)
          ((([g0, g1, [c2]] : List (List Card)).take 2).flatten))).Perm
            ([v0, v0] ++ [v1, v1]) := by
        refine (vals_perm (sortByOrd_perm _ _)).trans ?_
        rw [htk, vals_append, vals_const hv0, hl0, vals_const hv1, hl1]
        exact Perm.refl _
      have hrsorted := valDesc_sorted ((([g0, g1, [c2]] : List (List Card)).take 2).flatten)
      have hcperm : (vals cards).Perm ([v0, v0] ++ [v1, v1] ++ [c2.value]) := by
        refine (vals_perm hfl.symm).trans ?_
        have hfle : ([g0, g1, [c2]] : List (List Card)).flatten = g0 ++ g1 ++ [c2] := by simp
        rw [hfle, vals_append, vals_append, vals_const hv0, hl0, vals_const hv1, hl1]
        exact Perm.refl _
      rcases Nat.lt_or_ge v1 v0 with hcmp | hcmp
      · refine SpecOf_twoPair cards _ _ v0 v1 c2 (by simp) ?_ hcmp hsv0.symm hsv1.symm hcperm
        refine sortedDesc_eq_of_perm hrperm hrsorted ?_
        simp only [List.cons_append, List.nil_append, List.sorted_cons,
          List.forall_mem_cons, List.not_mem_nil, List.sorted_nil, false_implies,
          forall_true_iff, and_true, List.mem_singleton, forall_eq]
        omega
      · have hcmp2 : v0 < v1 := Nat.lt_of_le_of_ne hcmp hv01
        refine SpecOf_twoPair cards _ _ v1 v0 c2 (by simp) ?_ hcmp2 hsv1.symm hsv0.symm
          (hcperm.trans ((List.perm_append_comm).append_right _))
        refine sortedDesc_eq_of_perm (hrperm.trans List.perm_append_comm) hrsorted ?_
        simp only [List.cons_append, List.nil_append, List.sorted_cons,
          List.forall_mem_cons, List.not_mem_nil, List.sorted_nil, false_implies,
          forall_true_iff, and_true, List.mem_singleton, forall_eq]
        omega
  case neg =>
    rw [if_neg h3]
    by_cases h4 : sorted2.length = 4
    case pos =>
      rw [if_pos h4]
      obtain ⟨g0, g1, g2, g3, rfl⟩ := list_len4 h4
      obtain ⟨hpw0, hpwr⟩ := List.pairwise_cons.mp hpw
      have h01 := hpw0 g1 (by simp)
      have h02 := hpw0 g2 (by simp)
      have h03 := hpw0 g3 (by simp)
      obtain ⟨hpw1, hpwr2⟩ := List.pairwise_cons.mp hpwr
      have h12 := hpw1 g2 (by simp)
      have h13 := hpw1 g3 (by simp)
      have h23 := (List.pairwise_cons.mp hpwr2).1 g3 (by simp)
      obtain ⟨hlen0, hlenr⟩ := List.pairwise_cons.mp hlen
      have hl01 := hlen0 g1 (by simp)
      obtain ⟨hlen1, hlenr2⟩ := List.pairwise_cons.mp hlenr
      have hl12 := hlen1 g2 (by simp)
      have hl23 := (List.pairwise_cons.mp hlenr2).1 g3 (by simp)
      obtain ⟨g0ne, v0, hv0⟩ := hbk g0 (by simp)
      obtain ⟨g1ne, v1, hv1⟩ := hbk g1 (by simp)
      obtain ⟨g2ne, v2, hv2⟩ := hbk g2 (by simp)
      obtain ⟨g3ne, v3, hv3⟩ := hbk g3 (by simp)
      have hL : g0.length + g1.length + g2.length + g3.length = 5 := by
        have hL0 := hfl.length_eq
        simp only [List.flatten_cons, List.flatten_nil, List.append_nil,
          List.length_append, h5] at hL0
        omega
      have hg0p : 0 < g0.length := List.length_pos.mpr g0ne
      have hg1p : 0 < g1.length := List.length_pos.mpr g1ne
      have hg2p : 0 < g2.length := List.length_pos.mpr g2ne
      have hg3p : 0 < g3.length := List.length_pos.mpr g3ne
      have hl0 : g0.length = 2 := by omega
      have hle1 : g1.length = 1 := by omega
      have hle2 : g2.length = 1 := by omega
      have hle3 : g3.length = 1 := by omega
      obtain ⟨c1, rfl⟩ := list_len1 hle1
      obtain ⟨c2, rfl⟩ := list_len1 hle2
      obtain ⟨c3, rfl⟩ := list_len1 hle3
      refine SpecOf_onePair cards _ _ v0 c1 c2 c3 (by simp) ?_
        (bucket_vals_ne g0ne (by simp) hv0 (single_vals c1) h01)
        (bucket_vals_ne g0ne (by simp) hv0 (single_vals c2) h02)
        (bucket_vals_ne g0ne (by simp) hv0 (single_vals c3) h03)
        (h12 c1 (by simp) c2 (by simp))
        (h13 c1 (by simp) c3 (by simp))
        (h23 c2 (by simp) c3 (by simp)) ?_
      · simp only [List.headD_cons]
        rw [vals_const hv0, hl0]
        rfl
      · refine (vals_perm hfl.symm).trans ?_
        have hfle : ([g0, [c1], [c2], [c3]] : List (List Card)).flatten =
            g0 ++ [c1, c2, c3] := by simp
        rw [hfle, vals_append, vals_const hv0, hl0]
        exact Perm.refl _
    case neg =>
      rw [if_neg h4]
      refine SpecOf_highCard cards _ ?_ (vals_perm hfl)
      intro he
      have hlen5 := hfl.length_eq
      rw [he, h5] at hlen5
      simp at hlen5

theorem rankMid_spec_core (sorted1 gs2 : List (List Card)) (cards : List Card)
    (h5 : cards.length = 5) (hsort : (vals cards).Sorted (· ≤ ·))
    (hwf1 : BucketsWF cards sorted1)
    (hlen1 : sorted1.Pairwise fun a b => b.length ≤ a.length)
    (hg2 : gs2.Perm (groupByValue cards)) :
    SpecOf cards (finishSpares (
      if sorted1.length = 2 ∧ (sorted1.headD []).length = 4 then
        { rank := .FourOfAKind, cards_ranked := sorted1.headD [],
          spares := sorted1.getD 1 [], swapped := false }
      else if sorted1.length = 2 ∧ (sorted1.headD []).length = 3 then
        { rank := .FullHouse, cards_ranked := sorted1.flatten, spares := [], swapped := false }
      else if allSameSuit cards then
        { rank := .Flush, cards_ranked := cards, spares := [], swapped := false }
      else
        match acesSwapOver isConsecutive cards with
        | some (ranked, sw) =>
          { rank := .Straight, cards_ranked := ranked, spares := [], swapped := sw }
        | none => rankPairs (sortByOrd (fun a b => natCmp b.length a.length) gs2))) := by
  obtain ⟨hbk, hpw, hfl⟩ := hwf1
  by_cases hq : sorted1.length = 2 ∧ (sorted1.headD []).length = 4
  case pos =>
    rw [if_pos hq]
    obtain ⟨h2, hh4⟩ := hq
    obtain ⟨g0, g1, rfl⟩ := list_len2 h2
    simp only [List.headD_cons] at hh4 ⊢
    obtain ⟨g0ne, v0, hv0⟩ := hbk g0 (by simp)
    obtain ⟨g1ne, v1, hv1⟩ := hbk g1 (by simp)
    have h01 := (List.pairwise_cons.mp hpw).1 g1 (by simp)
    have hL : g0.length + g1.length = 5 := by
      have hL0 := hfl.length_eq
      simp only [List.flatten_cons, List.flatten_nil, List.append_nil,
        List.length_append, h5] at hL0
      omega
    have hl1 : g1.length = 1 := by omega
    obtain ⟨c1, rfl⟩ := list_len1 hl1
    refine SpecOf_quad cards _ _ v0 c1 rfl ?_
      (bucket_vals_ne g0ne (by simp) hv0 (single_vals c1) h01) ?_
    · rw [vals_const hv0, hh4]
      rfl
    · refine (vals_perm hfl.symm).trans ?_
      have hfle : ([g0, [c1]] : List (List Card)).flatten = g0 ++ [c1] := by simp
      rw [hfle, vals_append, vals_const hv0, hh4]
      exact Perm.refl _
  case neg =>
    rw [if_neg hq]
    by_cases hq3 : sorted1.length = 2 ∧ (sorted1.headD []).length = 3
    case pos =>
      rw [if_pos hq3]
      obtain ⟨h2, hh3⟩ := hq3
      obtain ⟨g0, g1, rfl⟩ := list_len2 h2
      simp only [List.headD_cons] at hh3
      obtain ⟨g0ne, v0, hv0⟩ := hbk g0 (by simp)
      obtain ⟨g1ne, v1, hv1⟩ := hbk g1 (by simp)
      have h01 := (List.pairwise_cons.mp hpw).1 g1 (by simp)
      have hL : g0.length + g1.length = 5 := by
        have hL0 := hfl.length_eq
        simp only [List.flatten_cons, List.flatten_nil, List.append_nil,
          List.length_append, h5] at hL0
        omega
      have hl1 : g1.length = 2 := by omega
      have hfle : ([g0, g1] : List (List Card)).flatten = g0 ++ g1 := by simp
      refine SpecOf_fullHouse cards _ v0 v1 ?_
        (bucket_vals_ne g0ne g1ne hv0 hv1 h01) ?_
      · rw [hfle, vals_append, vals_const hv0, hh3, vals_const hv1, hl1]
        rfl
      · refine (vals_perm hfl.symm).trans ?_
        rw [hfle, vals_append, vals_const hv0, hh3, vals_const hv1, hl1]
        exact Perm.refl _
    case neg =>
      rw [if_neg hq3]
      by_cases hFl : allSameSuit cards = true
      case pos =>
        rw [if_pos hFl]
        exact SpecOf_flush cards
      case neg =>
        rw [if_neg hFl]
        cases hst : acesSwapOver isConsecutive cards with
        | none =>
          show SpecOf cards (finishSpares
            (rankPairs (sortByOrd (fun a b => natCmp b.length a.length) gs2)))
          exact rankPairs_spec_core _ cards h5
            (BucketsWF_perm (sortByOrd_perm _ _).symm
              (BucketsWF_perm hg2.symm (groupByValue_wf cards)))
            (lenDesc_sorted gs2)
        | some pr =>
          obtain ⟨rk, sw⟩ := pr
          show SpecOf cards (finishSpares
            { rank := .Straight, cards_ranked := rk, spares := [], swapped := sw })
          rcases acesSwapOver_elim hst with ⟨rfl, hchk, rfl⟩ | ⟨rfl, hchkF, hchkT, hrkEq⟩
          · exact SpecOf_straightlike _ _ false .Straight (Or.inr rfl)
              (isConsecutive_vals5 h5 hchk) (fun _ => rfl) (fun h => nomatch h)
          · subst hrkEq
            have h14 : 14 ∈ vals cards := by
              by_contra h14
              have heq : sortByOrd (fun a b => natCmp a.value b.value)
                  (cards.map fun c => if c.value = 14 then { c with value := 1 } else c) =
                    cards := by
                rw [swapAces_id h14, sortByOrd_of_sorted_vals hsort]
              rw [heq] at hchkT
              rw [hchkT] at hchkF
              simp at hchkF
            have hlrk : (sortByOrd (fun a b => natCmp a.value b.value)
                (cards.map fun c =>
                  if c.value = 14 then { c with value := 1 } else c)).length = 5 := by
              rw [sortByOrd_length, List.length_map, h5]
            refine SpecOf_straightlike cards _ true .Straight (Or.inr rfl)
              (isConsecutive_vals5 hlrk hchkT) (fun h => nomatch h)
              (fun _ => ⟨hchkF, h14, ?_⟩)
            refine (vals_perm (sortByOrd_perm _ _)).trans ?_
            rw [vals_swapAces]

theorem rankMid_spec (gs1 gs2 : List (List Card)) (cards : List Card)
    (h5 : cards.length = 5) (hsort : (vals cards).Sorted (· ≤ ·))
    (hg1 : gs1.Perm (groupByValue cards)) (hg2 : gs2.Perm (groupByValue cards)) :
    SpecOf cards (finishSpares (rankMid gs1 gs2 cards)) :=
  rankMid_spec_core (sortByOrd (fun a b => natCmp b.length a.length) gs1) gs2 cards h5 hsort
    (BucketsWF_perm (sortByOrd_perm _ _).symm
      (BucketsWF_perm hg1.symm (groupByValue_wf cards)))
    (lenDesc_sorted gs1) hg2

theorem rankHandWith_spec (gs1 gs2 : List (List Card)) (cards : List Card)
    (h5 : cards.length = 5) (hsort : (vals cards).Sorted (· ≤ ·))
    (hg1 : gs1.Perm (groupByValue cards)) (hg2 : gs2.Perm (groupByValue cards)) :
    SpecOf cards (rankHandWith gs1 gs2 cards) := by
  unfold rankHandWith
  cases hsf : acesSwapOver sfCheck cards with
  | none =>
    show SpecOf cards (finishSpares (rankMid gs1 gs2 cards))
    exact rankMid_spec gs1 gs2 cards h5 hsort hg1 hg2
  | some pr =>
    obtain ⟨rk, sw⟩ := pr
    show SpecOf cards (finishSpares
      { rank := .StraightFlush, cards_ranked := rk, spares := [], swapped := sw })
    rcases acesSwapOver_elim hsf with ⟨rfl, hchk, rfl⟩ | ⟨rfl, hchkF, hchkT, hrkEq⟩
    · have hb := hchk
      simp only [sfCheck, Bool.and_eq_true] at hb
      exact SpecOf_straightlike _ _ false .StraightFlush (Or.inl rfl)
        (isConsecutive_vals5 h5 hb.2) (fun _ => rfl) (fun h => nomatch h)
    · subst hrkEq
      have h14 : 14 ∈ vals cards := by
        by_contra h14
        have heq : sortByOrd (fun a b => natCmp a.value b.value)
            (cards.map fun c => if c.value = 14 then { c with value := 1 } else c) =
              cards := by
          rw [swapAces_id h14, sortByOrd_of_sorted_vals hsort]
        rw [heq] at hchkT
        rw [hchkT] at hchkF
        simp at hchkF
      have hAS : allSameSuit cards = true := by
        have h1 : allSameSuit (sortByOrd (fun a b => natCmp a.value b.value)
            (cards.map fun c => if c.value = 14 then { c with value := 1 } else c)) = true := by
          simp only [sfCheck, Bool.and_eq_true] at hchkT
          exact hchkT.1
        rwa [allSameSuit_perm (sortByOrd_perm _ _),
          allSameSuit_eq_of_suits (suits_swapAces cards)] at h1
      have hconsF : isConsecutive cards = false := by
        simp only [sfCheck, hAS, Bool.true_and] at hchkF
        exact hchkF
      have hconsT : isConsecutive (sortByOrd (fun a b => natCmp a.value b.value)
          (cards.map fun c => if c.value = 14 then { c with value := 1 } else c)) = true := by
        simp only [sfCheck, Bool.and_eq_true] at hchkT
        exact hchkT.2
      have hlrk : (sortByOrd (fun a b => natCmp a.value b.value)
          (cards.map fun c =>
            if c.value = 14 then { c with value := 1 } else c)).length = 5 := by
        rw [sortByOrd_length, List.length_map, h5]
      refine SpecOf_straightlike cards _ true .StraightFlush (Or.inl rfl)
        (isConsecutive_vals5 hlrk hconsT) (fun h => nomatch h)
        (fun _ => ⟨hconsF, h14, ?_⟩)
      refine (vals_perm (sortByOrd_perm _ _)).trans ?_
      rw [vals_swapAces]

/-- The canonical instance: `rank_hand` as executed satisfies the
characterisation. -/
theorem rankHand_spec (cards : List Card)
    (h5 : cards.length = 5) (hsort : (vals cards).Sorted (· ≤ ·)) :
    SpecOf cards (rankHand cards) :=
  rankHandWith_spec _ _ cards h5 hsort (Perm.refl _) (Perm.refl _)

/-! ### The invariant of parsed hands -/

/-- Invariant of a hand built by `from_parse` whose parse produced five
cards with valid rank values: the cards are sorted ascending by value and
the rank fields satisfy the `rank_hand` characterisation. -/
def GoodHand (h : PokerHand) : Prop :=
  ValidHand h ∧ (vals h.cards).Sorted (· ≤ ·) ∧
    SpecOf h.cards
      { rank := h.rank, cards_ranked := h.cards_ranked,
        spares := h.spares, swapped := h.rank_swapped_aces }

theorem fromParseWith_good {f1 f2 : List Card → List (List Card)}
    (hf1 : ∀ l, (f1 l).Perm (groupByValue l))
    (hf2 : ∀ l, (f2 l).Perm (groupByValue l))
    {idx : Nat} {s : String} {h : PokerHand}
    (hp : fromParseWith f1 f2 idx s = some h) (hv : ValidHand h) : GoodHand h := by
  unfold fromParseWith at hp
  cases hpc : parseCards s with
  | none => rw [hpc] at hp; cases hp
  | some cards =>
    rw [hpc] at hp
    simp only [Option.map_some', Option.some.injEq] at hp
    obtain rfl := hp.symm
    refine ⟨hv, ?_, ?_⟩
    · exact valAsc_sorted cards
    · show SpecOf (sortByOrd (fun a b => natCmp a.value b.value) cards)
        (rankHandWith (f1 (sortByOrd (fun a b => natCmp a.value b.value) cards))
          (f2 (sortByOrd (fun a b => natCmp a.value b.value) cards))
          (sortByOrd (fun a b => natCmp a.value b.value) cards))
      exact rankHandWith_spec _ _ _ hv.1 (valAsc_sorted cards) (hf1 _) (hf2 _)

theorem fromParse_good {idx : Nat} {s : String} {h : PokerHand}
    (hp : fromParse idx s = some h) (hv : ValidHand h) : GoodHand h :=
  fromParseWith_good (fun _ => Perm.refl _) (fun _ => Perm.refl _) hp hv

theorem vals_range {h : PokerHand} (hv : ValidHand h) :
    ∀ v ∈ vals h.cards, 2 ≤ v ∧ v ≤ 14 := by
  intro v hvm
  obtain ⟨c, hc, rfl⟩ := List.mem_map.mp hvm
  exact hv.2 c hc

/-! ### Helper lemmas for the comparison key -/

theorem valuesMatch_iff {l l' : List Card} (h : l.length = l'.length) :
    valuesMatch l l' = true ↔ vals l = vals l' := by
  induction l generalizing l' with
  | nil =>
    cases l' with
    | nil => simp [valuesMatch, vals]
    | cons b bs => simp at h
  | cons a as ih =>
    cases l' with
    | nil => simp at h
    | cons b bs =>
      simp only [List.length_cons, Nat.succ.injEq] at h
      simp only [valuesMatch, Bool.and_eq_true, beq_iff_eq, vals, List.map_cons,
        List.cons.injEq]
      rw [ih h]
      rfl

theorem cmpSeq_eq_lexNat {l l' : List Card} (h : l.length = l'.length) :
    cmpSeq l l' = some (lexNat (vals l) (vals l')) := by
  induction l generalizing l' with
  | nil =>
    cases l' with
    | nil => rfl
    | cons b bs => simp at h
  | cons a as ih =>
    cases l' with
    | nil => simp at h
    | cons b bs =>
      simp only [List.length_cons, Nat.succ.injEq] at h
      cases hab : natCmp a.value b.value with
      | eq => simpa [cmpSeq, vals, lexNat, hab] using ih h
      | lt => simp [cmpSeq, vals, lexNat, hab]
      | gt => simp [cmpSeq, vals, lexNat, hab]

theorem val?_eq {l : List Card} {i : Nat} : val? l i = (vals l).get? i := by
  simp [val?, vals, List.get?_map]

theorem rankVal_inj {r r' : PokerRank} (h : rankVal r = rankVal r') : r = r' := by
  cases r <;> cases r' <;> first | rfl | simp [rankVal] at h

theorem run_sorted {v0 : Nat} :
    ([v0, v0 + 1, v0 + 2, v0 + 3, v0 + 4] : List Nat).Sorted (· ≤ ·) := by
  refine List.sorted_cons.mpr ⟨fun x hx => ?_, List.sorted_cons.mpr ⟨fun x hx => ?_,
    List.sorted_cons.mpr ⟨fun x hx => ?_, List.sorted_cons.mpr ⟨fun x hx => ?_,
      List.sorted_singleton _⟩⟩⟩⟩ <;> simp at hx <;> omega

theorem consecFrom_congr : ∀ {v : Nat} {l l' : List Card}, vals l = vals l' →
    consecFrom v l = consecFrom v l'
  | _, [], [], _ => rfl
  | _, [], _ :: _, h => by simp [vals] at h
  | _, _ :: _, [], h => by simp [vals] at h
  | v, c :: t, c' :: t', h => by
    simp only [vals, List.map_cons, List.cons.injEq] at h
    simp only [consecFrom, h.1, consecFrom_congr h.2]

theorem isConsecutive_congr {l l' : List Card} (h : vals l = vals l') :
    isConsecutive l = isConsecutive l' := by
  cases l with
  | nil =>
    cases l' with
    | nil => rfl
    | cons c' t' => simp [vals] at h
  | cons c t =>
    cases l' with
    | nil => simp [vals] at h
    | cons c' t' =>
      simp only [vals, List.map_cons, List.cons.injEq] at h
      simp only [isConsecutive, h.1, consecFrom_congr h.2]

theorem perm_map_remap1 {A B : List Nat}
    (hA : ∀ v ∈ A, 2 ≤ v ∧ v ≤ 14) (hB : ∀ v ∈ B, 2 ≤ v ∧ v ≤ 14)
    (h : (A.map remap1).Perm (B.map remap1)) : A.Perm B := by
  have hid : ∀ (L : List Nat), (∀ v ∈ L, 2 ≤ v ∧ v ≤ 14) →
      (L.map remap1).map unremap1 = L := by
    intro L hL
    induction L with
    | nil => rfl
    | cons x t ih =>
      simp only [List.map_cons]
      rw [ih fun v hv => hL v (by simp [hv]),
        unremap1_remap1 (hL x (by simp)).1 (hL x (by simp)).2]
  have h2 := h.map unremap1
  rwa [hid A hA, hid B hB] at h2

theorem perm_quad {q s q' s' : Nat} (hqs : q ≠ s) (hqs' : q' ≠ s')
    (h : ([q, q, q, q, s] : List Nat).Perm [q', q', q', q', s']) :
    q = q' ∧ s = s' := by
  have hq : q = q' := by
    have hc := h.count_eq q
    simp only [List.count_cons, List.count_nil, beq_iff_eq] at hc
    split_ifs at hc <;> omega
  subst hq
  refine ⟨rfl, ?_⟩
  have h1 := h.cons_inv.cons_inv.cons_inv.cons_inv
  have h2 := List.perm_singleton.mp h1
  exact (List.cons.injEq _ _ _ _).mp h2 |>.1

theorem perm_fh {t p t' p' : Nat} (htp : t ≠ p) (htp' : t' ≠ p')
    (h : ([t, t, t, p, p] : List Nat).Perm [t', t', t', p', p']) :
    t = t' ∧ p = p' := by
  have ht : t = t' := by
    have hc := h.count_eq t
    simp only [List.count_cons, List.count_nil, beq_iff_eq] at hc
    split_ifs at hc <;> omega
  subst ht
  refine ⟨rfl, ?_⟩
  have h1 := h.cons_inv.cons_inv.cons_inv
  have hc := h1.count_eq p
  simp only [List.count_cons, List.count_nil, beq_iff_eq] at hc
  split_ifs at hc <;> omega

theorem perm_trips {t x y t' x' y' : Nat}
    (htx : t ≠ x) (hty : t ≠ y) (hxy : x ≠ y)
    (htx' : t' ≠ x') (hty' : t' ≠ y') (hxy' : x' ≠ y')
    (h : ([t, t, t, x, y] : List Nat).Perm [t', t', t', x', y']) :
    t = t' ∧ ([x, y] : List Nat).Perm [x', y'] := by
  have ht : t = t' := by
    have hc := h.count_eq t
    simp only [List.count_cons, List.count_nil, beq_iff_eq] at hc
    split_ifs at hc <;> omega
  subst ht
  exact ⟨rfl, h.cons_inv.cons_inv.cons_inv⟩

theorem perm_twopair {hi lo s hi' lo' s' : Nat}
    (hlh : lo < hi) (hsh : s ≠ hi) (hsl : s ≠ lo)
    (hlh' : lo' < hi') (hsh' : s' ≠ hi') (hsl' : s' ≠ lo')
    (h : ([hi, hi, lo, lo, s] : List Nat).Perm [hi', hi', lo', lo', s']) :
    hi = hi' ∧ lo = lo' ∧ s = s' := by
  have hhi : hi = hi' := by
    have hc1 := h.count_eq hi
    have hc2 := h.count_eq hi'
    simp only [List.count_cons, List.count_nil, beq_iff_eq] at hc1 hc2
    split_ifs at hc1 hc2 <;> omega
  subst hhi
  have h1 := h.cons_inv.cons_inv
  have hlo : lo = lo' := by
    have hc := h1.count_eq lo
    simp only [List.count_cons, List.count_nil, beq_iff_eq] at hc
    split_ifs at hc <;> omega
  subst hlo
  have h2 := h1.cons_inv.cons_inv
  have h3 := List.perm_singleton.mp h2
  exact ⟨rfl, rfl, (List.cons.injEq _ _ _ _).mp h3 |>.1⟩

theorem perm_onepair {p x y z p' x' y' z' : Nat}
    (hpx : p ≠ x) (hpy : p ≠ y) (hpz : p ≠ z)
    (hxy : x ≠ y) (hxz : x ≠ z) (hyz : y ≠ z)
    (hpx' : p' ≠ x') (hpy' : p' ≠ y') (hpz' : p' ≠ z')
    (hxy' : x' ≠ y') (hxz' : x' ≠ z') (hyz' : y' ≠ z')
    (h : ([p, p, x, y, z] : List Nat).Perm [p', p', x', y', z']) :
    p = p' ∧ ([x, y, z] : List Nat).Perm [x', y', z'] := by
  have hp : p = p' := by
    have hc := h.count_eq p
    simp only [List.count_cons, List.count_nil, beq_iff_eq] at hc
    split_ifs at hc <;> omega
  subst hp
  exact ⟨rfl, h.cons_inv.cons_inv⟩

/-- The comparison key of a classified hand: the rank discriminant followed
by the card-value positions `partial_cmp` inspects for that rank, in the
order it inspects them. -/
def handKey (h : PokerHand) : List Nat :=
  rankVal h.rank ::
    match h.rank with
    | .StraightFlush | .Straight => [(val? h.cards_ranked 0).getD 0]
    | .FourOfAKind => [(val? h.cards_ranked 0).getD 0, (val? h.spares 0).getD 0]
    | .FullHouse => [(val? h.cards_ranked 0).getD 0, (val? h.cards_ranked 3).getD 0]
    | .Flush => vals h.cards_ranked
    | .ThreeOfAKind => (val? h.cards_ranked 0).getD 0 :: vals h.spares
    | .TwoPair => (val? h.cards_ranked 0).getD 0 ::
        (val? h.cards_ranked 2).getD 0 :: vals h.spares
    | .OnePair => (val? h.cards_ranked 0).getD 0 :: vals h.spares
    | .HighCard => vals h.spares
    | .NotRanked => []

/-- The key of a parsed hand is a function of its rank and its (sorted)
card values: the `HashMap` grouping cannot influence it. -/
theorem handKey_determined {a b : PokerHand} (ha : GoodHand a) (hb : GoodHand b)
    (hr : a.rank = b.rank) (hv : vals a.cards = vals b.cards) :
    handKey a = handKey b := by
  obtain ⟨hva, hsa, hspa⟩ := ha
  obtain ⟨hvb, hsb, hspb⟩ := hb
  rw [← hr] at hspb
  unfold handKey
  rw [← hr]
  cases hrk : a.rank with
  | NotRanked =>
    rw [hrk] at hspa
  | StraightFlush =>
    rw [hrk] at hspa hspb
    dsimp only
    obtain ⟨⟨v0, hrun⟩, hsp0, hswf, hswt⟩ :
        (∃ v0, vals a.cards_ranked = [v0, v0 + 1, v0 + 2, v0 + 3, v0 + 4]) ∧
          a.spares = [] ∧ (a.rank_swapped_aces = false → a.cards_ranked = a.cards) ∧
          (a.rank_swapped_aces = true → isConsecutive a.cards = false ∧
            14 ∈ vals a.cards ∧
            (vals a.cards_ranked).Perm ((vals a.cards).map remap1)) := hspa
    obtain ⟨⟨w0, hrun'⟩, hsp0', hswf', hswt'⟩ :
        (∃ w0, vals b.cards_ranked = [w0, w0 + 1, w0 + 2, w0 + 3, w0 + 4]) ∧
          b.spares = [] ∧ (b.rank_swapped_aces = false → b.cards_ranked = b.cards) ∧
          (b.rank_swapped_aces = true → isConsecutive b.cards = false ∧
            14 ∈ vals b.cards ∧
            (vals b.cards_ranked).Perm ((vals b.cards).map remap1)) := hspb
    have hk : (val? a.cards_ranked 0).getD 0 = v0 := by rw [val?_eq, hrun]; rfl
    have hk' : (val? b.cards_ranked 0).getD 0 = w0 := by rw [val?_eq, hrun']; rfl
    rw [hk, hk']
    suffices hvw : v0 = w0 by rw [hvw]
    cases hfa : a.rank_swapped_aces with
    | false =>
      have hra := hswf hfa
      rw [hra, hv] at hrun
      cases hfb : b.rank_swapped_aces with
      | false =>
        have hrb' := hswf' hfb
        rw [hrb'] at hrun'
        have he := hrun.symm.trans hrun'
        exact ((List.cons.injEq _ _ _ _).mp he).1
      | true =>
        obtain ⟨hnc, h14, hperm⟩ := hswt' hfb
        exact absurd (isConsecutive_run5 hrun) (by rw [hnc]; simp)
    | true =>
      obtain ⟨hnc, h14, hperm⟩ := hswt hfa
      cases hfb : b.rank_swapped_aces with
      | false =>
        have hrb' := hswf' hfb
        rw [hrb', ← hv] at hrun'
        exact absurd (isConsecutive_run5 hrun') (by rw [hnc]; simp)
      | true =>
        obtain ⟨hnc', h14', hperm'⟩ := hswt' hfb
        rw [hrun, hv] at hperm
        rw [hrun'] at hperm'
        have hpp := hperm.trans hperm'.symm
        have he := sortedAsc_eq_of_perm hpp run_sorted run_sorted
        exact ((List.cons.injEq _ _ _ _).mp he).1
  | Straight =>
    rw [hrk] at hspa hspb
    dsimp only
    obtain ⟨⟨v0, hrun⟩, hsp0, hswf, hswt⟩ :
        (∃ v0, vals a.cards_ranked = [v0, v0 + 1, v0 + 2, v0 + 3, v0 + 4]) ∧
          a.spares = [] ∧ (a.rank_swapped_aces = false → a.cards_ranked = a.cards) ∧
          (a.rank_swapped_aces = true → isConsecutive a.cards = false ∧
            14 ∈ vals a.cards ∧
            (vals a.cards_ranked).Perm ((vals a.cards).map remap1)) := hspa
    obtain ⟨⟨w0, hrun'⟩, hsp0', hswf', hswt'⟩ :
        (∃ w0, vals b.cards_ranked = [w0, w0 + 1, w0 + 2, w0 + 3, w0 + 4]) ∧
          b.spares = [] ∧ (b.rank_swapped_aces = false → b.cards_ranked = b.cards) ∧
          (b.rank_swapped_aces = true → isConsecutive b.cards = false ∧
            14 ∈ vals b.cards ∧
            (vals b.cards_ranked).Perm ((vals b.cards).map remap1)) := hspb
    have hk : (val? a.cards_ranked 0).getD 0 = v0 := by rw [val?_eq, hrun]; rfl
    have hk' : (val? b.cards_ranked 0).getD 0 = w0 := by rw [val?_eq, hrun']; rfl
    rw [hk, hk']
    suffices hvw : v0 = w0 by rw [hvw]
    cases hfa : a.rank_swapped_aces with
    | false =>
      have hra := hswf hfa
      rw [hra, hv] at hrun
      cases hfb : b.rank_swapped_aces with
      | false =>
        have hrb' := hswf' hfb
        rw [hrb'] at hrun'
        have he := hrun.symm.trans hrun'
        exact ((List.cons.injEq _ _ _ _).mp he).1
      | true =>
        obtain ⟨hnc, h14, hperm⟩ := hswt' hfb
        exact absurd (isConsecutive_run5 hrun) (by rw [hnc]; simp)
    | true =>
      obtain ⟨hnc, h14, hperm⟩ := hswt hfa
      cases hfb : b.rank_swapped_aces with
      | false =>
        have hrb' := hswf' hfb
        rw [hrb', ← hv] at hrun'
        exact absurd (isConsecutive_run5 hrun') (by rw [hnc]; simp)
      | true =>
        obtain ⟨hnc', h14', hperm'⟩ := hswt' hfb
        rw [hrun, hv] at hperm
        rw [hrun'] at hperm'
        have hpp := hperm.trans hperm'.symm
        have he := sortedAsc_eq_of_perm hpp run_sorted run_sorted
        exact ((List.cons.injEq _ _ _ _).mp he).1
  | FourOfAKind =>
    rw [hrk] at hspa hspb
    dsimp only
    obtain ⟨hsw, q, s, hqs, hrv, hsp, hcp⟩ :
        a.rank_swapped_aces = false ∧ ∃ q s, q ≠ s ∧
          vals a.cards_ranked = [q, q, q, q] ∧ vals a.spares = [remap1 s] ∧
          (vals a.cards).Perm [q, q, q, q, s] := hspa
    obtain ⟨hsw', q', s', hqs', hrv', hsp', hcp'⟩ :
        b.rank_swapped_aces = false ∧ ∃ q s, q ≠ s ∧
          vals b.cards_ranked = [q, q, q, q] ∧ vals b.spares = [remap1 s] ∧
          (vals b.cards).Perm [q, q, q, q, s] := hspb
    have hcp2 : (vals a.cards).Perm [q', q', q', q', s'] := by rw [hv]; exact hcp'
    obtain ⟨hq, hs⟩ := perm_quad hqs hqs' (hcp.symm.trans hcp2)
    have hk1 : (val? a.cards_ranked 0).getD 0 = q := by rw [val?_eq, hrv]; rfl
    have hk1' : (val? b.cards_ranked 0).getD 0 = q' := by rw [val?_eq, hrv']; rfl
    have hk2 : (val? a.spares 0).getD 0 = remap1 s := by rw [val?_eq, hsp]; rfl
    have hk2' : (val? b.spares 0).getD 0 = remap1 s' := by rw [val?_eq, hsp']; rfl
    rw [hk1, hk1', hk2, hk2', hq, hs]
  | FullHouse =>
    rw [hrk] at hspa hspb
    dsimp only
    obtain ⟨hsw, hsp0, t, p, htp, hrv, hcp⟩ :
        a.rank_swapped_aces = false ∧ a.spares = [] ∧ ∃ t p, t ≠ p ∧
          vals a.cards_ranked = [t, t, t, p, p] ∧
          (vals a.cards).Perm [t, t, t, p, p] := hspa
    obtain ⟨hsw', hsp0', t', p', htp', hrv', hcp'⟩ :
        b.rank_swapped_aces = false ∧ b.spares = [] ∧ ∃ t p, t ≠ p ∧
          vals b.cards_ranked = [t, t, t, p, p] ∧
          (vals b.cards).Perm [t, t, t, p, p] := hspb
    have hcp2 : (vals a.cards).Perm [t', t', t', p', p'] := by rw [hv]; exact hcp'
    obtain ⟨ht, hp⟩ := perm_fh htp htp' (hcp.symm.trans hcp2)
    have hk1 : (val? a.cards_ranked 0).getD 0 = t := by rw [val?_eq, hrv]; rfl
    have hk1' : (val? b.cards_ranked 0).getD 0 = t' := by rw [val?_eq, hrv']; rfl
    have hk2 : (val? a.cards_ranked 3).getD 0 = p := by rw [val?_eq, hrv]; rfl
    have hk2' : (val? b.cards_ranked 3).getD 0 = p' := by rw [val?_eq, hrv']; rfl
    rw [hk1, hk1', hk2, hk2', ht, hp]
  | Flush =>
    rw [hrk] at hspa hspb
    dsimp only
    obtain ⟨hsw, hsp0, hcr⟩ :
        a.rank_swapped_aces = false ∧ a.spares = [] ∧ a.cards_ranked = a.cards := hspa
    obtain ⟨hsw', hsp0', hcr'⟩ :
        b.rank_swapped_aces = false ∧ b.spares = [] ∧ b.cards_ranked = b.cards := hspb
    rw [hcr, hcr', hv]
  | ThreeOfAKind =>
    rw [hrk] at hspa hspb
    dsimp only
    obtain ⟨hsw, t, x, y, htx, hty, hxy, hrv, hsort, hpermsp, hcp⟩ :
        a.rank_swapped_aces = false ∧ ∃ t u v, t ≠ u ∧ t ≠ v ∧ u ≠ v ∧
          vals a.cards_ranked = [t, t, t] ∧ (vals a.spares).Sorted (· ≥ ·) ∧
          (vals a.spares).Perm [remap1 u, remap1 v] ∧
          (vals a.cards).Perm [t, t, t, u, v] := hspa
    obtain ⟨hsw', t', x', y', htx', hty', hxy', hrv', hsort', hpermsp', hcp'⟩ :
        b.rank_swapped_aces = false ∧ ∃ t u v, t ≠ u ∧ t ≠ v ∧ u ≠ v ∧
          vals b.cards_ranked = [t, t, t] ∧ (vals b.spares).Sorted (· ≥ ·) ∧
          (vals b.spares).Perm [remap1 u, remap1 v] ∧
          (vals b.cards).Perm [t, t, t, u, v] := hspb
    have hcp2 : (vals a.cards).Perm [t', t', t', x', y'] := by rw [hv]; exact hcp'
    obtain ⟨ht, hxyp⟩ := perm_trips htx hty hxy htx' hty' hxy' (hcp.symm.trans hcp2)
    have hk1 : (val? a.cards_ranked 0).getD 0 = t := by rw [val?_eq, hrv]; rfl
    have hk1' : (val? b.cards_ranked 0).getD 0 = t' := by rw [val?_eq, hrv']; rfl
    have hmap : ([remap1 x, remap1 y] : List Nat).Perm [remap1 x', remap1 y'] := by
      have hm := hxyp.map remap1
      simpa using hm
    have hspeq : vals a.spares = vals b.spares :=
      sortedDesc_eq_of_perm (hpermsp.trans (hmap.trans hpermsp'.symm)) hsort hsort'
    rw [hk1, hk1', ht, hspeq]
  | TwoPair =>
    rw [hrk] at hspa hspb
    dsimp only
    obtain ⟨hsw, hi, lo, s, hlh, hsh, hsl, hrv, hsp, hcp⟩ :
        a.rank_swapped_aces = false ∧ ∃ hi lo s, lo < hi ∧ s ≠ hi ∧ s ≠ lo ∧
          vals a.cards_ranked = [hi, hi, lo, lo] ∧ vals a.spares = [remap1 s] ∧
          (vals a.cards).Perm [hi, hi, lo, lo, s] := hspa
    obtain ⟨hsw', hi', lo', s', hlh', hsh', hsl', hrv', hsp', hcp'⟩ :
        b.rank_swapped_aces = false ∧ ∃ hi lo s, lo < hi ∧ s ≠ hi ∧ s ≠ lo ∧
          vals b.cards_ranked = [hi, hi, lo, lo] ∧ vals b.spares = [remap1 s] ∧
          (vals b.cards).Perm [hi, hi, lo, lo, s] := hspb
    have hcp2 : (vals a.cards).Perm [hi', hi', lo', lo', s'] := by rw [hv]; exact hcp'
    obtain ⟨hhi, hlo, hs⟩ := perm_twopair hlh hsh hsl hlh' hsh' hsl'
      (hcp.symm.trans hcp2)
    have hk1 : (val? a.cards_ranked 0).getD 0 = hi := by rw [val?_eq, hrv]; rfl
    have hk1' : (val? b.cards_ranked 0).getD 0 = hi' := by rw [val?_eq, hrv']; rfl
    have hk2 : (val? a.cards_ranked 2).getD 0 = lo := by rw [val?_eq, hrv]; rfl
    have hk2' : (val? b.cards_ranked 2).getD 0 = lo' := by rw [val?_eq, hrv']; rfl
    rw [hk1, hk1', hk2, hk2', hsp, hsp', hhi, hlo, hs]
  | OnePair =>
    rw [hrk] at hspa hspb
    dsimp only
    obtain ⟨hsw, p, x, y, z, hpx, hpy, hpz, hxy, hxz, hyz, hrv, hsort, hpermsp, hcp⟩ :
        a.rank_swapped_aces = false ∧ ∃ p u v w, p ≠ u ∧ p ≠ v ∧ p ≠ w ∧ u ≠ v ∧
          u ≠ w ∧ v ≠ w ∧ vals a.cards_ranked = [p, p] ∧
          (vals a.spares).Sorted (· ≥ ·) ∧
          (vals a.spares).Perm [remap1 u, remap1 v, remap1 w] ∧
          (vals a.cards).Perm [p, p, u, v, w] := hspa
    obtain ⟨hsw', p', x', y', z', hpx', hpy', hpz', hxy', hxz', hyz', hrv', hsort',
        hpermsp', hcp'⟩ :
        b.rank_swapped_aces = false ∧ ∃ p u v w, p ≠ u ∧ p ≠ v ∧ p ≠ w ∧ u ≠ v ∧
          u ≠ w ∧ v ≠ w ∧ vals b.cards_ranked = [p, p] ∧
          (vals b.spares).Sorted (· ≥ ·) ∧
          (vals b.spares).Perm [remap1 u, remap1 v, remap1 w] ∧
          (vals b.cards).Perm [p, p, u, v, w] := hspb
    have hcp2 : (vals a.cards).Perm [p', p', x', y', z'] := by rw [hv]; exact hcp'
    obtain ⟨hp, hxyzp⟩ := perm_onepair hpx hpy hpz hxy hxz hyz hpx' hpy' hpz' hxy'
      hxz' hyz' (hcp.symm.trans hcp2)
    have hk1 : (val? a.cards_ranked 0).getD 0 = p := by rw [val?_eq, hrv]; rfl
    have hk1' : (val? b.cards_ranked 0).getD 0 = p' := by rw [val?_eq, hrv']; rfl
    have hmap : ([remap1 x, remap1 y, remap1 z] : List Nat).Perm
        [remap1 x', remap1 y', remap1 z'] := by
      have hm := hxyzp.map remap1
      simpa using hm
    have hspeq : vals a.spares = vals b.spares :=
      sortedDesc_eq_of_perm (hpermsp.trans (hmap.trans hpermsp'.symm)) hsort hsort'
    rw [hk1, hk1', hp, hspeq]
  | HighCard =>
    rw [hrk] at hspa hspb
    dsimp only
    obtain ⟨hsw, hcr, hsort, hperm⟩ :
        a.rank_swapped_aces = false ∧ a.cards_ranked = [] ∧
          (vals a.spares).Sorted (· ≥ ·) ∧
          (vals a.spares).Perm ((vals a.cards).map remap1) := hspa
    obtain ⟨hsw', hcr', hsort', hperm'⟩ :
        b.rank_swapped_aces = false ∧ b.cards_ranked = [] ∧
          (vals b.spares).Sorted (· ≥ ·) ∧
          (vals b.spares).Perm ((vals b.cards).map remap1) := hspb
    have hmap : ((vals a.cards).map remap1).Perm ((vals b.cards).map remap1) := by
      rw [hv]
    have hspeq : vals a.spares = vals b.spares :=
      sortedDesc_eq_of_perm (hperm.trans (hmap.trans hperm'.symm)) hsort hsort'
    rw [hspeq]

/-- The key of a parsed hand determines its rank and its (sorted) card
values: hands with equal keys are value-equal. -/
theorem key_inj {a b : PokerHand} (ha : GoodHand a) (hb : GoodHand b)
    (hk : handKey a = handKey b) : a.rank = b.rank ∧ vals a.cards = vals b.cards := by
  obtain ⟨hva, hsa, hspa⟩ := ha
  obtain ⟨hvb, hsb, hspb⟩ := hb
  unfold handKey at hk
  have hr : a.rank = b.rank := rankVal_inj ((List.cons.injEq _ _ _ _).mp hk).1
  refine ⟨hr, ?_⟩
  have htl := ((List.cons.injEq _ _ _ _).mp hk).2
  rw [← hr] at hspb htl
  cases hrk : a.rank with
  | NotRanked =>
    rw [hrk] at hspa
    exact False.elim hspa
  | StraightFlush =>
    rw [hrk] at hspa hspb htl
    obtain ⟨⟨v0, hrun⟩, hsp0, hswf, hswt⟩ :
        (∃ v0, vals a.cards_ranked = [v0, v0 + 1, v0 + 2, v0 + 3, v0 + 4]) ∧
          a.spares = [] ∧ (a.rank_swapped_aces = false → a.cards_ranked = a.cards) ∧
          (a.rank_swapped_aces = true → isConsecutive a.cards = false ∧
            14 ∈ vals a.cards ∧
            (vals a.cards_ranked).Perm ((vals a.cards).map remap1)) := hspa
    obtain ⟨⟨w0, hrun'⟩, hsp0', hswf', hswt'⟩ :
        (∃ w0, vals b.cards_ranked = [w0, w0 + 1, w0 + 2, w0 + 3, w0 + 4]) ∧
          b.spares = [] ∧ (b.rank_swapped_aces = false → b.cards_ranked = b.cards) ∧
          (b.rank_swapped_aces = true → isConsecutive b.cards = false ∧
            14 ∈ vals b.cards ∧
            (vals b.cards_ranked).Perm ((vals b.cards).map remap1)) := hspb
    replace htl : [(val? a.cards_ranked 0).getD 0] =
        [(val? b.cards_ranked 0).getD 0] := htl
    have hk1 : (val? a.cards_ranked 0).getD 0 = v0 := by rw [val?_eq, hrun]; rfl
    have hk1' : (val? b.cards_ranked 0).getD 0 = w0 := by rw [val?_eq, hrun']; rfl
    rw [hk1, hk1'] at htl
    have hvw : v0 = w0 := ((List.cons.injEq _ _ _ _).mp htl).1
    cases hfa : a.rank_swapped_aces with
    | false =>
      have hra := hswf hfa
      rw [hra] at hrun
      cases hfb : b.rank_swapped_aces with
      | false =>
        have hrb' := hswf' hfb
        rw [hrb'] at hrun'
        rw [hrun, hrun', hvw]
      | true =>
        obtain ⟨hnc', h14', hperm'⟩ := hswt' hfb
        exfalso
        have hw1 : w0 = 1 := by
          have h1m : (1 : Nat) ∈ vals b.cards_ranked :=
            (hperm'.mem_iff).mpr (List.mem_map.mpr ⟨14, h14', rfl⟩)
          have hlb : ∀ u ∈ vals b.cards_ranked, 1 ≤ u := by
            intro u hu
            obtain ⟨w, hw, rfl⟩ := List.mem_map.mp ((hperm'.mem_iff).mp hu)
            have hrange := vals_range hvb w hw
            unfold remap1
            split_ifs <;> omega
          have hw0mem : w0 ∈ vals b.cards_ranked := by rw [hrun']; simp
          have hge := hlb w0 hw0mem
          rw [hrun'] at h1m
          simp only [List.mem_cons, List.mem_singleton, List.not_mem_nil,
            or_false] at h1m
          omega
        have h1a : (1 : Nat) ∈ vals a.cards := by rw [hrun, hvw, hw1]; simp
        have hge2 := vals_range hva 1 h1a
        omega
    | true =>
      obtain ⟨hnc, h14, hperm⟩ := hswt hfa
      cases hfb : b.rank_swapped_aces with
      | false =>
        have hrb' := hswf' hfb
        rw [hrb'] at hrun'
        exfalso
        have hv1 : v0 = 1 := by
          have h1m : (1 : Nat) ∈ vals a.cards_ranked :=
            (hperm.mem_iff).mpr (List.mem_map.mpr ⟨14, h14, rfl⟩)
          have hlb : ∀ u ∈ vals a.cards_ranked, 1 ≤ u := by
            intro u hu
            obtain ⟨w, hw, rfl⟩ := List.mem_map.mp ((hperm.mem_iff).mp hu)
            have hrange := vals_range hva w hw
            unfold remap1
            split_ifs <;> omega
          have hv0mem : v0 ∈ vals a.cards_ranked := by rw [hrun]; simp
          have hge := hlb v0 hv0mem
          rw [hrun] at h1m
          simp only [List.mem_cons, List.mem_singleton, List.not_mem_nil,
            or_false] at h1m
          omega
        have h1b : (1 : Nat) ∈ vals b.cards := by rw [hrun', ← hvw, hv1]; simp
        have hge2 := vals_range hvb 1 h1b
        omega
      | true =>
        obtain ⟨hnc', h14', hperm'⟩ := hswt' hfb
        rw [hrun] at hperm
        rw [hrun'] at hperm'
        have hAB : ((vals a.cards).map remap1).Perm ((vals b.cards).map remap1) := by
          refine hperm.symm.trans ?_
          rw [hvw]
          exact hperm'
        exact sortedAsc_eq_of_perm
          (perm_map_remap1 (vals_range hva) (vals_range hvb) hAB) hsa hsb
  | Straight =>
    rw [hrk] at hspa hspb htl
    obtain ⟨⟨v0, hrun⟩, hsp0, hswf, hswt⟩ :
        (∃ v0, vals a.cards_ranked = [v0, v0 + 1, v0 + 2, v0 + 3, v0 + 4]) ∧
          a.spares = [] ∧ (a.rank_swapped_aces = false → a.cards_ranked = a.cards) ∧
          (a.rank_swapped_aces = true → isConsecutive a.cards = false ∧
            14 ∈ vals a.cards ∧
            (vals a.cards_ranked).Perm ((vals a.cards).map remap1)) := hspa
    obtain ⟨⟨w0, hrun'⟩, hsp0', hswf', hswt'⟩ :
        (∃ w0, vals b.cards_ranked = [w0, w0 + 1, w0 + 2, w0 + 3, w0 + 4]) ∧
          b.spares = [] ∧ (b.rank_swapped_aces = false → b.cards_ranked = b.cards) ∧
          (b.rank_swapped_aces = true → isConsecutive b.cards = false ∧
            14 ∈ vals b.cards ∧
            (vals b.cards_ranked).Perm ((vals b.cards).map remap1)) := hspb
    replace htl : [(val? a.cards_ranked 0).getD 0] =
        [(val? b.cards_ranked 0).getD 0] := htl
    have hk1 : (val? a.cards_ranked 0).getD 0 = v0 := by rw [val?_eq, hrun]; rfl
    have hk1' : (val? b.cards_ranked 0).getD 0 = w0 := by rw [val?_eq, hrun']; rfl
    rw [hk1, hk1'] at htl
    have hvw : v0 = w0 := ((List.cons.injEq _ _ _ _).mp htl).1
    cases hfa : a.rank_swapped_aces with
    | false =>
      have hra := hswf hfa
      rw [hra] at hrun
      cases hfb : b.rank_swapped_aces with
      | false =>
        have hrb' := hswf' hfb
        rw [hrb'] at hrun'
        rw [hrun, hrun', hvw]
      | true =>
        obtain ⟨hnc', h14', hperm'⟩ := hswt' hfb
        exfalso
        have hw1 : w0 = 1 := by
          have h1m : (1 : Nat) ∈ vals b.cards_ranked :=
            (hperm'.mem_iff).mpr (List.mem_map.mpr ⟨14, h14', rfl⟩)
          have hlb : ∀ u ∈ vals b.cards_ranked, 1 ≤ u := by
            intro u hu
            obtain ⟨w, hw, rfl⟩ := List.mem_map.mp ((hperm'.mem_iff).mp hu)
            have hrange := vals_range hvb w hw
            unfold remap1
            split_ifs <;> omega
          have hw0mem : w0 ∈ vals b.cards_ranked := by rw [hrun']; simp
          have hge := hlb w0 hw0mem
          rw [hrun'] at h1m
          simp only [List.mem_cons, List.mem_singleton, List.not_mem_nil,
            or_false] at h1m
          omega
        have h1a : (1 : Nat) ∈ vals a.cards := by rw [hrun, hvw, hw1]; simp
        have hge2 := vals_range hva 1 h1a
        omega
    | true =>
      obtain ⟨hnc, h14, hperm⟩ := hswt hfa
      cases hfb : b.rank_swapped_aces with
      | false =>
        have hrb' := hswf' hfb
        rw [hrb'] at hrun'
        exfalso
        have hv1 : v0 = 1 := by
          have h1m : (1 : Nat) ∈ vals a.cards_ranked :=
            (hperm.mem_iff).mpr (List.mem_map.mpr ⟨14, h14, rfl⟩)
          have hlb : ∀ u ∈ vals a.cards_ranked, 1 ≤ u := by
            intro u hu
            obtain ⟨w, hw, rfl⟩ := List.mem_map.mp ((hperm.mem_iff).mp hu)
            have hrange := vals_range hva w hw
            unfold remap1
            split_ifs <;> omega
          have hv0mem : v0 ∈ vals a.cards_ranked := by rw [hrun]; simp
          have hge := hlb v0 hv0mem
          rw [hrun] at h1m
          simp only [List.mem_cons, List.mem_singleton, List.not_mem_nil,
            or_false] at h1m
          omega
        have h1b : (1 : Nat) ∈ vals b.cards := by rw [hrun', ← hvw, hv1]; simp
        have hge2 := vals_range hvb 1 h1b
        omega
      | true =>
        obtain ⟨hnc', h14', hperm'⟩ := hswt' hfb
        rw [hrun] at hperm
        rw [hrun'] at hperm'
        have hAB : ((vals a.cards).map remap1).Perm ((vals b.cards).map remap1) := by
          refine hperm.symm.trans ?_
          rw [hvw]
          exact hperm'
        exact sortedAsc_eq_of_perm
          (perm_map_remap1 (vals_range hva) (vals_range hvb) hAB) hsa hsb
  | FourOfAKind =>
    rw [hrk] at hspa hspb htl
    obtain ⟨hsw, q, s, hqs, hrv, hsp, hcp⟩ :
        a.rank_swapped_aces = false ∧ ∃ q s, q ≠ s ∧
          vals a.cards_ranked = [q, q, q, q] ∧ vals a.spares = [remap1 s] ∧
          (vals a.cards).Perm [q, q, q, q, s] := hspa
    obtain ⟨hsw', q', s', hqs', hrv', hsp', hcp'⟩ :
        b.rank_swapped_aces = false ∧ ∃ q s, q ≠ s ∧
          vals b.cards_ranked = [q, q, q, q] ∧ vals b.spares = [remap1 s] ∧
          (vals b.cards).Perm [q, q, q, q, s] := hspb
    replace htl : [(val? a.cards_ranked 0).getD 0, (val? a.spares 0).getD 0] =
        [(val? b.cards_ranked 0).getD 0, (val? b.spares 0).getD 0] := htl
    have hk1 : (val? a.cards_ranked 0).getD 0 = q := by rw [val?_eq, hrv]; rfl
    have hk1' : (val? b.cards_ranked 0).getD 0 = q' := by rw [val?_eq, hrv']; rfl
    have hk2 : (val? a.spares 0).getD 0 = remap1 s := by rw [val?_eq, hsp]; rfl
    have hk2' : (val? b.spares 0).getD 0 = remap1 s' := by rw [val?_eq, hsp']; rfl
    rw [hk1, hk1', hk2, hk2'] at htl
    simp only [List.cons.injEq, and_true] at htl
    obtain ⟨hq, hrs⟩ := htl
    have hs : s = s' := by
      refine remap1_inj ?_ ?_ ?_ ?_ hrs
      · exact (vals_range hva s ((hcp.mem_iff).mpr (by simp))).1
      · exact (vals_range hva s ((hcp.mem_iff).mpr (by simp))).2
      · exact (vals_range hvb s' ((hcp'.mem_iff).mpr (by simp))).1
      · exact (vals_range hvb s' ((hcp'.mem_iff).mpr (by simp))).2
    refine sortedAsc_eq_of_perm (hcp.trans ?_) hsa hsb
    rw [hq, hs]
    exact hcp'.symm
  | FullHouse =>
    rw [hrk] at hspa hspb htl
    obtain ⟨hsw, hsp0, t, p, htp, hrv, hcp⟩ :
        a.rank_swapped_aces = false ∧ a.spares = [] ∧ ∃ t p, t ≠ p ∧
          vals a.cards_ranked = [t, t, t, p, p] ∧
          (vals a.cards).Perm [t, t, t, p, p] := hspa
    obtain ⟨hsw', hsp0', t', p', htp', hrv', hcp'⟩ :
        b.rank_swapped_aces = false ∧ b.spares = [] ∧ ∃ t p, t ≠ p ∧
          vals b.cards_ranked = [t, t, t, p, p] ∧
          (vals b.cards).Perm [t, t, t, p, p] := hspb
    replace htl : [(val? a.cards_ranked 0).getD 0, (val? a.cards_ranked 3).getD 0] =
        [(val? b.cards_ranked 0).getD 0, (val? b.cards_ranked 3).getD 0] := htl
    have hk1 : (val? a.cards_ranked 0).getD 0 = t := by rw [val?_eq, hrv]; rfl
    have hk1' : (val? b.cards_ranked 0).getD 0 = t' := by rw [val?_eq, hrv']; rfl
    have hk2 : (val? a.cards_ranked 3).getD 0 = p := by rw [val?_eq, hrv]; rfl
    have hk2' : (val? b.cards_ranked 3).getD 0 = p' := by rw [val?_eq, hrv']; rfl
    rw [hk1, hk1', hk2, hk2'] at htl
    simp only [List.cons.injEq, and_true] at htl
    obtain ⟨ht, hp⟩ := htl
    refine sortedAsc_eq_of_perm (hcp.trans ?_) hsa hsb
    rw [ht, hp]
    exact hcp'.symm
  | Flush =>
    rw [hrk] at hspa hspb htl
    obtain ⟨hsw, hsp0, hcr⟩ :
        a.rank_swapped_aces = false ∧ a.spares = [] ∧ a.cards_ranked = a.cards := hspa
    obtain ⟨hsw', hsp0', hcr'⟩ :
        b.rank_swapped_aces = false ∧ b.spares = [] ∧ b.cards_ranked = b.cards := hspb
    replace htl : vals a.cards_ranked = vals b.cards_ranked := htl
    rwa [hcr, hcr'] at htl
  | ThreeOfAKind =>
    rw [hrk] at hspa hspb htl
    obtain ⟨hsw, t, x, y, htx, hty, hxy, hrv, hsort, hpermsp, hcp⟩ :
        a.rank_swapped_aces = false ∧ ∃ t u v, t ≠ u ∧ t ≠ v ∧ u ≠ v ∧
          vals a.cards_ranked = [t, t, t] ∧ (vals a.spares).Sorted (· ≥ ·) ∧
          (vals a.spares).Perm [remap1 u, remap1 v] ∧
          (vals a.cards).Perm [t, t, t, u, v] := hspa
    obtain ⟨hsw', t', x', y', htx', hty', hxy', hrv', hsort', hpermsp', hcp'⟩ :
        b.rank_swapped_aces = false ∧ ∃ t u v, t ≠ u ∧ t ≠ v ∧ u ≠ v ∧
          vals b.cards_ranked = [t, t, t] ∧ (vals b.spares).Sorted (· ≥ ·) ∧
          (vals b.spares).Perm [remap1 u, remap1 v] ∧
          (vals b.cards).Perm [t, t, t, u, v] := hspb
    replace htl : (val? a.cards_ranked 0).getD 0 :: vals a.spares =
        (val? b.cards_ranked 0).getD 0 :: vals b.spares := htl
    have hk1 : (val? a.cards_ranked 0).getD 0 = t := by rw [val?_eq, hrv]; rfl
    have hk1' : (val? b.cards_ranked 0).getD 0 = t' := by rw [val?_eq, hrv']; rfl
    rw [hk1, hk1'] at htl
    obtain ⟨ht, hsp_eq⟩ := (List.cons.injEq _ _ _ _).mp htl
    have hh : ([remap1 x, remap1 y] : List Nat).Perm [remap1 x', remap1 y'] := by
      rw [← hsp_eq] at hpermsp'
      exact hpermsp.symm.trans hpermsp'
    have hxyp : ([x, y] : List Nat).Perm [x', y'] := by
      refine perm_map_remap1 ?_ ?_ (by simpa using hh)
      · intro v hv
        refine vals_range hva v ((hcp.mem_iff).mpr ?_)
        simp only [List.mem_cons, List.not_mem_nil, or_false] at hv ⊢
        tauto
      · intro v hv
        refine vals_range hvb v ((hcp'.mem_iff).mpr ?_)
        simp only [List.mem_cons, List.not_mem_nil, or_false] at hv ⊢
        tauto
    refine sortedAsc_eq_of_perm (hcp.trans ?_) hsa hsb
    rw [ht]
    exact (((hxyp.cons t').cons t').cons t').trans hcp'.symm
  | TwoPair =>
    rw [hrk] at hspa hspb htl
    obtain ⟨hsw, hi, lo, s, hlh, hsh, hsl, hrv, hsp, hcp⟩ :
        a.rank_swapped_aces = false ∧ ∃ hi lo s, lo < hi ∧ s ≠ hi ∧ s ≠ lo ∧
          vals a.cards_ranked = [hi, hi, lo, lo] ∧ vals a.spares = [remap1 s] ∧
          (vals a.cards).Perm [hi, hi, lo, lo, s] := hspa
    obtain ⟨hsw', hi', lo', s', hlh', hsh', hsl', hrv', hsp', hcp'⟩ :
        b.rank_swapped_aces = false ∧ ∃ hi lo s, lo < hi ∧ s ≠ hi ∧ s ≠ lo ∧
          vals b.cards_ranked = [hi, hi, lo, lo] ∧ vals b.spares = [remap1 s] ∧
          (vals b.cards).Perm [hi, hi, lo, lo, s] := hspb
    replace htl : (val? a.cards_ranked 0).getD 0 ::
        (val? a.cards_ranked 2).getD 0 :: vals a.spares =
        (val? b.cards_ranked 0).getD 0 ::
        (val? b.cards_ranked 2).getD 0 :: vals b.spares := htl
    have hk1 : (val? a.cards_ranked 0).getD 0 = hi := by rw [val?_eq, hrv]; rfl
    have hk1' : (val? b.cards_ranked 0).getD 0 = hi' := by rw [val?_eq, hrv']; rfl
    have hk2 : (val? a.cards_ranked 2).getD 0 = lo := by rw [val?_eq, hrv]; rfl
    have hk2' : (val? b.cards_ranked 2).getD 0 = lo' := by rw [val?_eq, hrv']; rfl
    rw [hk1, hk1', hk2, hk2', hsp, hsp'] at htl
    simp only [List.cons.injEq, and_true] at htl
    obtain ⟨hhi, hlo, hrs⟩ := htl
    have hs : s = s' := by
      refine remap1_inj ?_ ?_ ?_ ?_ hrs
      · exact (vals_range hva s ((hcp.mem_iff).mpr (by simp))).1
      · exact (vals_range hva s ((hcp.mem_iff).mpr (by simp))).2
      · exact (vals_range hvb s' ((hcp'.mem_iff).mpr (by simp))).1
      · exact (vals_range hvb s' ((hcp'.mem_iff).mpr (by simp))).2
    refine sortedAsc_eq_of_perm (hcp.trans ?_) hsa hsb
    rw [hhi, hlo, hs]
    exact hcp'.symm
  | OnePair =>
    rw [hrk] at hspa hspb htl
    obtain ⟨hsw, p, x, y, z, hpx, hpy, hpz, hxy, hxz, hyz, hrv, hsort, hpermsp, hcp⟩ :
        a.rank_swapped_aces = false ∧ ∃ p u v w, p ≠ u ∧ p ≠ v ∧ p ≠ w ∧ u ≠ v ∧
          u ≠ w ∧ v ≠ w ∧ vals a.cards_ranked = [p, p] ∧
          (vals a.spares).Sorted (· ≥ ·) ∧
          (vals a.spares).Perm [remap1 u, remap1 v, remap1 w] ∧
          (vals a.cards).Perm [p, p, u, v, w] := hspa
    obtain ⟨hsw', p', x', y', z', hpx', hpy', hpz', hxy', hxz', hyz', hrv', hsort',
        hpermsp', hcp'⟩ :
        b.rank_swapped_aces = false ∧ ∃ p u v w, p ≠ u ∧ p ≠ v ∧ p ≠ w ∧ u ≠ v ∧
          u ≠ w ∧ v ≠ w ∧ vals b.cards_ranked = [p, p] ∧
          (vals b.spares).Sorted (· ≥ ·) ∧
          (vals b.spares).Perm [remap1 u, remap1 v, remap1 w] ∧
          (vals b.cards).Perm [p, p, u, v, w] := hspb
    replace htl : (val? a.cards_ranked 0).getD 0 :: vals a.spares =
        (val? b.cards_ranked 0).getD 0 :: vals b.spares := htl
    have hk1 : (val? a.cards_ranked 0).getD 0 = p := by rw [val?_eq, hrv]; rfl
    have hk1' : (val? b.cards_ranked 0).getD 0 = p' := by rw [val?_eq, hrv']; rfl
    rw [hk1, hk1'] at htl
    obtain ⟨hp, hsp_eq⟩ := (List.cons.injEq _ _ _ _).mp htl
    have hh : ([remap1 x, remap1 y, remap1 z] : List Nat).Perm
        [remap1 x', remap1 y', remap1 z'] := by
      rw [← hsp_eq] at hpermsp'
      exact hpermsp.symm.trans hpermsp'
    have hxyzp : ([x, y, z] : List Nat).Perm [x', y', z'] := by
      refine perm_map_remap1 ?_ ?_ (by simpa using hh)
      · intro v hv
        refine vals_range hva v ((hcp.mem_iff).mpr ?_)
        simp only [List.mem_cons, List.not_mem_nil, or_false] at hv ⊢
        tauto
      · intro v hv
        refine vals_range hvb v ((hcp'.mem_iff).mpr ?_)
        simp only [List.mem_cons, List.not_mem_nil, or_false] at hv ⊢
        tauto
    refine sortedAsc_eq_of_perm (hcp.trans ?_) hsa hsb
    rw [hp]
    exact ((hxyzp.cons p').cons p').trans hcp'.symm
  | HighCard =>
    rw [hrk] at hspa hspb htl
    obtain ⟨hsw, hcr, hsort, hperm⟩ :
        a.rank_swapped_aces = false ∧ a.cards_ranked = [] ∧
          (vals a.spares).Sorted (· ≥ ·) ∧
          (vals a.spares).Perm ((vals a.cards).map remap1) := hspa
    obtain ⟨hsw', hcr', hsort', hperm'⟩ :
        b.rank_swapped_aces = false ∧ b.cards_ranked = [] ∧
          (vals b.spares).Sorted (· ≥ ·) ∧
          (vals b.spares).Perm ((vals b.cards).map remap1) := hspb
    replace htl : vals a.spares = vals b.spares := htl
    rw [← htl] at hperm'
    exact sortedAsc_eq_of_perm
      (perm_map_remap1 (vals_range hva) (vals_range hvb)
        (hperm.symm.trans hperm')) hsa hsb

theorem lexNat_one {x y : Nat} : lexNat [x] [y] = natCmp x y := by
  cases h : natCmp x y <;> simp [lexNat, h]

theorem lexNat_cons_eq {x : Nat} {as bs : List Nat} :
    lexNat (x :: as) (x :: bs) = lexNat as bs := by
  simp [lexNat, natCmp_self]

/-- `PartialEq::eq` agrees with key equality on parsed hands. -/
theorem beqHand_iff_key {a b : PokerHand} (ha : GoodHand a) (hb : GoodHand b) :
    beqHand a b = true ↔ handKey a = handKey b := by
  constructor
  · intro h
    unfold beqHand at h
    simp only [Bool.and_eq_true, decide_eq_true_eq] at h
    exact handKey_determined ha hb h.1
      ((valuesMatch_iff (by rw [ha.1.1, hb.1.1])).mp h.2)
  · intro h
    obtain ⟨hr, hv⟩ := key_inj ha hb h
    unfold beqHand
    simp only [Bool.and_eq_true, decide_eq_true_eq]
    exact ⟨hr, (valuesMatch_iff (by rw [ha.1.1, hb.1.1])).mpr hv⟩

/-- The comparator computes exactly the lexicographic comparison of the
hand keys, for every pair of parsed hands; in particular it never panics
on them. -/
theorem pcmp_good {a b : PokerHand} (ha : GoodHand a) (hb : GoodHand b) :
    pcmp a b = some (lexNat (handKey a) (handKey b)) := by
  by_cases hbeq : beqHand a b = true
  case pos =>
    have hkeq := (beqHand_iff_key ha hb).mp hbeq
    unfold pcmp
    rw [if_pos hbeq, hkeq, lexNat_self]
  case neg =>
  by_cases hr : a.rank = b.rank
  case neg =>
    unfold pcmp handKey
    rw [if_neg hbeq, if_pos hr]
    have hne : natCmp (rankVal a.rank) (rankVal b.rank) ≠ .eq := fun he =>
      hr (rankVal_inj (natCmp_eq_iff.mp he))
    cases hc : natCmp (rankVal a.rank) (rankVal b.rank) with
    | eq => exact absurd hc hne
    | lt => simp [lexNat, hc]
    | gt => simp [lexNat, hc]
  case pos =>
  obtain ⟨hva, hsa, hspa⟩ := ha
  obtain ⟨hvb, hsb, hspb⟩ := hb
  unfold pcmp handKey
  rw [if_neg hbeq, if_neg (not_not_intro hr), ← hr] at *
  rw [← hr] at hspb
  cases hrk : a.rank with
  | NotRanked =>
    rw [hrk] at hspa
    exact False.elim hspa
  | StraightFlush =>
    rw [hrk] at hspa hspb
    dsimp only
    obtain ⟨⟨v0, hrun⟩, -, -, -⟩ :
        (∃ v0, vals a.cards_ranked = [v0, v0 + 1, v0 + 2, v0 + 3, v0 + 4]) ∧
          a.spares = [] ∧ (a.rank_swapped_aces = false → a.cards_ranked = a.cards) ∧
          (a.rank_swapped_aces = true → isConsecutive a.cards = false ∧
            14 ∈ vals a.cards ∧
            (vals a.cards_ranked).Perm ((vals a.cards).map remap1)) := hspa
    obtain ⟨⟨w0, hrun'⟩, -, -, -⟩ :
        (∃ w0, vals b.cards_ranked = [w0, w0 + 1, w0 + 2, w0 + 3, w0 + 4]) ∧
          b.spares = [] ∧ (b.rank_swapped_aces = false → b.cards_ranked = b.cards) ∧
          (b.rank_swapped_aces = true → isConsecutive b.cards = false ∧
            14 ∈ vals b.cards ∧
            (vals b.cards_ranked).Perm ((vals b.cards).map remap1)) := hspb
    have hk1 : val? a.cards_ranked 0 = some v0 := by rw [val?_eq, hrun]; rfl
    have hk1' : val? b.cards_ranked 0 = some w0 := by rw [val?_eq, hrun']; rfl
    rw [lexNat_cons_eq, hk1, hk1']
    simp only [Option.bind_eq_bind, Option.some_bind, Option.getD_some]
    rw [lexNat_one]
  | Straight =>
    rw [hrk] at hspa hspb
    dsimp only
    obtain ⟨⟨v0, hrun⟩, -, -, -⟩ :
        (∃ v0, vals a.cards_ranked = [v0, v0 + 1, v0 + 2, v0 + 3, v0 + 4]) ∧
          a.spares = [] ∧ (a.rank_swapped_aces = false → a.cards_ranked = a.cards) ∧
          (a.rank_swapped_aces = true → isConsecutive a.cards = false ∧
            14 ∈ vals a.cards ∧
            (vals a.cards_ranked).Perm ((vals a.cards).map remap1)) := hspa
    obtain ⟨⟨w0, hrun'⟩, -, -, -⟩ :
        (∃ w0, vals b.cards_ranked = [w0, w0 + 1, w0 + 2, w0 + 3, w0 + 4]) ∧
          b.spares = [] ∧ (b.rank_swapped_aces = false → b.cards_ranked = b.cards) ∧
          (b.rank_swapped_aces = true → isConsecutive b.cards = false ∧
            14 ∈ vals b.cards ∧
            (vals b.cards_ranked).Perm ((vals b.cards).map remap1)) := hspb
    have hk1 : val? a.cards_ranked 0 = some v0 := by rw [val?_eq, hrun]; rfl
    have hk1' : val? b.cards_ranked 0 = some w0 := by rw [val?_eq, hrun']; rfl
    rw [lexNat_cons_eq, hk1, hk1']
    simp only [Option.bind_eq_bind, Option.some_bind, Option.getD_some]
    rw [lexNat_one]
  | FourOfAKind =>
    rw [hrk] at hspa hspb
    dsimp only
    obtain ⟨-, q, s, hqs, hrv, hsp, hcp⟩ :
        a.rank_swapped_aces = false ∧ ∃ q s, q ≠ s ∧
          vals a.cards_ranked = [q, q, q, q] ∧ vals a.spares = [remap1 s] ∧
          (vals a.cards).Perm [q, q, q, q, s] := hspa
    obtain ⟨-, q', s', hqs', hrv', hsp', hcp'⟩ :
        b.rank_swapped_aces = false ∧ ∃ q s, q ≠ s ∧
          vals b.cards_ranked = [q, q, q, q] ∧ vals b.spares = [remap1 s] ∧
          (vals b.cards).Perm [q, q, q, q, s] := hspb
    have hk1 : val? a.cards_ranked 0 = some q := by rw [val?_eq, hrv]; rfl
    have hk1' : val? b.cards_ranked 0 = some q' := by rw [val?_eq, hrv']; rfl
    have hk2 : val? a.spares 0 = some (remap1 s) := by rw [val?_eq, hsp]; rfl
    have hk2' : val? b.spares 0 = some (remap1 s') := by rw [val?_eq, hsp']; rfl
    rw [lexNat_cons_eq, hk1, hk1', hk2, hk2']
    simp only [Option.bind_eq_bind, Option.some_bind, Option.getD_some]
    by_cases hqq : q = q'
    · subst hqq
      rw [if_pos rfl, lexNat_cons_eq, lexNat_one]
    · rw [if_neg hqq]
      cases hc : natCmp q q' with
      | eq => exact absurd (natCmp_eq_iff.mp hc) hqq
      | lt => simp [lexNat, hc]
      | gt => simp [lexNat, hc]
  | FullHouse =>
    rw [hrk] at hspa hspb
    dsimp only
    obtain ⟨-, -, t, p, htp, hrv, hcp⟩ :
        a.rank_swapped_aces = false ∧ a.spares = [] ∧ ∃ t p, t ≠ p ∧
          vals a.cards_ranked = [t, t, t, p, p] ∧
          (vals a.cards).Perm [t, t, t, p, p] := hspa
    obtain ⟨-, -, t', p', htp', hrv', hcp'⟩ :
        b.rank_swapped_aces = false ∧ b.spares = [] ∧ ∃ t p, t ≠ p ∧
          vals b.cards_ranked = [t, t, t, p, p] ∧
          (vals b.cards).Perm [t, t, t, p, p] := hspb
    have hk1 : val? a.cards_ranked 0 = some t := by rw [val?_eq, hrv]; rfl
    have hk1' : val? b.cards_ranked 0 = some t' := by rw [val?_eq, hrv']; rfl
    have hk2 : val? a.cards_ranked 3 = some p := by rw [val?_eq, hrv]; rfl
    have hk2' : val? b.cards_ranked 3 = some p' := by rw [val?_eq, hrv']; rfl
    rw [lexNat_cons_eq, hk1, hk1', hk2, hk2']
    simp only [Option.bind_eq_bind, Option.some_bind, Option.getD_some]
    cases hc : natCmp t t' with
    | eq =>
      obtain rfl := natCmp_eq_iff.mp hc
      rw [lexNat_cons_eq, lexNat_one]
    | lt => simp [lexNat, hc]
    | gt => simp [lexNat, hc]
  | Flush =>
    rw [hrk] at hspa hspb
    dsimp only
    obtain ⟨-, -, hcr⟩ :
        a.rank_swapped_aces = false ∧ a.spares = [] ∧ a.cards_ranked = a.cards := hspa
    obtain ⟨-, -, hcr'⟩ :
        b.rank_swapped_aces = false ∧ b.spares = [] ∧ b.cards_ranked = b.cards := hspb
    rw [lexNat_cons_eq]
    have hlen : a.cards_ranked.length = b.cards_ranked.length := by
      rw [hcr, hcr', hva.1, hvb.1]
    exact cmpSeq_eq_lexNat hlen
  | ThreeOfAKind =>
    rw [hrk] at hspa hspb
    dsimp only
    obtain ⟨-, t, x, y, htx, hty, hxy, hrv, hsort, hpermsp, hcp⟩ :
        a.rank_swapped_aces = false ∧ ∃ t u v, t ≠ u ∧ t ≠ v ∧ u ≠ v ∧
          vals a.cards_ranked = [t, t, t] ∧ (vals a.spares).Sorted (· ≥ ·) ∧
          (vals a.spares).Perm [remap1 u, remap1 v] ∧
          (vals a.cards).Perm [t, t, t, u, v] := hspa
    obtain ⟨-, t', x', y', htx', hty', hxy', hrv', hsort', hpermsp', hcp'⟩ :
        b.rank_swapped_aces = false ∧ ∃ t u v, t ≠ u ∧ t ≠ v ∧ u ≠ v ∧
          vals b.cards_ranked = [t, t, t] ∧ (vals b.spares).Sorted (· ≥ ·) ∧
          (vals b.spares).Perm [remap1 u, remap1 v] ∧
          (vals b.cards).Perm [t, t, t, u, v] := hspb
    have hla : a.spares.length = 2 := by
      have h1 := hpermsp.length_eq
      rw [vals_length] at h1
      simpa using h1
    have hlb : b.spares.length = 2 := by
      have h1 := hpermsp'.length_eq
      rw [vals_length] at h1
      simpa using h1
    have hlensp : a.spares.length = b.spares.length := by rw [hla, hlb]
    have hk1 : val? a.cards_ranked 0 = some t := by rw [val?_eq, hrv]; rfl
    have hk1' : val? b.cards_ranked 0 = some t' := by rw [val?_eq, hrv']; rfl
    rw [lexNat_cons_eq, hk1, hk1']
    simp only [Option.bind_eq_bind, Option.some_bind, Option.getD_some]
    rw [if_neg (by simp)]
    cases hc : natCmp t t' with
    | eq =>
      obtain rfl := natCmp_eq_iff.mp hc
      rw [lexNat_cons_eq]
      exact cmpSeq_eq_lexNat hlensp
    | lt => simp [lexNat, hc]
    | gt => simp [lexNat, hc]
  | TwoPair =>
    rw [hrk] at hspa hspb
    dsimp only
    obtain ⟨-, hi, lo, s, hlh, hsh, hsl, hrv, hsp, hcp⟩ :
        a.rank_swapped_aces = false ∧ ∃ hi lo s, lo < hi ∧ s ≠ hi ∧ s ≠ lo ∧
          vals a.cards_ranked = [hi, hi, lo, lo] ∧ vals a.spares = [remap1 s] ∧
          (vals a.cards).Perm [hi, hi, lo, lo, s] := hspa
    obtain ⟨-, hi', lo', s', hlh', hsh', hsl', hrv', hsp', hcp'⟩ :
        b.rank_swapped_aces = false ∧ ∃ hi lo s, lo < hi ∧ s ≠ hi ∧ s ≠ lo ∧
          vals b.cards_ranked = [hi, hi, lo, lo] ∧ vals b.spares = [remap1 s] ∧
          (vals b.cards).Perm [hi, hi, lo, lo, s] := hspb
    have hla : a.spares.length = 1 := by
      have h1 := congrArg List.length hsp
      rw [vals_length] at h1
      simpa using h1
    have hlb : b.spares.length = 1 := by
      have h1 := congrArg List.length hsp'
      rw [vals_length] at h1
      simpa using h1
    have hlensp : a.spares.length = b.spares.length := by rw [hla, hlb]
    have hk1 : val? a.cards_ranked 0 = some hi := by rw [val?_eq, hrv]; rfl
    have hk1' : val? b.cards_ranked 0 = some hi' := by rw [val?_eq, hrv']; rfl
    have hk2 : val? a.cards_ranked 2 = some lo := by rw [val?_eq, hrv]; rfl
    have hk2' : val? b.cards_ranked 2 = some lo' := by rw [val?_eq, hrv']; rfl
    rw [lexNat_cons_eq, hk1, hk1', hk2, hk2']
    simp only [Option.bind_eq_bind, Option.some_bind, Option.getD_some]
    by_cases hc : natCmp hi hi' = Ordering.eq
    · rw [if_pos ⟨hc, trivial⟩]
      obtain rfl := natCmp_eq_iff.mp hc
      rw [lexNat_cons_eq]
      cases hc2 : natCmp lo lo' with
      | eq =>
        obtain rfl := natCmp_eq_iff.mp hc2
        rw [lexNat_cons_eq, cmpSeq_eq_lexNat hlensp, hsp, hsp']
      | lt => simp [lexNat, hc2]
      | gt => simp [lexNat, hc2]
    · rw [if_neg (fun hand => hc hand.1)]
      cases hc3 : natCmp hi hi' with
      | eq => exact absurd hc3 hc
      | lt => simp [lexNat, hc3]
      | gt => simp [lexNat, hc3]
  | OnePair =>
    rw [hrk] at hspa hspb
    dsimp only
    obtain ⟨-, p, x, y, z, hpx, hpy, hpz, hxy, hxz, hyz, hrv, hsort, hpermsp, hcp⟩ :
        a.rank_swapped_aces = false ∧ ∃ p u v w, p ≠ u ∧ p ≠ v ∧ p ≠ w ∧ u ≠ v ∧
          u ≠ w ∧ v ≠ w ∧ vals a.cards_ranked = [p, p] ∧
          (vals a.spares).Sorted (· ≥ ·) ∧
          (vals a.spares).Perm [remap1 u, remap1 v, remap1 w] ∧
          (vals a.cards).Perm [p, p, u, v, w] := hspa
    obtain ⟨-, p', x', y', z', hpx', hpy', hpz', hxy', hxz', hyz', hrv', hsort',
        hpermsp', hcp'⟩ :
        b.rank_swapped_aces = false ∧ ∃ p u v w, p ≠ u ∧ p ≠ v ∧ p ≠ w ∧ u ≠ v ∧
          u ≠ w ∧ v ≠ w ∧ vals b.cards_ranked = [p, p] ∧
          (vals b.spares).Sorted (· ≥ ·) ∧
          (vals b.spares).Perm [remap1 u, remap1 v, remap1 w] ∧
          (vals b.cards).Perm [p, p, u, v, w] := hspb
    have hla : a.spares.length = 3 := by
      have h1 := hpermsp.length_eq
      rw [vals_length] at h1
      simpa using h1
    have hlb : b.spares.length = 3 := by
      have h1 := hpermsp'.length_eq
      rw [vals_length] at h1
      simpa using h1
    have hlensp : a.spares.length = b.spares.length := by rw [hla, hlb]
    have hk1 : val? a.cards_ranked 0 = some p := by rw [val?_eq, hrv]; rfl
    have hk1' : val? b.cards_ranked 0 = some p' := by rw [val?_eq, hrv']; rfl
    rw [lexNat_cons_eq, hk1, hk1']
    simp only [Option.bind_eq_bind, Option.some_bind, Option.getD_some]
    rw [if_neg (by simp)]
    cases hc : natCmp p p' with
    | eq =>
      obtain rfl := natCmp_eq_iff.mp hc
      rw [lexNat_cons_eq]
      exact cmpSeq_eq_lexNat hlensp
    | lt => simp [lexNat, hc]
    | gt => simp [lexNat, hc]
  | HighCard =>
    rw [hrk] at hspa hspb
    dsimp only
    obtain ⟨-, -, hsort, hperm⟩ :
        a.rank_swapped_aces = false ∧ a.cards_ranked = [] ∧
          (vals a.spares).Sorted (· ≥ ·) ∧
          (vals a.spares).Perm ((vals a.cards).map remap1) := hspa
    obtain ⟨-, -, hsort', hperm'⟩ :
        b.rank_swapped_aces = false ∧ b.cards_ranked = [] ∧
          (vals b.spares).Sorted (· ≥ ·) ∧
          (vals b.spares).Perm ((vals b.cards).map remap1) := hspb
    have hla : a.spares.length = 5 := by
      have h1 := hperm.length_eq
      rw [vals_length, List.length_map, vals_length, hva.1] at h1
      exact h1
    have hlb : b.spares.length = 5 := by
      have h1 := hperm'.length_eq
      rw [vals_length, List.length_map, vals_length, hvb.1] at h1
      exact h1
    rw [lexNat_cons_eq]
    exact cmpSeq_eq_lexNat (by rw [hla, hlb])

/-! ### Claim C4: the comparator is a total order consistent with equality -/

/-- C4.  On validly parsed and classified hands the comparator
`partial_cmp` never panics, is reflexive, antisymmetric (two hands each no
greater than the other compare `Equal`), transitive, and total, and it
returns `Equal` exactly when the two hands have the same category and
position-wise equal card values (suits never distinguishing) — that is,
exactly when `PartialEq::eq` holds. -/
theorem claim_C4_comparator_total_order
    (a b c : PokerHand) (ia ib ic : Nat) (sa sb sc : String)
    (hpa : fromParse ia sa = some a) (hva : ValidHand a)
    (hpb : fromParse ib sb = some b) (hvb : ValidHand b)
    (hpc : fromParse ic sc = some c) (hvc : ValidHand c) :
    (pcmp a b).isSome = true ∧
    pcmp a a = some .eq ∧
    (pcmp a b = some .eq ↔ a.rank = b.rank ∧ valuesMatch a.cards b.cards = true) ∧
    (pcmp a b = some .eq ↔ beqHand a b = true) ∧
    pcmp b a = (pcmp a b).map Ordering.swap ∧
    (pcmp a b ≠ some .gt → pcmp b a ≠ some .gt → pcmp a b = some .eq) ∧
    (pcmp a b ≠ some .gt → pcmp b c ≠ some .gt → pcmp a c ≠ some .gt) ∧
    (pcmp a b ≠ some .gt ∨ pcmp b a ≠ some .gt) := by
  have ga := fromParse_good hpa hva
  have gb := fromParse_good hpb hvb
  have gc := fromParse_good hpc hvc
  have hab := pcmp_good ga gb
  have hba := pcmp_good gb ga
  have haa := pcmp_good ga ga
  have hbc := pcmp_good gb gc
  have hac := pcmp_good ga gc
  have heqiff : pcmp a b = some .eq ↔ beqHand a b = true := by
    rw [hab]
    simp only [Option.some.injEq]
    rw [lexNat_eq_iff]
    exact (beqHand_iff_key ga gb).symm
  refine ⟨by rw [hab]; rfl, ?_, ?_, heqiff, ?_, ?_, ?_, ?_⟩
  · rw [haa, lexNat_self]
  · rw [heqiff]
    unfold beqHand
    rw [Bool.and_eq_true, decide_eq_true_eq]
  · rw [hab, hba, Option.map_some', lexNat_swap]
  · intro h1 h2
    rw [hab] at h1 ⊢
    rw [hba] at h2
    simp only [ne_eq, Option.some.injEq] at h1 h2
    rw [Option.some.injEq, lexNat_le_antisymm h1 h2, lexNat_self]
  · intro h1 h2
    rw [hab] at h1
    rw [hbc] at h2
    rw [hac]
    simp only [ne_eq, Option.some.injEq] at h1 h2 ⊢
    exact lexNat_le_trans h1 h2
  · rw [hab, hba]
    simp only [ne_eq, Option.some.injEq]
    exact lexNat_total

def junkHand : PokerHand :=
  { id := 0, cards := [], rank := .NotRanked, rank_swapped_aces := false,
    cards_ranked := [], spares := [] }

def handC4a : PokerHand := (fromParse 0 "2S 3H 5D 9C KD").getD junkHand

def handC4b : PokerHand := (fromParse 1 "2H 3D 5S 9H KH").getD junkHand

def handC4c : PokerHand := (fromParse 2 "4S 4H 4D 4C 9S").getD junkHand

theorem claim_C4_witness :
    pcmp handC4a handC4a = some .eq ∧
    (pcmp handC4a handC4b = some .eq ↔
      handC4a.rank = handC4b.rank ∧
      valuesMatch handC4a.cards handC4b.cards = true) ∧
    (pcmp handC4a handC4c ≠ some .gt ∨ pcmp handC4c handC4a ≠ some .gt) :=
  have h := claim_C4_comparator_total_order handC4a handC4b handC4c 0 1 2
    "2S 3H 5D 9C KD" "2H 3D 5S 9H KH" "4S 4H 4D 4C 9S"
    (by decide) (by decide) (by decide) (by decide) (by decide) (by decide)
  have h2 := claim_C4_comparator_total_order handC4a handC4c handC4b 0 2 1
    "2S 3H 5D 9C KD" "4S 4H 4D 4C 9S" "2H 3D 5S 9H KH"
    (by decide) (by decide) (by decide) (by decide) (by decide) (by decide)
  ⟨h.2.1, h.2.2.1, h2.2.2.2.2.2.2.2⟩

/-! ### Claim C7: classification totality, the panic branch is unreachable -/

/-- C7.  Every validly parsed five-card hand is classified with one of the
nine real categories — never the `NotRanked` placeholder — and consequently
the comparator never reaches its panicking fallthrough on two such hands
(`partial_cmp` is `some`). -/
theorem claim_C7_classification_total (a b : PokerHand) (ia ib : Nat)
    (sa sb : String)
    (hpa : fromParse ia sa = some a) (hva : ValidHand a)
    (hpb : fromParse ib sb = some b) (hvb : ValidHand b) :
    a.rank ≠ .NotRanked ∧ (pcmp a b).isSome = true := by
  have ga := fromParse_good hpa hva
  have gb := fromParse_good hpb hvb
  refine ⟨?_, by rw [pcmp_good ga gb]; rfl⟩
  intro hnr
  have hspa := ga.2.2
  rw [hnr] at hspa
  exact hspa

theorem claim_C7_witness :
    handC4a.rank ≠ .NotRanked ∧ (pcmp handC4a handC4c).isSome = true :=
  claim_C7_classification_total handC4a handC4c 0 2
    "2S 3H 5D 9C KD" "4S 4H 4D 4C 9S"
    (by decide) (by decide) (by decide) (by decide)

/-! ### Claim C8: straights compare by their representative top card -/

/-- The representative value of a straight as the spec words it: the
highest non-ace rank when ace-low detection was used, otherwise the true
highest rank.  (Modelled from the spec, for comparison with the code.) -/
def specRepTop (h : PokerHand) : Nat :=
  if h.rank_swapped_aces then
    ((vals h.cards).filter (fun v => v != 14)).foldr max 0
  else (vals h.cards).foldr max 0

theorem natCmp_add_right {x y k : Nat} : natCmp (x + k) (y + k) = natCmp x y := by
  unfold natCmp
  split_ifs <;> first | rfl | omega

theorem foldr_max_run {v0 : Nat} :
    ([v0, v0 + 1, v0 + 2, v0 + 3, v0 + 4] : List Nat).foldr max 0 = v0 + 4 := by
  simp only [List.foldr_cons, List.foldr_nil]
  omega

theorem foldr_max_perm {l l' : List Nat} (h : l.Perm l') :
    l.foldr max 0 = l'.foldr max 0 := by
  induction h with
  | nil => rfl
  | cons x h ih => simp only [List.foldr_cons, ih]
  | swap x y l =>
    simp only [List.foldr_cons]
    omega
  | trans h1 h2 ih1 ih2 => rw [ih1, ih2]

theorem map_unremap1_remap1 {L : List Nat} (hL : ∀ v ∈ L, 2 ≤ v ∧ v ≤ 14) :
    (L.map remap1).map unremap1 = L := by
  induction L with
  | nil => rfl
  | cons x t ih =>
    simp only [List.map_cons]
    rw [ih fun v hv => hL v (by simp [hv]),
      unremap1_remap1 (hL x (by simp)).1 (hL x (by simp)).2]

theorem run_swapped_bottom {A : List Nat} (hA : ∀ v ∈ A, 2 ≤ v ∧ v ≤ 14)
    (h14 : 14 ∈ A) {v0 : Nat}
    (hperm : ([v0, v0 + 1, v0 + 2, v0 + 3, v0 + 4] : List Nat).Perm (A.map remap1)) :
    v0 = 1 := by
  have h1m : (1 : Nat) ∈ ([v0, v0 + 1, v0 + 2, v0 + 3, v0 + 4] : List Nat) :=
    (hperm.mem_iff).mpr (List.mem_map.mpr ⟨14, h14, rfl⟩)
  have hlb : ∀ u ∈ ([v0, v0 + 1, v0 + 2, v0 + 3, v0 + 4] : List Nat), 1 ≤ u := by
    intro u hu
    obtain ⟨w, hw, rfl⟩ := List.mem_map.mp ((hperm.mem_iff).mp hu)
    have hr := hA w hw
    unfold remap1
    split_ifs <;> omega
  have hv0 := hlb v0 (by simp)
  simp only [List.mem_cons, List.mem_singleton, List.not_mem_nil, or_false] at h1m
  omega

theorem specRepTop_of_straight {h : PokerHand} (hv : ValidHand h)
    {v0 : Nat}
    (hrun : vals h.cards_ranked = [v0, v0 + 1, v0 + 2, v0 + 3, v0 + 4])
    (hswf : h.rank_swapped_aces = false → h.cards_ranked = h.cards)
    (hswt : h.rank_swapped_aces = true → isConsecutive h.cards = false ∧
      14 ∈ vals h.cards ∧ (vals h.cards_ranked).Perm ((vals h.cards).map remap1)) :
    specRepTop h = v0 + 4 := by
  unfold specRepTop
  cases hf : h.rank_swapped_aces with
  | false =>
    rw [if_neg (by simp)]
    rw [hswf hf] at hrun
    rw [hrun, foldr_max_run]
  | true =>
    obtain ⟨hnc, h14, hperm⟩ := hswt hf
    rw [if_pos rfl]
    rw [hrun] at hperm
    have hv1 : v0 = 1 := run_swapped_bottom (vals_range hv) h14 hperm
    subst hv1
    have h2 := hperm.map unremap1
    rw [map_unremap1_remap1 (vals_range hv)] at h2
    have h3 : (([1, 2, 3, 4, 5] : List Nat).map unremap1) = [14, 2, 3, 4, 5] := rfl
    rw [h3] at h2
    have h4 := (h2.symm).filter (fun v => v != 14)
    have h5 : (([14, 2, 3, 4, 5] : List Nat).filter (fun v => v != 14)) =
        [2, 3, 4, 5] := rfl
    rw [h5] at h4
    rw [foldr_max_perm h4]
    decide

/-- C8.  For two validly parsed hands in the same straight category
(`Straight` or `StraightFlush`), the comparator orders them exactly by
their representative value: the highest non-ace rank (5 for `A-2-3-4-5`)
when ace-low detection was used, otherwise the true highest rank. -/
theorem claim_C8_straight_rep_top (a b : PokerHand) (ia ib : Nat) (sa sb : String)
    (hpa : fromParse ia sa = some a) (hva : ValidHand a)
    (hpb : fromParse ib sb = some b) (hvb : ValidHand b)
    (hrk : a.rank = .StraightFlush ∨ a.rank = .Straight)
    (hr : a.rank = b.rank) :
    pcmp a b = some (natCmp (specRepTop a) (specRepTop b)) := by
  have ga := fromParse_good hpa hva
  have gb := fromParse_good hpb hvb
  rw [pcmp_good ga gb]
  obtain ⟨hva', hsa, hspa⟩ := ga
  obtain ⟨hvb', hsb, hspb⟩ := gb
  rw [← hr] at hspb
  unfold handKey
  rw [← hr]
  rcases hrk with hrk | hrk
  all_goals
    rw [hrk] at hspa hspb
    rw [hrk]
    dsimp only
    obtain ⟨⟨v0, hrun⟩, -, hswf, hswt⟩ :
        (∃ v0, vals a.cards_ranked = [v0, v0 + 1, v0 + 2, v0 + 3, v0 + 4]) ∧
          a.spares = [] ∧ (a.rank_swapped_aces = false → a.cards_ranked = a.cards) ∧
          (a.rank_swapped_aces = true → isConsecutive a.cards = false ∧
            14 ∈ vals a.cards ∧
            (vals a.cards_ranked).Perm ((vals a.cards).map remap1)) := hspa
    obtain ⟨⟨w0, hrun'⟩, -, hswf', hswt'⟩ :
        (∃ w0, vals b.cards_ranked = [w0, w0 + 1, w0 + 2, w0 + 3, w0 + 4]) ∧
          b.spares = [] ∧ (b.rank_swapped_aces = false → b.cards_ranked = b.cards) ∧
          (b.rank_swapped_aces = true → isConsecutive b.cards = false ∧
            14 ∈ vals b.cards ∧
            (vals b.cards_ranked).Perm ((vals b.cards).map remap1)) := hspb
  all_goals
    have hk1 : (val? a.cards_ranked 0).getD 0 = v0 := by rw [val?_eq, hrun]; rfl
    have hk1' : (val? b.cards_ranked 0).getD 0 = w0 := by rw [val?_eq, hrun']; rfl
    rw [lexNat_cons_eq, hk1, hk1', lexNat_one,
      specRepTop_of_straight hva' hrun hswf hswt,
      specRepTop_of_straight hvb' hrun' hswf' hswt',
      natCmp_add_right]

def handC8a : PokerHand := (fromParse 0 "4S 5S 6S 7S 8S").getD junkHand

def handC8b : PokerHand := (fromParse 1 "AS 2S 3S 4S 5S").getD junkHand

theorem claim_C8_witness :
    specRepTop handC8a = 8 ∧ specRepTop handC8b = 5 ∧
    pcmp handC8a handC8b = some (natCmp (specRepTop handC8a) (specRepTop handC8b)) ∧
    pcmp handC8a handC8b = some .gt :=
  ⟨by decide, by decide,
    claim_C8_straight_rep_top handC8a handC8b 0 1 "4S 5S 6S 7S 8S" "AS 2S 3S 4S 5S"
      (by decide) (by decide) (by decide) (by decide) (by decide) (by decide),
    by decide⟩

/-! ### Claim C1: kicker values — the ace is remapped low -/

/-- C1 (amended).  The kickers of a validly parsed hand are sorted
descending, but an ace among them is remapped to the value 1 (low): the
value 14 never appears in the spares, so a hand whose highest kicker is an
ace does not beat equal ranked groups with a king kicker. -/
theorem claim_C1_kickers_ace_remapped_low (h : PokerHand) (i : Nat) (s : String)
    (hp : fromParse i s = some h) (hv : ValidHand h) :
    (vals h.spares).Sorted (· ≥ ·) ∧ ∀ v ∈ vals h.spares, v ≠ 14 := by
  obtain ⟨hv', hs, hsp⟩ := fromParse_good hp hv
  cases hrk : h.rank with
  | NotRanked => rw [hrk] at hsp; exact False.elim hsp
  | StraightFlush =>
    rw [hrk] at hsp
    have hsp0 : h.spares = [] := hsp.2.1
    rw [hsp0]
    exact ⟨List.sorted_nil, by simp [vals]⟩
  | Straight =>
    rw [hrk] at hsp
    have hsp0 : h.spares = [] := hsp.2.1
    rw [hsp0]
    exact ⟨List.sorted_nil, by simp [vals]⟩
  | FullHouse =>
    rw [hrk] at hsp
    have hsp0 : h.spares = [] := hsp.2.1
    rw [hsp0]
    exact ⟨List.sorted_nil, by simp [vals]⟩
  | Flush =>
    rw [hrk] at hsp
    have hsp0 : h.spares = [] := hsp.2.1
    rw [hsp0]
    exact ⟨List.sorted_nil, by simp [vals]⟩
  | FourOfAKind =>
    rw [hrk] at hsp
    obtain ⟨-, q, s', -, -, hspv, -⟩ :
        h.rank_swapped_aces = false ∧ ∃ q s, q ≠ s ∧
          vals h.cards_ranked = [q, q, q, q] ∧ vals h.spares = [remap1 s] ∧
          (vals h.cards).Perm [q, q, q, q, s] := hsp
    rw [hspv]
    refine ⟨List.sorted_singleton _, ?_⟩
    intro v hvm
    simp only [List.mem_singleton] at hvm
    subst hvm
    exact remap1_ne_14
  | TwoPair =>
    rw [hrk] at hsp
    obtain ⟨-, hi, lo, s', -, -, -, -, hspv, -⟩ :
        h.rank_swapped_aces = false ∧ ∃ hi lo s, lo < hi ∧ s ≠ hi ∧ s ≠ lo ∧
          vals h.cards_ranked = [hi, hi, lo, lo] ∧ vals h.spares = [remap1 s] ∧
          (vals h.cards).Perm [hi, hi, lo, lo, s] := hsp
    rw [hspv]
    refine ⟨List.sorted_singleton _, ?_⟩
    intro v hvm
    simp only [List.mem_singleton] at hvm
    subst hvm
    exact remap1_ne_14
  | ThreeOfAKind =>
    rw [hrk] at hsp
    obtain ⟨-, t, x, y, -, -, -, -, hsort, hpermsp, -⟩ :
        h.rank_swapped_aces = false ∧ ∃ t u v, t ≠ u ∧ t ≠ v ∧ u ≠ v ∧
          vals h.cards_ranked = [t, t, t] ∧ (vals h.spares).Sorted (· ≥ ·) ∧
          (vals h.spares).Perm [remap1 u, remap1 v] ∧
          (vals h.cards).Perm [t, t, t, u, v] := hsp
    refine ⟨hsort, ?_⟩
    intro v hvm
    have hm := (hpermsp.mem_iff).mp hvm
    simp only [List.mem_cons, List.not_mem_nil, or_false] at hm
    rcases hm with rfl | rfl <;> exact remap1_ne_14
  | OnePair =>
    rw [hrk] at hsp
    obtain ⟨-, p, x, y, z, -, -, -, -, -, -, -, hsort, hpermsp, -⟩ :
        h.rank_swapped_aces = false ∧ ∃ p u v w, p ≠ u ∧ p ≠ v ∧ p ≠ w ∧ u ≠ v ∧
          u ≠ w ∧ v ≠ w ∧ vals h.cards_ranked = [p, p] ∧
          (vals h.spares).Sorted (· ≥ ·) ∧
          (vals h.spares).Perm [remap1 u, remap1 v, remap1 w] ∧
          (vals h.cards).Perm [p, p, u, v, w] := hsp
    refine ⟨hsort, ?_⟩
    intro v hvm
    have hm := (hpermsp.mem_iff).mp hvm
    simp only [List.mem_cons, List.not_mem_nil, or_false] at hm
    rcases hm with rfl | rfl | rfl <;> exact remap1_ne_14
  | HighCard =>
    rw [hrk] at hsp
    obtain ⟨-, -, hsort, hperm⟩ :
        h.rank_swapped_aces = false ∧ h.cards_ranked = [] ∧
          (vals h.spares).Sorted (· ≥ ·) ∧
          (vals h.spares).Perm ((vals h.cards).map remap1) := hsp
    refine ⟨hsort, ?_⟩
    intro v hvm
    obtain ⟨w, hw, rfl⟩ := List.mem_map.mp ((hperm.mem_iff).mp hvm)
    exact remap1_ne_14

def handC1 : PokerHand := (fromParse 0 "2S 2H 9D 10C AS").getD junkHand

theorem claim_C1_witness :
    (vals handC1.spares).Sorted (· ≥ ·) ∧ ∀ v ∈ vals handC1.spares, v ≠ 14 :=
  claim_C1_kickers_ace_remapped_low handC1 0 "2S 2H 9D 10C AS" (by decide) (by decide)

/-- C1 (counterexample).  Two one-pair hands with equal ranked groups
(pair of twos): the hand whose highest kicker is an ace has spares
`[10, 9, 1]`, compares `Less` against the king-kicker hand, and loses in
`winning_hands` — contradicting "ace always valued 14 for kickers". -/
theorem claim_C1_counterexample :
    (fromParse 0 "2S 2H 9D 10C AS").map (fun h => vals h.spares) = some [10, 9, 1] ∧
    ((fromParse 0 "2S 2H 9D 10C AS").bind fun x =>
      (fromParse 1 "2D 2C 9H 10S KD").bind fun y => pcmp x y) = some .lt ∧
    winningHands ["2S 2H 9D 10C AS", "2D 2C 9H 10S KD"] = some ["2D 2C 9H 10S KD"] :=
  ⟨by decide, by decide, by decide⟩

/-! ### Claim C2: flush ties compare from the lowest card upward -/

/-- C2 (amended).  For two validly parsed hands both classified `Flush`,
the tie-break walks `cards_ranked`, which equals the hand cards kept in
ascending sorted order: the comparison is lexicographic from each hand
LOWEST card upward, not from the highest downward. -/
theorem claim_C2_flush_compare_ascending (a b : PokerHand) (ia ib : Nat)
    (sa sb : String)
    (hpa : fromParse ia sa = some a) (hva : ValidHand a)
    (hpb : fromParse ib sb = some b) (hvb : ValidHand b)
    (hrk : a.rank = .Flush) (hr : a.rank = b.rank) :
    (vals a.cards).Sorted (· ≤ ·) ∧ (vals b.cards).Sorted (· ≤ ·) ∧
    pcmp a b = some (lexNat (vals a.cards) (vals b.cards)) := by
  have ga := fromParse_good hpa hva
  have gb := fromParse_good hpb hvb
  refine ⟨ga.2.1, gb.2.1, ?_⟩
  rw [pcmp_good ga gb]
  obtain ⟨hva', hsa, hspa⟩ := ga
  obtain ⟨hvb', hsb, hspb⟩ := gb
  rw [← hr] at hspb
  unfold handKey
  rw [← hr]
  rw [hrk] at hspa hspb ⊢
  dsimp only
  obtain ⟨-, -, hcr⟩ :
      a.rank_swapped_aces = false ∧ a.spares = [] ∧ a.cards_ranked = a.cards := hspa
  obtain ⟨-, -, hcr'⟩ :
      b.rank_swapped_aces = false ∧ b.spares = [] ∧ b.cards_ranked = b.cards := hspb
  rw [lexNat_cons_eq, hcr, hcr']

def handC2a : PokerHand := (fromParse 0 "2S 9S JS QS KS").getD junkHand

def handC2b : PokerHand := (fromParse 1 "3H 9H 10H JH QH").getD junkHand

theorem claim_C2_witness :
    (vals handC2a.cards).Sorted (· ≤ ·) ∧ (vals handC2b.cards).Sorted (· ≤ ·) ∧
    pcmp handC2a handC2b = some (lexNat (vals handC2a.cards) (vals handC2b.cards)) :=
  claim_C2_flush_compare_ascending handC2a handC2b 0 1
    "2S 9S JS QS KS" "3H 9H 10H JH QH"
    (by decide) (by decide) (by decide) (by decide) (by decide) (by decide)

/-- C2 (counterexample).  The flush `2S 9S JS QS KS` has the greater top
card (king against queen) but compares `Less` against `3H 9H 10H JH QH`
because its lowest card 2 is below 3, and it loses in `winning_hands` —
contradicting element-wise comparison descending from the top card. -/
theorem claim_C2_counterexample :
    ((fromParse 0 "2S 9S JS QS KS").bind fun x =>
      (fromParse 1 "3H 9H 10H JH QH").bind fun y => pcmp x y) = some .lt ∧
    winningHands ["2S 9S JS QS KS", "3H 9H 10H JH QH"] = some ["3H 9H 10H JH QH"] :=
  ⟨by decide, by decide⟩

/-! ### Claim C3: malformed input is not surfaced as a failure result -/

/-- C3 (amended).  There is no failure result: a duplicated card or a
wrong token count is silently classified (`2S 2S 9H 9H JD` becomes
`TwoPair`, the two-token hand `2S 3S` becomes `StraightFlush`), while an
empty string or an invalid rank token makes the parse panic (modelled
`none`), which `winning_hands` propagates as a crash, not as an error
value identifying the hand. -/
theorem claim_C3_no_explicit_failure :
    (fromParse 0 "2S 2S 9H 9H JD").map (fun h => h.rank) = some .TwoPair ∧
    (fromParse 0 "2S 3S").map (fun h => h.rank) = some .StraightFlush ∧
    parseCards "" = none ∧
    parseCards "XS 3H 5D 9C KD" = none ∧
    winningHands [""] = none ∧
    winningHands ["XS 3H 5D 9C KD"] = none :=
  ⟨by decide, by decide, by decide, by decide, by decide, by decide⟩

/-- C3 (counterexample).  The spec own example `2S 2S 9H 9H JD` (duplicate
cards) does not yield an explicit failure: it is silently classified and
even wins against an honest high-card hand. -/
theorem claim_C3_counterexample :
    winningHands ["2S 2S 9H 9H JD", "4S 3H 5D 9C KD"] = some ["2S 2S 9H 9H JD"] := by
  decide

/-! ### Claim C6: accepted rank tokens -/

/-- C6 (amended).  The face letters map as claimed and non-numeric
garbage fails, but the numeric path is `u16` parsing: every digit string
with value at most 65535 is accepted — including `0`, `1`, `15` — and a
leading `+` is allowed; lowercase face letters fail. -/
theorem claim_C6_rank_parsing_behaviour :
    parseRankChars ['A'] = some 14 ∧ parseRankChars ['K'] = some 13 ∧
    parseRankChars ['Q'] = some 12 ∧ parseRankChars ['J'] = some 11 ∧
    parseRankChars ['1', '0'] = some 10 ∧ parseRankChars ['2'] = some 2 ∧
    parseRankChars ['0'] = some 0 ∧ parseRankChars ['1'] = some 1 ∧
    parseRankChars ['1', '5'] = some 15 ∧
    parseRankChars ['6', '5', '5', '3', '5'] = some 65535 ∧
    parseRankChars ['6', '5', '5', '3', '6'] = none ∧
    parseRankChars ['+', '2'] = some 2 ∧
    parseRankChars ['B'] = none ∧ parseRankChars ['a'] = none := by
  decide

/-- C6 (counterexample).  The rank tokens `0` and `15` are outside
2-10/J/Q/K/A yet parse successfully, and whole hands containing them are
accepted rather than failing. -/
theorem claim_C6_counterexample :
    parseRankChars ['0'] = some 0 ∧ parseRankChars ['1', '5'] = some 15 ∧
    (fromParse 0 "0S 3H 5D 9C KD").map (fun h => h.rank) = some .HighCard ∧
    (fromParse 0 "15S 3H 5D 9C KD").isSome = true := by
  decide

/-! ### Claim C10: the Joker sentinel suit is playable -/

/-- C10.  A hand whose five tokens end in the same unknown suit character
parses with every card given the `Joker` sentinel suit; the sentinel suits
compare equal, so the hand classifies as a `Flush` (`StraightFlush` when
consecutive) and can win at the public interface. -/
theorem claim_C10_joker_suit_flush :
    (fromParse 0 "2X 6X 9X JX KX").map (fun h => h.rank) = some .Flush ∧
    (fromParse 0 "2X 6X 9X JX KX").map
      (fun h => (h.cards.map (fun c => c.suit)).all
        (fun s => decide (s = CardSuit.Joker))) = some true ∧
    (fromParse 0 "2X 3X 4X 5X 6X").map (fun h => h.rank) = some .StraightFlush ∧
    winningHands ["2X 6X 9X JX KX", "AS AH AD 2C KS"] = some ["2X 6X 9X JX KX"] := by
  decide

/-! ### The parsing fold of `winning_hands` -/

theorem fromParseWith_id {f1 f2 : List Card → List (List Card)} {i : Nat}
    {s : String} {h : PokerHand} (hp : fromParseWith f1 f2 i s = some h) :
    h.id = i := by
  unfold fromParseWith at hp
  cases hpc : parseCards s with
  | none => rw [hpc] at hp; cases hp
  | some cards =>
    rw [hpc] at hp
    simp only [Option.map_some', Option.some.injEq] at hp
    rw [← hp]

theorem parseAllWith_elim {f1 f2 : List Card → List (List Card)} :
    ∀ {idx : Nat} {hands : List String} {phs : List PokerHand},
    parseAllWith f1 f2 idx hands = some phs →
    phs.length = hands.length ∧
    phs.map (fun p => p.id) = List.range' idx hands.length ∧
    ∀ p ∈ phs, ∃ s, s ∈ hands ∧ fromParseWith f1 f2 p.id s = some p
  | _, [], phs, hp => by
    unfold parseAllWith at hp
    obtain rfl : ([] : List PokerHand) = phs := by
      simpa using hp
    exact ⟨rfl, rfl, by simp⟩
  | idx, s :: rest, phs, hp => by
    unfold parseAllWith at hp
    cases hh : fromParseWith f1 f2 idx s with
    | none => rw [hh] at hp; simp at hp
    | some h =>
      rw [hh] at hp
      cases ht : parseAllWith f1 f2 (idx + 1) rest with
      | none => rw [ht] at hp; simp at hp
      | some t =>
        rw [ht] at hp
        simp only [Option.bind_eq_bind, Option.some_bind, Option.pure_def,
          Option.some.injEq] at hp
        obtain rfl := hp.symm
        obtain ⟨hlen, hids, hmem⟩ := parseAllWith_elim ht
        refine ⟨by simp [hlen], ?_, ?_⟩
        · simp only [List.map_cons, hids, List.length_cons]
          rw [fromParseWith_id hh, List.range'_succ]
        · intro p hp2
          rcases List.mem_cons.mp hp2 with rfl | hp3
          · exact ⟨s, by simp, by rw [fromParseWith_id hh]; exact hh⟩
          · obtain ⟨s', hs1, hs2⟩ := hmem p hp3
            exact ⟨s', by simp [hs1], hs2⟩

/-! ### Winner collection -/

theorem beqHand_eq_decide_key {q m : PokerHand} (hgq : GoodHand q)
    (hgm : GoodHand m) :
    beqHand q m = decide (handKey q = handKey m) := by
  by_cases hqk : handKey q = handKey m
  · rw [(beqHand_iff_key hgq hgm).mpr hqk, decide_eq_true hqk]
  · have h1 : beqHand q m ≠ true := fun hb => hqk ((beqHand_iff_key hgq hgm).mp hb)
    rw [Bool.eq_false_iff.mpr h1, decide_eq_false hqk]

theorem winnersRun_eq_filter {m : PokerHand} (hgm : GoodHand m)
    {rest : List PokerHand} :
    ∀ {prev : PokerHand}, GoodHand prev → handKey prev = handKey m →
    (∀ q ∈ rest, GoodHand q) →
    (∀ q ∈ rest, lexNat (handKey q) (handKey m) ≠ .gt) →
    rest.Pairwise (fun a b => lexNat (handKey b) (handKey a) ≠ .gt) →
    winnersRun prev rest = rest.filter fun q => beqHand q m := by
  induction rest with
  | nil => intro prev _ _ _ _ _; rfl
  | cons c rest' ih =>
    intro prev hgp hkp hg hle hpw
    have hgc : GoodHand c := hg c (by simp)
    unfold winnersRun
    rw [pcmp_good hgc hgp]
    by_cases hc : handKey c = handKey m
    · rw [if_pos (by rw [hc, hkp, lexNat_self])]
      rw [List.filter_cons, if_pos ((beqHand_iff_key hgc hgm).mpr hc)]
      exact congrArg (c :: ·) (ih hgc hc (fun q hq => hg q (by simp [hq]))
        (fun q hq => hle q (by simp [hq])) (List.pairwise_cons.mp hpw).2)
    · rw [if_neg (by
        intro he
        rw [Option.some.injEq, lexNat_eq_iff] at he
        exact hc (he.trans hkp))]
      rw [List.filter_cons, if_neg (by
        rw [beqHand_eq_decide_key hgc hgm]
        simp [hc])]
      refine (List.filter_eq_nil.mpr ?_).symm
      intro q hq
      rw [beqHand_eq_decide_key (hg q (by simp [hq])) hgm]
      simp only [decide_eq_true_eq]
      intro hqm
      have h1 := (List.pairwise_cons.mp hpw).1 q hq
      rw [hqm] at h1
      have h2 := hle c (by simp)
      exact hc (lexNat_le_antisymm h2 h1)

/-- The winner set of `winning_hands`, for any `HashMap` iteration orders:
when every hand parses to a valid five-card hand, the output is the
original strings of exactly those hands whose key equals the key of a
maximum hand, in input order. -/
theorem winningHandsWith_char (f1 f2 : List Card → List (List Card))
    (hf1 : ∀ l, (f1 l).Perm (groupByValue l))
    (hf2 : ∀ l, (f2 l).Perm (groupByValue l))
    (hands : List String) (phs : List PokerHand)
    (hp : parseAllWith f1 f2 0 hands = some phs)
    (hv : ∀ p ∈ phs, ValidHand p)
    (hne : hands ≠ []) :
    ∃ m, m ∈ phs ∧ GoodHand m ∧ (∀ p ∈ phs, GoodHand p) ∧
      (∀ p ∈ phs, lexNat (handKey p) (handKey m) ≠ .gt) ∧
      winningHandsWith f1 f2 hands =
        some ((phs.filter fun p => decide (handKey p = handKey m)).map
          fun p => hands.getD p.id "") := by
  obtain ⟨hlen, hids, hmem⟩ := parseAllWith_elim hp
  have hgood : ∀ p ∈ phs, GoodHand p := fun p hpm => by
    obtain ⟨s', -, hs2⟩ := hmem p hpm
    exact fromParseWith_good hf1 hf2 hs2 (hv p hpm)
  have hphsne : phs ≠ [] := by
    intro h0
    rw [h0] at hlen
    exact hne (List.length_eq_zero.mp hlen.symm)
  have hguard : (phs.all fun a => phs.all fun b => (pcmp a b).isSome) = true := by
    rw [List.all_eq_true]
    intro a hax
    rw [List.all_eq_true]
    intro b hbx
    rw [pcmp_good (hgood a hax) (hgood b hbx)]
    rfl
  have hcongr : sortByOrd (fun a b => (pcmp b a).getD .eq) phs
      = sortByOrd (fun a b => lexNat (handKey b) (handKey a)) phs :=
    sortByOrd_congr _ _ phs fun a hax b hbx => by
      rw [pcmp_good (hgood b hbx) (hgood a hax)]
      rfl
  have hsorted := sortByOrd_sorted
    (fun a b : PokerHand => lexNat (handKey b) (handKey a))
    (fun a b => lexNat_swap)
    (fun a b c h1 h2 => lexNat_le_trans h2 h1) phs
  unfold winningHandsWith
  rw [hp]
  simp only [Option.bind_eq_bind, Option.some_bind]
  rw [if_pos hguard, hcongr]
  cases hs0 : sortByOrd (fun a b => lexNat (handKey b) (handKey a)) phs with
  | nil =>
    exfalso
    have hl := congrArg List.length hs0
    rw [sortByOrd_length] at hl
    exact hphsne (List.length_eq_zero.mp hl)
  | cons m rest =>
    rw [hs0] at hsorted
    have hmm : m ∈ phs := by
      have hmem2 : m ∈ sortByOrd (fun a b => lexNat (handKey b) (handKey a)) phs := by
        rw [hs0]
        simp
      exact mem_sortByOrd.mp hmem2
    have hgm := hgood m hmm
    have hgrest : ∀ q ∈ rest, GoodHand q := fun q hq => by
      have hmem2 : q ∈ sortByOrd (fun a b => lexNat (handKey b) (handKey a)) phs := by
        rw [hs0]
        simp [hq]
      exact hgood q (mem_sortByOrd.mp hmem2)
    have hle : ∀ q ∈ rest, lexNat (handKey q) (handKey m) ≠ .gt :=
      (List.pairwise_cons.mp hsorted).1
    have hlephs : ∀ p ∈ phs, lexNat (handKey p) (handKey m) ≠ .gt := by
      intro p hpx
      have hpin : p ∈ m :: rest := by
        rw [← hs0]
        exact mem_sortByOrd.mpr hpx
      rcases List.mem_cons.mp hpin with rfl | hrest
      · rw [lexNat_self]
        simp
      · exact hle p hrest
  
    refine ⟨m, hmm, hgm, hgood, hlephs, ?_⟩
    show some ((m :: winnersRun m rest).map fun ph => hands.getD ph.id "")
      = some ((phs.filter fun p => decide (handKey p = handKey m)).map
          fun p => hands.getD p.id "")
    have hrun : winnersRun m rest = rest.filter fun q => beqHand q m :=
      winnersRun_eq_filter hgm hgm rfl hgrest hle (List.pairwise_cons.mp hsorted).2
    have hwinners : m :: winnersRun m rest
        = (m :: rest).filter fun q => beqHand q m := by
      rw [List.filter_cons, if_pos ((beqHand_iff_key hgm hgm).mpr rfl), hrun]
    have hfc1 : (m :: rest).filter (fun q => beqHand q m)
        = (m :: rest).filter fun q => decide (handKey q = handKey m) := by
      rw [← hs0]
      refine List.filter_congr fun q hq => ?_
      exact beqHand_eq_decide_key (hgood q (mem_sortByOrd.mp hq)) hgm
    have hfc2 : (sortByOrd (fun a b => lexNat (handKey b) (handKey a)) phs).filter
          (fun q => decide (handKey q = handKey m))
        = phs.filter fun q => decide (handKey q = handKey m) := by
      refine filter_sortByOrd _ phs _ ?_
      intro a b ha hb
      rw [decide_eq_true_eq] at ha hb
      rw [ha, hb, lexNat_self]
      simp
    rw [hwinners, hfc1, ← hs0, hfc2]

/-! ### Claim C5: the winner set of `winning_hands` -/

/-- C5.  When every hand string parses to a valid five-card hand:
the empty input yields `some []`; a single hand is its own sole winner
(returned as the original string); and in general the output is `some` of
exactly those input strings whose parsed hand compares `Equal` to a
maximum hand under the comparator, selected from the parsed list in its
original order and read back from the input list by index — the parsed
ids are precisely `0, 1, 2, …` in input order. -/
theorem claim_C5_winning_hands (hands : List String) (phs : List PokerHand)
    (hp : parseAllWith groupByValue groupByValue 0 hands = some phs)
    (hv : ∀ p ∈ phs, ValidHand p) :
    winningHands [] = some [] ∧
    phs.map (fun p => p.id) = List.range hands.length ∧
    (∀ s, hands = [s] → winningHands hands = some [s]) ∧
    (hands ≠ [] → ∃ m, m ∈ phs ∧ (∀ p ∈ phs, pcmp p m ≠ some .gt) ∧
      winningHands hands =
        some ((phs.filter fun p => decide (pcmp p m = some .eq)).map
          fun p => hands.getD p.id "")) := by
  obtain ⟨hlen, hids, hmem⟩ := parseAllWith_elim hp
  have hgood : ∀ p ∈ phs, GoodHand p := fun p hpm => by
    obtain ⟨s', -, hs2⟩ := hmem p hpm
    exact fromParseWith_good (fun _ => Perm.refl _) (fun _ => Perm.refl _) hs2
      (hv p hpm)
  refine ⟨by decide, by rw [hids, List.range_eq_range'], ?_, ?_⟩
  · intro s hseq
    subst hseq
    have hl1 : phs.length = 1 := by rw [hlen]; rfl
    obtain ⟨h0, rfl⟩ := list_len1 hl1
    have hid0 : h0.id = 0 := by
      simp only [List.map_cons, List.map_nil, List.length_cons, List.length_nil] at hids
      have hr1 : List.range' 0 1 = [0] := rfl
      rw [hr1] at hids
      exact (List.cons.injEq _ _ _ _).mp hids |>.1
    have hg0 := hgood h0 (by simp)
    obtain ⟨m, hmm, hgm, -, -, hout⟩ := winningHandsWith_char groupByValue groupByValue
      (fun _ => Perm.refl _) (fun _ => Perm.refl _) [s] [h0] hp hv (by simp)
    have hm0 : m = h0 := by
      simpa using hmm
    subst hm0
    show winningHands [s] = some [s]
    unfold winningHands
    rw [hout]
    rw [List.filter_cons, if_pos (by simp), List.filter_nil, List.map_cons,
      List.map_nil, hid0]
    rfl
  · intro hne
    obtain ⟨m, hmm, hgm, hgood2, hle, hout⟩ := winningHandsWith_char
      groupByValue groupByValue (fun _ => Perm.refl _) (fun _ => Perm.refl _)
      hands phs hp hv hne
    refine ⟨m, hmm, ?_, ?_⟩
    · intro p hpx
      rw [pcmp_good (hgood p hpx) hgm]
      simp only [ne_eq, Option.some.injEq]
      exact hle p hpx
    · show winningHands hands = _
      unfold winningHands
      rw [hout]
      congr 1
      refine congrArg _ (List.filter_congr fun q hq => ?_)
      refine decide_eq_decide.mpr ?_
      rw [pcmp_good (hgood q hq) hgm]
      simp [lexNat_eq_iff]

def handsC5 : List String := ["2S 2H 9D 10C AS", "2D 2C 9H 10S KD", "4S 3H 5D 9C KD"]

def phsC5 : List PokerHand := (parseAllWith groupByValue groupByValue 0 handsC5).getD []

theorem claim_C5_witness :
    winningHands [] = some [] ∧
    phsC5.map (fun p => p.id) = List.range handsC5.length ∧
    (∃ m, m ∈ phsC5 ∧ (∀ p ∈ phsC5, pcmp p m ≠ some .gt) ∧
      winningHands handsC5 =
        some ((phsC5.filter fun p => decide (pcmp p m = some .eq)).map
          fun p => handsC5.getD p.id "")) :=
  have h := claim_C5_winning_hands handsC5 phsC5 (by decide) (by decide)
  ⟨h.1, h.2.1, h.2.2.2 (by decide)⟩

/-! ### Claim C9: independence from the `HashMap` iteration order -/

theorem headD_length (l : List (List Card)) :
    (l.headD []).length = (l.map List.length).headD 0 := by
  cases l <;> rfl

theorem lenSort_map_length_eq {cards : List Card} {gs gs' : List (List Card)}
    (h1 : gs.Perm (groupByValue cards)) (h2 : gs'.Perm (groupByValue cards)) :
    (sortByOrd (fun a b : List Card => natCmp b.length a.length) gs).map
        List.length =
      (sortByOrd (fun a b : List Card => natCmp b.length a.length) gs').map
        List.length := by
  refine sortedDesc_eq_of_perm ?_ ?_ ?_
  · exact (((sortByOrd_perm _ gs).trans (h1.trans h2.symm)).trans
      (sortByOrd_perm _ gs').symm).map _
  · rw [List.Sorted, List.pairwise_map]
    exact (lenDesc_sorted gs).imp fun h => h
  · rw [List.Sorted, List.pairwise_map]
    exact (lenDesc_sorted gs').imp fun h => h

theorem rankPairs_rank_eq {s2 s2' : List (List Card)}
    (hmap : s2.map List.length = s2'.map List.length) :
    (rankPairs s2).rank = (rankPairs s2').rank := by
  have hlen : s2.length = s2'.length := by
    have h := congrArg List.length hmap
    simpa using h
  have hhead : (s2.headD []).length = (s2'.headD []).length := by
    rw [headD_length, headD_length, hmap]
  unfold rankPairs
  by_cases h3 : s2.length = 3
  · have h3' : s2'.length = 3 := by rw [← hlen]; exact h3
    rw [if_pos h3, if_pos h3']
    by_cases hh3 : (s2.headD []).length = 3
    · have hh3' : (s2'.headD []).length = 3 := by rw [← hhead]; exact hh3
      rw [if_pos hh3, if_pos hh3']
    · have hh3' : ¬(s2'.headD []).length = 3 := by rw [← hhead]; exact hh3
      rw [if_neg hh3, if_neg hh3']
  · have h3' : ¬s2'.length = 3 := by rw [← hlen]; exact h3
    rw [if_neg h3, if_neg h3']
    by_cases h4 : s2.length = 4
    · have h4' : s2'.length = 4 := by rw [← hlen]; exact h4
      rw [if_pos h4, if_pos h4']
    · have h4' : ¬s2'.length = 4 := by rw [← hlen]; exact h4
      rw [if_neg h4, if_neg h4']

theorem rankMid_rank_eq {gs1 gs2 gs1' gs2' : List (List Card)} {cards : List Card}
    (h1 : gs1.Perm (groupByValue cards)) (h1' : gs1'.Perm (groupByValue cards))
    (h2 : gs2.Perm (groupByValue cards)) (h2' : gs2'.Perm (groupByValue cards)) :
    (rankMid gs1 gs2 cards).rank = (rankMid gs1' gs2' cards).rank := by
  have hm1 := lenSort_map_length_eq h1 h1'
  have hm2 := lenSort_map_length_eq h2 h2'
  have hlen1 : (sortByOrd (fun a b : List Card => natCmp b.length a.length)
      gs1).length =
      (sortByOrd (fun a b : List Card => natCmp b.length a.length) gs1').length := by
    have h := congrArg List.length hm1
    simpa using h
  have hhead1 :
      ((sortByOrd (fun a b : List Card => natCmp b.length a.length)
        gs1).headD []).length =
      ((sortByOrd (fun a b : List Card => natCmp b.length a.length)
        gs1').headD []).length := by
    rw [headD_length, headD_length, hm1]
  simp only [rankMid]
  by_cases hq : (sortByOrd (fun a b : List Card => natCmp b.length a.length)
      gs1).length = 2 ∧
      ((sortByOrd (fun a b : List Card => natCmp b.length a.length)
        gs1).headD []).length = 4
  · have hq' : (sortByOrd (fun a b : List Card => natCmp b.length a.length)
        gs1').length = 2 ∧
        ((sortByOrd (fun a b : List Card => natCmp b.length a.length)
          gs1').headD []).length = 4 := by rw [← hlen1, ← hhead1]; exact hq
    rw [if_pos hq, if_pos hq']
  · have hq' : ¬((sortByOrd (fun a b : List Card => natCmp b.length a.length)
        gs1').length = 2 ∧
        ((sortByOrd (fun a b : List Card => natCmp b.length a.length)
          gs1').headD []).length = 4) := by rw [← hlen1, ← hhead1]; exact hq
    rw [if_neg hq, if_neg hq']
    by_cases hq3 : (sortByOrd (fun a b : List Card => natCmp b.length a.length)
        gs1).length = 2 ∧
        ((sortByOrd (fun a b : List Card => natCmp b.length a.length)
          gs1).headD []).length = 3
    · have hq3' : (sortByOrd (fun a b : List Card => natCmp b.length a.length)
          gs1').length = 2 ∧
          ((sortByOrd (fun a b : List Card => natCmp b.length a.length)
            gs1').headD []).length = 3 := by rw [← hlen1, ← hhead1]; exact hq3
      rw [if_pos hq3, if_pos hq3']
    · have hq3' : ¬((sortByOrd (fun a b : List Card => natCmp b.length a.length)
          gs1').length = 2 ∧
          ((sortByOrd (fun a b : List Card => natCmp b.length a.length)
            gs1').headD []).length = 3) := by rw [← hlen1, ← hhead1]; exact hq3
      rw [if_neg hq3, if_neg hq3']
      by_cases hFl : allSameSuit cards = true
      · rw [if_pos hFl, if_pos hFl]
      · rw [if_neg hFl, if_neg hFl]
        cases hst : acesSwapOver isConsecutive cards with
        | some pr => rfl
        | none => exact rankPairs_rank_eq hm2

theorem rankHandWith_rank_eq {gs1 gs2 gs1' gs2' : List (List Card)}
    {cards : List Card}
    (h1 : gs1.Perm (groupByValue cards)) (h1' : gs1'.Perm (groupByValue cards))
    (h2 : gs2.Perm (groupByValue cards)) (h2' : gs2'.Perm (groupByValue cards)) :
    (rankHandWith gs1 gs2 cards).rank = (rankHandWith gs1' gs2' cards).rank := by
  unfold rankHandWith
  rw [finishSpares_rank, finishSpares_rank]
  cases hst : acesSwapOver sfCheck cards with
  | some pr => rfl
  | none => exact rankMid_rank_eq h1 h1' h2 h2'

theorem fromParseWith_pair {f1 f2 g1 g2 : List Card → List (List Card)}
    (hf1 : ∀ l, (f1 l).Perm (groupByValue l))
    (hf2 : ∀ l, (f2 l).Perm (groupByValue l))
    (hg1 : ∀ l, (g1 l).Perm (groupByValue l))
    (hg2 : ∀ l, (g2 l).Perm (groupByValue l))
    {idx : Nat} {s : String} {p : PokerHand}
    (hp : fromParseWith f1 f2 idx s = some p) (hv : ValidHand p) :
    ∃ q, fromParseWith g1 g2 idx s = some q ∧
      p.id = q.id ∧ handKey p = handKey q ∧ ValidHand q := by
  obtain ⟨q, hq⟩ : ∃ q, fromParseWith g1 g2 idx s = some q := by
    unfold fromParseWith at hp ⊢
    cases hpc : parseCards s with
    | none => rw [hpc] at hp; cases hp
    | some cards =>
      exact ⟨_, rfl⟩
  have hidp : p.id = idx := fromParseWith_id hp
  have hidq : q.id = idx := fromParseWith_id hq
  have hcards : p.cards = q.cards := by
    unfold fromParseWith at hp hq
    cases hpc : parseCards s with
    | none => rw [hpc] at hp; cases hp
    | some cards =>
      rw [hpc] at hp hq
      simp only [Option.map_some', Option.some.injEq] at hp hq
      rw [← hp, ← hq]
  have hvq : ValidHand q := by
    unfold ValidHand at hv ⊢
    rw [← hcards]
    exact hv
  have hgp : GoodHand p := fromParseWith_good hf1 hf2 hp hv
  have hgq : GoodHand q := fromParseWith_good hg1 hg2 hq hvq
  have hrank : p.rank = q.rank := by
    unfold fromParseWith at hp hq
    cases hpc : parseCards s with
    | none => rw [hpc] at hp; cases hp
    | some cards =>
      rw [hpc] at hp hq
      simp only [Option.map_some', Option.some.injEq] at hp hq
      rw [← hp, ← hq]
      exact rankHandWith_rank_eq (hf1 _) (hg1 _) (hf2 _) (hg2 _)
  exact ⟨q, hq, hidp.trans hidq.symm,
    handKey_determined hgp hgq hrank (by rw [hcards]), hvq⟩

theorem parseAllWith_pair {f1 f2 g1 g2 : List Card → List (List Card)}
    (hf1 : ∀ l, (f1 l).Perm (groupByValue l))
    (hf2 : ∀ l, (f2 l).Perm (groupByValue l))
    (hg1 : ∀ l, (g1 l).Perm (groupByValue l))
    (hg2 : ∀ l, (g2 l).Perm (groupByValue l)) :
    ∀ {idx : Nat} {hands : List String} {phs : List PokerHand},
    parseAllWith f1 f2 idx hands = some phs →
    (∀ p ∈ phs, ValidHand p) →
    ∃ phs', parseAllWith g1 g2 idx hands = some phs' ∧
      List.Forall₂ (fun p q => p.id = q.id ∧ handKey p = handKey q ∧ ValidHand q)
        phs phs'
  | _, [], phs, hp, _ => by
    unfold parseAllWith at hp ⊢
    obtain rfl : ([] : List PokerHand) = phs := by simpa using hp
    exact ⟨[], rfl, List.Forall₂.nil⟩
  | idx, s :: rest, phs, hp, hv => by
    unfold parseAllWith at hp ⊢
    cases hh : fromParseWith f1 f2 idx s with
    | none => rw [hh] at hp; simp at hp
    | some h =>
      rw [hh] at hp
      cases ht : parseAllWith f1 f2 (idx + 1) rest with
      | none => rw [ht] at hp; simp at hp
      | some t =>
        rw [ht] at hp
        simp only [Option.bind_eq_bind, Option.some_bind, Option.pure_def,
          Option.some.injEq] at hp
        obtain rfl := hp.symm
        obtain ⟨q, hq, hid, hk, hvq⟩ := fromParseWith_pair hf1 hf2 hg1 hg2 hh
          (hv h (by simp))
        obtain ⟨t', ht', hrel⟩ := parseAllWith_pair hf1 hf2 hg1 hg2 ht
          (fun p hpm => hv p (by simp [hpm]))
        rw [hq, ht']
        exact ⟨q :: t', rfl, List.Forall₂.cons ⟨hid, hk, hvq⟩ hrel⟩

theorem forall₂_mem_right {R : α → β → Prop} :
    ∀ {l : List α} {l' : List β}, List.Forall₂ R l l' → ∀ q ∈ l', ∃ p ∈ l, R p q
  | _, _, List.Forall₂.nil, q, hq => absurd hq (List.not_mem_nil q)
  | _, _, List.Forall₂.cons hpq htail, q, hq => by
    rcases List.mem_cons.mp hq with rfl | hq2
    · exact ⟨_, List.mem_cons_self _ _, hpq⟩
    · obtain ⟨p, hp1, hp2⟩ := forall₂_mem_right htail q hq2
      exact ⟨p, List.mem_cons_of_mem _ hp1, hp2⟩

theorem forall₂_mem_left {R : α → β → Prop} :
    ∀ {l : List α} {l' : List β}, List.Forall₂ R l l' → ∀ p ∈ l, ∃ q ∈ l', R p q
  | _, _, List.Forall₂.nil, p, hp => absurd hp (List.not_mem_nil p)
  | _, _, List.Forall₂.cons hpq htail, p, hp => by
    rcases List.mem_cons.mp hp with rfl | hp2
    · exact ⟨_, List.mem_cons_self _ _, hpq⟩
    · obtain ⟨q, hq1, hq2⟩ := forall₂_mem_left htail p hp2
      exact ⟨q, List.mem_cons_of_mem _ hq1, hq2⟩

theorem out_transfer (hands : List String) (K : List Nat)
    {phs phs' : List PokerHand}
    (hrel : List.Forall₂ (fun p q => p.id = q.id ∧ handKey p = handKey q) phs phs') :
    (phs.filter fun p => decide (handKey p = K)).map (fun p => hands.getD p.id "")
      = (phs'.filter fun p => decide (handKey p = K)).map
        fun p => hands.getD p.id "" := by
  induction hrel with
  | nil => rfl
  | cons hpq htail ih =>
    rename_i p q ps qs
    obtain ⟨hid, hk⟩ := hpq
    rw [List.filter_cons, List.filter_cons, hk]
    by_cases hq2 : decide (handKey q = K) = true
    case pos =>
      rw [if_pos hq2, if_pos hq2, List.map_cons, List.map_cons, hid, ih]
    case neg =>
      rw [if_neg hq2, if_neg hq2, ih]

/-- C9.  `winning_hands` does not depend on the iteration order of the
rank-frequency `HashMap`: running the pipeline with any two group orders
(each a permutation of the canonical grouping, once per `values()` call)
gives identical output whenever every hand parses to a valid five-card
hand.  In particular two runs on the same input agree. -/
theorem claim_C9_deterministic (f1 f2 g1 g2 : List Card → List (List Card))
    (hf1 : ∀ l, (f1 l).Perm (groupByValue l))
    (hf2 : ∀ l, (f2 l).Perm (groupByValue l))
    (hg1 : ∀ l, (g1 l).Perm (groupByValue l))
    (hg2 : ∀ l, (g2 l).Perm (groupByValue l))
    (hands : List String) (phs : List PokerHand)
    (hp : parseAllWith f1 f2 0 hands = some phs)
    (hv : ∀ p ∈ phs, ValidHand p) :
    winningHandsWith f1 f2 hands = winningHandsWith g1 g2 hands := by
  obtain ⟨phs', hp', hrel⟩ := parseAllWith_pair hf1 hf2 hg1 hg2 hp hv
  by_cases hne : hands = []
  · subst hne
    unfold parseAllWith at hp hp'
    obtain rfl : ([] : List PokerHand) = phs := by simpa using hp
    obtain rfl : ([] : List PokerHand) = phs' := by simpa using hp'
    rfl
  · have hv' : ∀ q ∈ phs', ValidHand q := by
      intro q hq
      obtain ⟨p, -, -, -, hvq⟩ := forall₂_mem_right hrel q hq
      exact hvq
    obtain ⟨m, hmm, hgm, hgoodL, hleL, houtL⟩ :=
      winningHandsWith_char f1 f2 hf1 hf2 hands phs hp hv hne
    obtain ⟨m', hmm', hgm', hgoodR, hleR, houtR⟩ :=
      winningHandsWith_char g1 g2 hg1 hg2 hands phs' hp' hv' hne
    have hkm : handKey m = handKey m' := by
      have h1 : lexNat (handKey m') (handKey m) ≠ .gt := by
        obtain ⟨p, hpmem, -, hk, -⟩ := forall₂_mem_right hrel m' hmm'
        have hh := hleL p hpmem
        rwa [hk] at hh
      have h2 : lexNat (handKey m) (handKey m') ≠ .gt := by
        obtain ⟨q, hqmem, -, hk, -⟩ := forall₂_mem_left hrel m hmm
        have hh := hleR q hqmem
        rwa [← hk] at hh
      exact lexNat_le_antisymm h2 h1
    rw [houtL, houtR,
      out_transfer hands (handKey m) (hrel.imp fun a b hpq => ⟨hpq.1, hpq.2.1⟩), hkm]

def handsC9 : List String := ["2S 2H 9D 10C AS", "3D 3C 9H 10S KD", "4S 3H 5D 9C KD"]

def revGroup (l : List Card) : List (List Card) := (groupByValue l).reverse

def phsC9 : List PokerHand := (parseAllWith revGroup revGroup 0 handsC9).getD []

theorem claim_C9_witness :
    winningHandsWith revGroup revGroup handsC9 =
      winningHandsWith groupByValue groupByValue handsC9 :=
  claim_C9_deterministic revGroup revGroup groupByValue groupByValue
    (fun l => List.reverse_perm _) (fun l => List.reverse_perm _)
    (fun l => Perm.refl _) (fun l => Perm.refl _)
    handsC9 phsC9 (by decide) (by decide)

end PokerRanking
